import Mathlib

/-!
Verification of the mediamanager core (Library / Catalog / Collection / Record
and their persistence codec), shallowly embedded from the Go sources
(library.go, catalog.go, collection.go, record.go, util.go, main.go; the
latest snapshot of each).

Modelling conventions:
- Go `*Record` pointers are addresses (plain naturals) into an explicit `Heap`;
  records are never freed (Go is garbage collected), so an allocated address
  stays readable forever and `Heap.get` with a default is only ever applied to
  allocated addresses in reachable states.
- Go maps are association lists with unique keys (`alistGet` / `alistSet` /
  `alistDel`); insertion of a fresh key appends, overwriting keeps position.
  Go map iteration order is unspecified; the model iterates in list order,
  which is immaterial to every property proved here (all observables are
  order independent or explicitly sorted, as in the Save functions).
- Go `int` is `Int` (no arithmetic here approaches the 64-bit range).
- The `bufio.Reader` input stream is a `List Char`; `Res` captures the three
  possible outcomes of the I/O helpers in util.go: a value, a returned
  `Error`, or a runtime panic (`ReadWord` panics when it reads no runes
  before EOF).
- `unicode.IsSpace` / `unicode.IsNumber` are modelled on the ASCII range
  (isSpaceGo / Char.isDigit); no operation in the spec or claims depends on
  non-ASCII classification.
- `strconv.Atoi`'s int64 range check is not modelled; it only matters for
  decimal literals of 19+ digits, which every claim avoids, and such inputs
  are still rejected by the restore functions (just on a later read).
-/

namespace MM

/-! ### Characters and low-level reading (util.go) -/

/-- unicode.IsSpace restricted to the ASCII range: space, \t, \n, \v, \f, \r. -/
def isSpaceGo (c : Char) : Bool :=
  c = ' ' ∨ c = '\t' ∨ c = '\n' ∨ c = '\r' ∨ c = Char.ofNat 11 ∨ c = Char.ofNat 12

/-- The Go `Error` interface: a message plus the ShouldSkipNewline flag,
realized by the two concrete types RegularError and NewlineError. -/
inductive Err where
  | regular (msg : String)
  | newline (msg : String)
deriving DecidableEq

/-- Outcome of running a piece of the program: a result, a returned Error,
or a panic (abnormal termination). -/
inductive Res (α : Type) where
  | ok (a : α)
  | err (e : Err)
  | panicked (msg : String)
deriving DecidableEq

def ErrInvalidFile : String := "Invalid data found in file!"

def errUnreadableInteger : String := "Could not read an integer value!"

/-- SkipWhitespace: drop leading whitespace (EOF is not an error). -/
def skipWs : List Char → List Char
  | [] => []
  | c :: cs => if isSpaceGo c then skipWs cs else c :: cs

/-- take the longest whitespace-free prefix (the loop body of ReadWord). -/
def takeWord : List Char → List Char × List Char
  | [] => ([], [])
  | c :: cs =>
    if isSpaceGo c then ([], c :: cs)
    else
      let p := takeWord cs
      (c :: p.1, p.2)

/-- ReadWord (util.go): skip whitespace, read until whitespace; panics when no
rune was read before EOF (source text of the panic uses a contraction,
reproduced here without the apostrophe). -/
def ReadWord (input : List Char) : Res (String × List Char) :=
  let p := takeWord (skipWs input)
  if p.1.isEmpty then .panicked "did not read any runes before EOF"
  else .ok (⟨p.1⟩, p.2)

/-- take the longest digit prefix (the continuation loop of ReadInt;
unicode.IsNumber modelled as ASCII digits). -/
def takeDigits : List Char → List Char × List Char
  | [] => ([], [])
  | c :: cs =>
    if c.isDigit then
      let p := takeDigits cs
      (c :: p.1, p.2)
    else ([], c :: cs)

/-- decimal value of a digit string. -/
def digitsVal (ds : List Char) : Nat :=
  ds.foldl (fun a c => a * 10 + (c.toNat - 48)) 0

/-- strconv.Atoi on the strings ReadInt collects (optional sign, then digits);
errors on a lone sign or on non-digits. The int64 range check is omitted
(see header). -/
def atoiGo : List Char → Option Int
  | [] => none
  | '+' :: ds =>
    if ds.isEmpty ∨ ¬ ds.all Char.isDigit then none else some (digitsVal ds)
  | '-' :: ds =>
    if ds.isEmpty ∨ ¬ ds.all Char.isDigit then none else some (-(digitsVal ds : Int))
  | ds =>
    if ¬ ds.all Char.isDigit then none else some (digitsVal ds)

/-- ReadInt (util.go): skip whitespace; EOF or a first rune that is neither a
sign nor a digit is a NewlineError (the rune is consumed); otherwise collect
the first rune and following digits and Atoi them. -/
def ReadInt (input : List Char) : Res (Int × List Char) :=
  match skipWs input with
  | [] => .err (.newline errUnreadableInteger)
  | c :: cs =>
    if c = '+' ∨ c = '-' ∨ c.isDigit then
      let p := takeDigits cs
      match atoiGo (c :: p.1) with
      | none => .err (.newline errUnreadableInteger)
      | some n => .ok (n, p.2)
    else .err (.newline errUnreadableInteger)

/-- ReadLine (util.go): read up to and including the next newline, dropping
it; at EOF return what was read. -/
def readLineAux : List Char → List Char × List Char
  | [] => ([], [])
  | c :: cs =>
    if c = '\n' then ([], cs)
    else
      let p := readLineAux cs
      (c :: p.1, p.2)

def ReadLine (input : List Char) : String × List Char :=
  let p := readLineAux input
  (⟨p.1⟩, p.2)

/-! ### Association lists (Go maps with unique keys) -/

def alistGet {κ α : Type} [DecidableEq κ] (k : κ) : List (κ × α) → Option α
  | [] => none
  | p :: ps => if p.1 = k then some p.2 else alistGet k ps

def alistSet {κ α : Type} [DecidableEq κ] (k : κ) (v : α) : List (κ × α) → List (κ × α)
  | [] => [(k, v)]
  | p :: ps => if p.1 = k then (k, v) :: ps else p :: alistSet k v ps

def alistDel {κ α : Type} [DecidableEq κ] (k : κ) : List (κ × α) → List (κ × α)
  | [] => []
  | p :: ps => if p.1 = k then ps else p :: alistDel k ps

/-! ### Record (record.go) and the heap of records -/

structure Record where
  medium : String
  title : String
  rating : Int
  id : Int
  numCollections : Int
deriving DecidableEq

instance : Inhabited Record := ⟨⟨"", "", 0, 0, 0⟩⟩

def NewRecord (medium title : String) (id : Int) : Record :=
  ⟨medium, title, 0, id, 0⟩

structure Heap where
  recs : List (Nat × Record)
  next : Nat
deriving DecidableEq

def Heap.empty : Heap := ⟨[], 0⟩

def Heap.alloc (h : Heap) (r : Record) : Heap × Nat :=
  (⟨(h.next, r) :: h.recs, h.next + 1⟩, h.next)

def Heap.find? (h : Heap) (a : Nat) : Option Record :=
  alistGet a h.recs

/-- dereference a record pointer; the default is never reached on allocated
addresses, and reachable states only index allocated addresses. -/
def Heap.get (h : Heap) (a : Nat) : Record :=
  (h.find? a).getD default

def Heap.write (h : Heap) (a : Nat) (r : Record) : Heap :=
  ⟨alistSet a r h.recs, h.next⟩

/-- SetRating (record.go): only 1..5 accepted. -/
def SetRating (h : Heap) (a : Nat) (newRating : Int) : Except Err Heap :=
  if newRating < 1 ∨ 5 < newRating then .error (.newline "Rating is out of range!")
  else .ok (h.write a { h.get a with rating := newRating })

/-! ### Library (library.go) -/

structure Library where
  byTitle : List (String × Nat)
  byID : List (Int × Nat)
  nextID : Int
deriving DecidableEq

def NewLibrary : Library := ⟨[], [], 1⟩

def errNoSuchRecordTitle : String := "No record with that title!"

def errDuplicateRecordTitle : String := "Library already has a record with this title!"

def FindRecordByTitle (l : Library) (title : String) : Except Err Nat :=
  match alistGet title l.byTitle with
  | none => .error (.regular errNoSuchRecordTitle)
  | some a => .ok a

def FindRecordByID (l : Library) (id : Int) : Except Err Nat :=
  match alistGet id l.byID with
  | none => .error (.newline "No record with that ID!")
  | some a => .ok a

def AddRecord (h : Heap) (l : Library) (medium title : String) :
    Except Err (Heap × Library × Int) :=
  match alistGet title l.byTitle with
  | some _ => .error (.regular errDuplicateRecordTitle)
  | none =>
    let id := l.nextID
    let p := h.alloc (NewRecord medium title id)
    .ok (p.1, ⟨alistSet title p.2 l.byTitle, alistSet id p.2 l.byID, l.nextID + 1⟩, id)

def DeleteRecord (h : Heap) (l : Library) (title : String) : Except Err (Library × Nat) :=
  match alistGet title l.byTitle with
  | none => .error (.regular errNoSuchRecordTitle)
  | some a =>
    let record := h.get a
    if 0 < record.numCollections then
      .error (.regular "Cannot delete a record that is a member of a collection!")
    else
      .ok (⟨alistDel record.title l.byTitle, alistDel record.id l.byID, l.nextID⟩, a)

def ModifyTitle (h : Heap) (l : Library) (a : Nat) (newTitle : String) :
    Except Err (Heap × Library) :=
  match alistGet newTitle l.byTitle with
  | some _ => .error (.regular errDuplicateRecordTitle)
  | none =>
    let record := h.get a
    .ok (h.write a { record with title := newTitle },
      { l with byTitle := alistSet newTitle a (alistDel record.title l.byTitle) })

/-! ### Collection (collection.go) -/

structure Collection where
  name : String
  members : List (Int × Nat)
deriving DecidableEq

def NewCollection (name : String) : Collection := ⟨name, []⟩

def AddMember (h : Heap) (c : Collection) (a : Nat) : Except Err (Heap × Collection) :=
  let record := h.get a
  match alistGet record.id c.members with
  | some _ => .error (.newline "Record is already a member in the collection!")
  | none =>
    .ok (h.write a { record with numCollections := record.numCollections + 1 },
      { c with members := alistSet record.id a c.members })

def DeleteMember (h : Heap) (c : Collection) (a : Nat) : Except Err (Heap × Collection) :=
  let record := h.get a
  match alistGet record.id c.members with
  | none => .error (.newline "Record is not a member in the collection!")
  | some _ =>
    .ok (h.write a { record with numCollections := record.numCollections - 1 },
      { c with members := alistDel record.id c.members })

/-! ### Catalog (catalog.go) -/

structure Catalog where
  collections : List (String × Collection)
deriving DecidableEq

def NewCatalog : Catalog := ⟨[]⟩

def errNoSuchCollection : String := "No collection with that name!"

def errDuplicateCollection : String := "Catalog already has a collection with this name!"

def FindCollection (c : Catalog) (name : String) : Except Err Collection :=
  match alistGet name c.collections with
  | none => .error (.newline errNoSuchCollection)
  | some col => .ok col

def AddCollection (c : Catalog) (name : String) : Except Err Catalog :=
  match alistGet name c.collections with
  | some _ => .error (.newline errDuplicateCollection)
  | none => .ok ⟨alistSet name (NewCollection name) c.collections⟩

/-- clearCollection (catalog.go): decrement numCollections of every member,
then empty the member set. -/
def decMembers (h : Heap) : List (Int × Nat) → Heap
  | [] => h
  | (_, a) :: rest =>
    decMembers (h.write a { h.get a with numCollections := (h.get a).numCollections - 1 }) rest

def clearCollection (h : Heap) (col : Collection) : Heap × Collection :=
  (decMembers h col.members, { col with members := [] })

def DeleteCollection (h : Heap) (c : Catalog) (name : String) : Except Err (Heap × Catalog) :=
  match alistGet name c.collections with
  | none => .error (.newline errNoSuchCollection)
  | some col =>
    .ok ((clearCollection h col).1, ⟨alistDel name c.collections⟩)

/-- Catalog.Clear: clear every collection, then drop them all. -/
def clearColls (h : Heap) : List (String × Collection) → Heap
  | [] => h
  | (_, col) :: rest => clearColls (clearCollection h col).1 rest

def CatalogClear (h : Heap) (c : Catalog) : Heap × Catalog :=
  (clearColls h c.collections, NewCatalog)

/-- Library.Clear: refuse unless every collection of the catalog is empty. -/
def LibraryClear (l : Library) (c : Catalog) : Except Err Library :=
  if c.collections.any (fun p => ¬ p.2.members.isEmpty) then
    .error (.newline "Cannot clear all records unless all collections are empty!")
  else .ok NewLibrary

/-- Library.ClearAll: clear the catalog, then reset the library. -/
def ClearAll (h : Heap) (l : Library) (c : Catalog) : Heap × Library × Catalog :=
  let p := CatalogClear h c
  (p.1, NewLibrary, p.2)

/-- the two AddMember loops of CombineCollections: insert every member of a
source, silently ignoring the duplicate-member error. -/
def addAllMembers (h : Heap) (dst : Collection) : List (Int × Nat) → Heap × Collection
  | [] => (h, dst)
  | (_, a) :: rest =>
    match AddMember h dst a with
    | .ok p => addAllMembers p.1 p.2 rest
    | _ => addAllMembers h dst rest

/-- CombineCollections, string-keyed variant (main.go): look up both sources,
refuse an existing destination name, then build the destination from both
member sets. -/
def CombineCollections (h : Heap) (c : Catalog) (firstName secondName dstName : String) :
    Except Err (Heap × Catalog) :=
  match alistGet firstName c.collections with
  | none => .error (.newline errNoSuchCollection)
  | some firstSrc =>
    match alistGet secondName c.collections with
    | none => .error (.newline errNoSuchCollection)
    | some secondSrc =>
      match alistGet dstName c.collections with
      | some _ => .error (.newline errDuplicateCollection)
      | none =>
        let p := addAllMembers h (NewCollection dstName) firstSrc.members
        let q := addAllMembers p.1 p.2 secondSrc.members
        .ok (q.1, ⟨alistSet dstName q.2 c.collections⟩)

/-! ### Sorting and printing (record.go, library.go, catalog.go) -/

/-- stable insertion into a list sorted with respect to the Bool comparison
`first y x = true` meaning y stays before x. -/
def insertRecBy (first : Record → Record → Bool) (x : Record) : List Record → List Record
  | [] => [x]
  | y :: ys => if first y x then y :: insertRecBy first x ys else x :: y :: ys

def sortRecBy (first : Record → Record → Bool) : List Record → List Record
  | [] => []
  | x :: xs => insertRecBy first x (sortRecBy first xs)

/-- sort.Slice by ascending title (SortRecordsByTitle; titles are unique in
every use, so instability is unobservable). -/
def titleLt (y x : Record) : Bool := y.title < x.title

/-- sort.SliceStable comparison of ListRatings: descending rating. -/
def ratingGt (y x : Record) : Bool := x.rating < y.rating

def sortedRecords (h : Heap) (l : Library) : List Record :=
  sortRecBy titleLt (l.byTitle.map (fun p => h.get p.2))

/-- decimal digits of a natural number (the %d rendering of fmt.Fprintf). -/
def natToDigits (n : Nat) : List Char :=
  if h : n < 10 then [Char.ofNat (48 + n)]
  else natToDigits (n / 10) ++ [Char.ofNat (48 + n % 10)]
decreasing_by exact Nat.div_lt_self (by omega) (by omega)

def intStr (i : Int) : List Char :=
  if i < 0 then '-' :: natToDigits i.natAbs else natToDigits i.toNat

/-- Record.Save: "%d %s %d %s\n" with id, medium, rating, title. -/
def Record.saveLine (r : Record) : List Char :=
  intStr r.id ++ ' ' :: r.medium.data ++ ' ' :: intStr r.rating ++ ' ' :: r.title.data ++ ['\n']

/-- Library.Save: the record count, then one line per record in ascending
title order. -/
def librarySave (h : Heap) (l : Library) : List Char :=
  intStr (l.byTitle.length : Int) ++ '\n' :: ((sortedRecords h l).map Record.saveLine).flatten

/-- Collection.Save: "name count", then one member title per line in
ascending title order. -/
def collectionSave (h : Heap) (col : Collection) : List Char :=
  col.name.data ++ ' ' :: intStr (col.members.length : Int) ++ '\n' ::
    ((sortRecBy titleLt (col.members.map (fun p => h.get p.2))).map
      (fun r => r.title.data ++ ['\n'])).flatten

def insertColByName (x : Collection) : List Collection → List Collection
  | [] => [x]
  | y :: ys => if y.name < x.name then y :: insertColByName x ys else x :: y :: ys

def sortCols : List Collection → List Collection
  | [] => []
  | x :: xs => insertColByName x (sortCols xs)

/-- Catalog.Save: the collection count, then each collection in ascending
name order. -/
def catalogSave (h : Heap) (c : Catalog) : List Char :=
  intStr (c.collections.length : Int) ++ '\n' :: ((sortCols (c.collections.map Prod.snd)).map
    (collectionSave h)).flatten

/-- saveAll (main.go): Library.Save then Catalog.Save to the same stream. -/
def saveAll (h : Heap) (l : Library) (c : Catalog) : List Char :=
  librarySave h l ++ catalogSave h c

/-- Record.String: "id: medium rating title" with `u` for rating 0. -/
def Record.display (r : Record) : List Char :=
  intStr r.id ++ ':' :: ' ' :: r.medium.data ++ ' ' ::
    (if r.rating = 0 then ['u'] else intStr r.rating) ++ ' ' :: r.title.data

/-- SprintRecords: one record per line. -/
def sprintRecords : List Record → List Char
  | [] => []
  | [r] => r.display
  | r :: rest => r.display ++ '\n' :: sprintRecords rest

/-- the regexp `(?i)` + QuoteMeta(substr) of FindString matches a title iff
substr is a case-insensitive literal substring of it. -/
def containsInsensitive (title substr : String) : Bool :=
  decide ((substr.data.map Char.toLower) <:+: (title.data.map Char.toLower))

/-- Library.FindString: all records whose title contains substr
case-insensitively, sorted by title ascending. -/
def FindString (h : Heap) (l : Library) (substr : String) : Except Err String :=
  let found := (l.byTitle.map (fun p => h.get p.2)).filter
    (fun r => containsInsensitive r.title substr)
  if found.isEmpty then .error (.newline "No records contain that string!")
  else .ok ⟨sprintRecords (sortRecBy titleLt found)⟩

def msgLibraryEmpty : String := "Library is empty"

/-- Library.ListRatings: records by rating descending, ties by title
ascending (stable sort over the title-sorted slice). -/
def ListRatings (h : Heap) (l : Library) : String :=
  if l.byTitle.isEmpty then msgLibraryEmpty
  else ⟨sprintRecords (sortRecBy ratingGt (sortedRecords h l))⟩

/-- the per-record occurrence bookkeeping of CollectionStatistics. -/
structure Stats where
  counts : List (Int × Int)
  numOne : Int
  numMany : Int
  total : Int
deriving DecidableEq

def statsMembers (h : Heap) : List (Int × Nat) → Stats → Stats
  | [], st => st
  | (_, a) :: rest, st =>
    let rid := (h.get a).id
    match alistGet rid st.counts with
    | some prev =>
      statsMembers h rest { st with
        counts := alistSet rid (prev + 1) st.counts,
        numMany := if prev = 1 then st.numMany + 1 else st.numMany }
    | none =>
      statsMembers h rest { st with
        counts := alistSet rid 1 st.counts,
        numOne := st.numOne + 1 }

def statsColls (h : Heap) : List (String × Collection) → Stats → Stats
  | [], st => st
  | (_, col) :: rest, st =>
    statsColls h rest
      (statsMembers h col.members { st with total := st.total + (col.members.length : Int) })

/-- Catalog.CollectionStatistics: records in at least one collection, records
in more than one collection, total memberships. -/
def CollectionStatistics (h : Heap) (c : Catalog) : Int × Int × Int :=
  let st := statsColls h c.collections ⟨[], 0, 0, 0⟩
  (st.numOne, st.numMany, st.total)

/-! ### Deserialization (record.go, library.go, collection.go, catalog.go) -/

/-- RestoreRecord: id (err or < 1 rejected), medium word, rating (err or
outside 0..5 rejected), then skip whitespace and take the rest of the line as
the title (empty rejected); numCollections starts at 0. The empty-medium
check is dead code in the source (ReadWord panics instead of returning an
empty word) and is kept faithfully. -/
def RestoreRecord (input : List Char) : Res (Record × List Char) :=
  match ReadInt input with
  | .err _ => .err (.newline ErrInvalidFile)
  | .panicked m => .panicked m
  | .ok (id, input) =>
    if id < 1 then .err (.newline ErrInvalidFile)
    else
      match ReadWord input with
      | .err e => .err e
      | .panicked m => .panicked m
      | .ok (medium, input) =>
        if medium.isEmpty then .err (.newline ErrInvalidFile)
        else
          match ReadInt input with
          | .err _ => .err (.newline ErrInvalidFile)
          | .panicked m => .panicked m
          | .ok (rating, input) =>
            if rating < 0 ∨ 5 < rating then .err (.newline ErrInvalidFile)
            else
              let p := ReadLine (skipWs input)
              if p.1.isEmpty then .err (.newline ErrInvalidFile)
              else .ok (⟨medium, p.1, rating, id, 0⟩, p.2)

/-- the record loop of RestoreLibrary: duplicate ids and titles rejected,
maxID accumulated, nextID set to maxID + 1 at the end. -/
def restoreRecords (h : Heap) (lib : Library) (maxID : Int) :
    Nat → List Char → Res (Heap × Library × List Char)
  | 0, input => .ok (h, { lib with nextID := maxID + 1 }, input)
  | fuel + 1, input =>
    match RestoreRecord input with
    | .err e => .err e
    | .panicked m => .panicked m
    | .ok (record, input) =>
      match alistGet record.id lib.byID with
      | some _ => .err (.newline ErrInvalidFile)
      | none =>
        match alistGet record.title lib.byTitle with
        | some _ => .err (.newline ErrInvalidFile)
        | none =>
          let p := h.alloc record
          restoreRecords p.1
            ⟨alistSet record.title p.2 lib.byTitle, alistSet record.id p.2 lib.byID, lib.nextID⟩
            (max maxID record.id) fuel input

def RestoreLibrary (h : Heap) (input : List Char) : Res (Heap × Library × List Char) :=
  match ReadInt input with
  | .err _ => .err (.newline ErrInvalidFile)
  | .panicked m => .panicked m
  | .ok (numRecords, input) =>
    if numRecords < 0 then .err (.newline ErrInvalidFile)
    else restoreRecords h NewLibrary 0 numRecords.toNat input

/-- the member loop of RestoreCollection: each line is a title resolved in
the library; unknown or duplicate members rejected; numCollections of each
resolved record incremented. -/
def restoreMembers (h : Heap) (lib : Library) (col : Collection) :
    Nat → List Char → Res (Heap × Collection × List Char)
  | 0, input => .ok (h, col, input)
  | fuel + 1, input =>
    let p := ReadLine input
    match alistGet p.1 lib.byTitle with
    | none => .err (.newline ErrInvalidFile)
    | some a =>
      let record := h.get a
      match alistGet record.id col.members with
      | some _ => .err (.newline ErrInvalidFile)
      | none =>
        restoreMembers (h.write a { record with numCollections := record.numCollections + 1 })
          lib { col with members := alistSet record.id a col.members } fuel p.2

/-- RestoreCollection: name word (the empty check is dead code, as in
RestoreRecord), member count, discard the rest of the line, then the member
loop. -/
def RestoreCollection (h : Heap) (lib : Library) (input : List Char) :
    Res (Heap × Collection × List Char) :=
  match ReadWord input with
  | .err e => .err e
  | .panicked m => .panicked m
  | .ok (name, input) =>
    if name.isEmpty then .err (.newline ErrInvalidFile)
    else
      match ReadInt input with
      | .err _ => .err (.newline ErrInvalidFile)
      | .panicked m => .panicked m
      | .ok (numMembers, input) =>
        if numMembers < 0 then .err (.newline ErrInvalidFile)
        else restoreMembers h lib (NewCollection name) numMembers.toNat (ReadLine input).2

/-- the collection loop of RestoreCatalog: duplicate names rejected. -/
def restoreColls (h : Heap) (lib : Library) (cat : Catalog) :
    Nat → List Char → Res (Heap × Catalog × List Char)
  | 0, input => .ok (h, cat, input)
  | fuel + 1, input =>
    match RestoreCollection h lib input with
    | .err e => .err e
    | .panicked m => .panicked m
    | .ok (h2, col, input) =>
      match alistGet col.name cat.collections with
      | some _ => .err (.newline ErrInvalidFile)
      | none =>
        restoreColls h2 lib ⟨alistSet col.name col cat.collections⟩ fuel input

def RestoreCatalog (h : Heap) (lib : Library) (input : List Char) :
    Res (Heap × Catalog × List Char) :=
  match ReadInt input with
  | .err _ => .err (.newline ErrInvalidFile)
  | .panicked m => .panicked m
  | .ok (numCollections, input) =>
    if numCollections < 0 then .err (.newline ErrInvalidFile)
    else restoreColls h lib NewCatalog numCollections.toNat input

/-! ### Driver-level operations (the command handlers of main.go).
Each takes the whole program state (heap, library, catalog), already-parsed
arguments, and returns the new state plus the error the handler would print;
the state is returned unchanged when the handler fails, exactly as in the
source (handlers mutate nothing before the failing call). -/

structure S where
  heap : Heap
  lib : Library
  cat : Catalog
deriving DecidableEq

def initS : S := ⟨Heap.empty, NewLibrary, NewCatalog⟩

def addRecordOp (s : S) (medium title : String) : S × Option Err :=
  match AddRecord s.heap s.lib medium title with
  | .error e => (s, some e)
  | .ok p => (⟨p.1, p.2.1, s.cat⟩, none)

def modifyRatingOp (s : S) (id rating : Int) : S × Option Err :=
  match FindRecordByID s.lib id with
  | .error e => (s, some e)
  | .ok a =>
    match SetRating s.heap a rating with
    | .error e => (s, some e)
    | .ok h => (⟨h, s.lib, s.cat⟩, none)

def deleteRecordOp (s : S) (title : String) : S × Option Err :=
  match DeleteRecord s.heap s.lib title with
  | .error e => (s, some e)
  | .ok p => (⟨s.heap, p.1, s.cat⟩, none)

def modifyTitleOp (s : S) (id : Int) (newTitle : String) : S × Option Err :=
  match FindRecordByID s.lib id with
  | .error e => (s, some e)
  | .ok a =>
    match ModifyTitle s.heap s.lib a newTitle with
    | .error e => (s, some e)
    | .ok p => (⟨p.1, p.2, s.cat⟩, none)

def addCollectionOp (s : S) (name : String) : S × Option Err :=
  match AddCollection s.cat name with
  | .error e => (s, some e)
  | .ok c => (⟨s.heap, s.lib, c⟩, none)

def deleteCollectionOp (s : S) (name : String) : S × Option Err :=
  match DeleteCollection s.heap s.cat name with
  | .error e => (s, some e)
  | .ok p => (⟨p.1, s.lib, p.2⟩, none)

/-- am: readCollection, then readRecordByID, then Collection.AddMember; the
collection is mutated through the pointer held by the catalog map. -/
def addMemberOp (s : S) (cname : String) (id : Int) : S × Option Err :=
  match FindCollection s.cat cname with
  | .error e => (s, some e)
  | .ok col =>
    match FindRecordByID s.lib id with
    | .error e => (s, some e)
    | .ok a =>
      match AddMember s.heap col a with
      | .error e => (s, some e)
      | .ok p => (⟨p.1, s.lib, ⟨alistSet cname p.2 s.cat.collections⟩⟩, none)

def deleteMemberOp (s : S) (cname : String) (id : Int) : S × Option Err :=
  match FindCollection s.cat cname with
  | .error e => (s, some e)
  | .ok col =>
    match FindRecordByID s.lib id with
    | .error e => (s, some e)
    | .ok a =>
      match DeleteMember s.heap col a with
      | .error e => (s, some e)
      | .ok p => (⟨p.1, s.lib, ⟨alistSet cname p.2 s.cat.collections⟩⟩, none)

def clearLibraryOp (s : S) : S × Option Err :=
  match LibraryClear s.lib s.cat with
  | .error e => (s, some e)
  | .ok l => (⟨s.heap, l, s.cat⟩, none)

def clearCatalogOp (s : S) : S × Option Err :=
  ((fun p => (⟨p.1, s.lib, p.2⟩ : S)) (CatalogClear s.heap s.cat), none)

def clearAllOp (s : S) : S × Option Err :=
  ((fun p => (⟨p.1, p.2.1, p.2.2⟩ : S)) (ClearAll s.heap s.lib s.cat), none)

def combineCollectionsOp (s : S) (firstName secondName dstName : String) : S × Option Err :=
  match CombineCollections s.heap s.cat firstName secondName dstName with
  | .error e => (s, some e)
  | .ok p => (⟨p.1, s.lib, p.2⟩, none)

/-- rA: RestoreLibrary then RestoreCatalog into fresh objects; the caller's
library and catalog are overwritten only when both succeed, so any error
leaves the state exactly as it was. (On error the Go heap holds unreachable
garbage allocations; the model drops them, which no operation can observe.) -/
def restoreAllOp (s : S) (input : List Char) : S × Res Unit :=
  match RestoreLibrary s.heap input with
  | .err e => (s, .err e)
  | .panicked m => (s, .panicked m)
  | .ok (h, newLib, input) =>
    match RestoreCatalog h newLib input with
    | .err e => (s, .err e)
    | .panicked m => (s, .panicked m)
    | .ok (h2, newCat, _) => (⟨h2, newLib, newCat⟩, .ok ())

/-! query handlers (fr, pr, pc, fs, lr, cs): they read state and produce
output, never a new state. -/

def findRecordOp (s : S) (title : String) : S × Except Err Record :=
  match FindRecordByTitle s.lib title with
  | .error e => (s, .error e)
  | .ok a => (s, .ok (s.heap.get a))

def printRecordOp (s : S) (id : Int) : S × Except Err Record :=
  match FindRecordByID s.lib id with
  | .error e => (s, .error e)
  | .ok a => (s, .ok (s.heap.get a))

def printCollectionOp (s : S) (name : String) : S × Except Err Collection :=
  match FindCollection s.cat name with
  | .error e => (s, .error e)
  | .ok col => (s, .ok col)

def findStringOp (s : S) (substr : String) : S × Except Err String :=
  (s, FindString s.heap s.lib substr)

def listRatingsOp (s : S) : S × String :=
  (s, ListRatings s.heap s.lib)

def collectionStatisticsOp (s : S) : S × (Int × Int × Int) :=
  (s, CollectionStatistics s.heap s.cat)

/-! ### Argument shapes produced by the CLI tokenizer -/

/-- a string ReadWord can produce: nonempty, no whitespace runes. -/
def wordOK (w : String) : Bool :=
  !w.data.isEmpty && w.data.all (fun c => !isSpaceGo c)

/-- a title as produced by readTitle (nonempty, single interior spaces) or by
the title line of RestoreRecord (nonempty, first rune not whitespace): what
the save format needs to round-trip is captured by this weaker shape. -/
def titleOK (t : String) : Bool :=
  match t.data with
  | [] => false
  | c :: cs => !isSpaceGo c && (c :: cs).all (fun d => d != '\n')

/-! ### Reachable program states -/

/-- the states reachable from start-up through the mutating command handlers,
with arguments of the shapes the tokenizer can produce (restore input is an
arbitrary file). -/
inductive Reachable : S → Prop where
  | init : Reachable initS
  | addRecord (s : S) (medium title : String) : Reachable s → wordOK medium = true →
      titleOK title = true → Reachable (addRecordOp s medium title).1
  | modifyRating (s : S) (id rating : Int) : Reachable s →
      Reachable (modifyRatingOp s id rating).1
  | deleteRecord (s : S) (title : String) : Reachable s →
      Reachable (deleteRecordOp s title).1
  | modifyTitle (s : S) (id : Int) (newTitle : String) : Reachable s →
      titleOK newTitle = true → Reachable (modifyTitleOp s id newTitle).1
  | addCollection (s : S) (name : String) : Reachable s → wordOK name = true →
      Reachable (addCollectionOp s name).1
  | deleteCollection (s : S) (name : String) : Reachable s →
      Reachable (deleteCollectionOp s name).1
  | addMember (s : S) (cname : String) (id : Int) : Reachable s →
      Reachable (addMemberOp s cname id).1
  | deleteMember (s : S) (cname : String) (id : Int) : Reachable s →
      Reachable (deleteMemberOp s cname id).1
  | clearLibrary (s : S) : Reachable s → Reachable (clearLibraryOp s).1
  | clearCatalog (s : S) : Reachable s → Reachable (clearCatalogOp s).1
  | clearAllStep (s : S) : Reachable s → Reachable (clearAllOp s).1
  | combineCollections (s : S) (firstName secondName dstName : String) : Reachable s →
      wordOK dstName = true → Reachable (combineCollectionsOp s firstName secondName dstName).1
  | restoreAll (s : S) (input : List Char) : Reachable s →
      Reachable (restoreAllOp s input).1

/-! ### The state invariant -/

/-- field shape of every record held by a reachable library. -/
def recordOK (r : Record) : Prop :=
  1 ≤ r.id ∧ 0 ≤ r.rating ∧ r.rating ≤ 5 ∧ wordOK r.medium = true ∧ titleOK r.title = true

/-- number of distinct collections of the catalog whose membership set
contains the record with this id. -/
def countColls (c : Catalog) (i : Int) : Int :=
  ((c.collections.filter (fun p => (alistGet i p.2.members).isSome)).length : Int)

/-- the invariant of reachable states: the heap allocator is consistent, the
two library indexes agree through the heap, every indexed record is
well-formed with id below nextID, the catalog's collections are named
consistently with member sets drawn from the library, and every record's
numCollections equals the number of collections containing it. -/
structure WF (s : S) : Prop where
  heapNodup : (s.heap.recs.map Prod.fst).Nodup
  heapBound : ∀ p ∈ s.heap.recs, p.1 < s.heap.next
  titleKeysNodup : (s.lib.byTitle.map Prod.fst).Nodup
  idKeysNodup : (s.lib.byID.map Prod.fst).Nodup
  titleToId : ∀ t a, alistGet t s.lib.byTitle = some a →
    ∃ r, s.heap.find? a = some r ∧ r.title = t ∧ alistGet r.id s.lib.byID = some a
  idToTitle : ∀ i a, alistGet i s.lib.byID = some a →
    ∃ r, s.heap.find? a = some r ∧ r.id = i ∧ alistGet r.title s.lib.byTitle = some a
  nextPos : 1 ≤ s.lib.nextID
  recOK : ∀ i a, alistGet i s.lib.byID = some a →
    recordOK (s.heap.get a) ∧ (s.heap.get a).id < s.lib.nextID
  catKeysNodup : (s.cat.collections.map Prod.fst).Nodup
  colOK : ∀ n col, alistGet n s.cat.collections = some col →
    col.name = n ∧ wordOK n = true ∧ (col.members.map Prod.fst).Nodup ∧
    ∀ i a, alistGet i col.members = some a → alistGet i s.lib.byID = some a
  counts : ∀ i a, alistGet i s.lib.byID = some a →
    (s.heap.get a).numCollections = countColls s.cat i

/-! ### Observables used to state the claims -/

def libFindT (h : Heap) (l : Library) (t : String) : Option Record :=
  (alistGet t l.byTitle).map h.get

def libFindI (h : Heap) (l : Library) (i : Int) : Option Record :=
  (alistGet i l.byID).map h.get

def maxIDOf (l : Library) : Int :=
  l.byID.foldl (fun m p => max m p.1) 0

def hasColl (c : Catalog) (n : String) : Bool :=
  (alistGet n c.collections).isSome

def memberIn (c : Catalog) (n : String) (i : Int) : Bool :=
  match alistGet n c.collections with
  | none => false
  | some col => (alistGet i col.members).isSome

/-- a sequence of ar commands (ignoring the catalog, which addRecord never
touches): runs AddRecord on each (medium, title) pair in turn, collecting the
ids of the successful calls and skipping failed ones, exactly as the command
loop would. -/
def addRecordsOp (s : S) : List (String × String) → S × List Int
  | [] => (s, [])
  | p :: rest =>
    match AddRecord s.heap s.lib p.1 p.2 with
    | .error _ => addRecordsOp s rest
    | .ok q =>
      let out := addRecordsOp ⟨q.1, q.2.1, s.cat⟩ rest
      (out.1, q.2.2 :: out.2)

/-- a record stripped to the fields the save format writes (numCollections
is rebuilt by the catalog restore, not stored). -/
def coreOf (r : Record) : Int × String × Int × String :=
  (r.id, r.medium, r.rating, r.title)

/-- a freshly restored record: the saved fields with numCollections 0. -/
def zeroCount (r : Record) : Record :=
  { r with numCollections := 0 }

/-- the (title, id) pairs of a collection's members in the order
Collection.Save writes them (ascending title). -/
def memberPairs (h0 : Heap) (col : Collection) : List (String × Int) :=
  (sortRecBy titleLt (col.members.map (fun p => h0.get p.2))).map
    (fun r => (r.title, r.id))

/-- a small driver state with two records (ids 1 and 2, at addresses 0 and
1) and two singleton collections C1 = {id 1} and C2 = {id 2}, used to
exercise the collection operations on concrete data. -/
def combineSampleS : S :=
  (addMemberOp (addMemberOp (addCollectionOp (addCollectionOp
    (addRecordOp (addRecordOp initS "dvd" "Aa").1 "cd" "Bb").1 "C1").1 "C2").1
    "C1" 1).1 "C2" 2).1

/-- invariant of the record loop of RestoreLibrary: a coherent dual index of
well-formed, zero-count records whose ids are bounded by the running maximum
(nextID is not meaningful until the loop finishes). -/
structure RLInv (h : Heap) (lib : Library) (maxID : Int) : Prop where
  heapNodup : (h.recs.map Prod.fst).Nodup
  heapBound : ∀ p ∈ h.recs, p.1 < h.next
  titleKeysNodup : (lib.byTitle.map Prod.fst).Nodup
  idKeysNodup : (lib.byID.map Prod.fst).Nodup
  titleToId : ∀ t a, alistGet t lib.byTitle = some a →
    ∃ r, h.find? a = some r ∧ r.title = t ∧ alistGet r.id lib.byID = some a
  idToTitle : ∀ i a, alistGet i lib.byID = some a →
    ∃ r, h.find? a = some r ∧ r.id = i ∧ alistGet r.title lib.byTitle = some a
  recOK0 : ∀ i a, alistGet i lib.byID = some a →
    recordOK (h.get a) ∧ (h.get a).numCollections = 0 ∧ (h.get a).id ≤ maxID
  maxNonneg : 0 ≤ maxID

/-! ## Lemma toolkit: association lists -/

theorem alistGet_nil {κ α : Type} [DecidableEq κ] (k : κ) :
    alistGet k ([] : List (κ × α)) = none := rfl

theorem alistGet_cons_self {κ α : Type} [DecidableEq κ] (k : κ) (v : α) (l : List (κ × α)) :
    alistGet k ((k, v) :: l) = some v := by
  simp [alistGet]

theorem alistGet_cons_ne {κ α : Type} [DecidableEq κ] {k k' : κ} (v : α) (l : List (κ × α))
    (h : k ≠ k') : alistGet k' ((k, v) :: l) = alistGet k' l := by
  simp [alistGet, h]

theorem alistGet_set_self {κ α : Type} [DecidableEq κ] (k : κ) (v : α) (l : List (κ × α)) :
    alistGet k (alistSet k v l) = some v := by
  induction l with
  | nil => simp [alistSet, alistGet]
  | cons p ps ih =>
    by_cases h : p.1 = k
    · simp [alistSet, h, alistGet]
    · simp [alistSet, h, alistGet, ih]

theorem alistGet_set_ne {κ α : Type} [DecidableEq κ] {k k' : κ} (v : α) (l : List (κ × α))
    (h : k' ≠ k) : alistGet k' (alistSet k v l) = alistGet k' l := by
  have hks : k ≠ k' := Ne.symm h
  induction l with
  | nil => simp [alistSet, alistGet, hks]
  | cons p ps ih =>
    by_cases hp : p.1 = k
    · subst hp
      simp [alistSet, alistGet, hks]
    · simp [alistSet, hp, alistGet, ih]

theorem alistGet_del_ne {κ α : Type} [DecidableEq κ] {k k' : κ} (l : List (κ × α))
    (h : k' ≠ k) : alistGet k' (alistDel k l) = alistGet k' l := by
  have hks : k ≠ k' := Ne.symm h
  induction l with
  | nil => simp [alistDel]
  | cons p ps ih =>
    by_cases hp : p.1 = k
    · subst hp
      simp [alistDel, alistGet, hks]
    · simp [alistDel, hp, alistGet, ih]

theorem alistGet_mem {κ α : Type} [DecidableEq κ] {k : κ} {v : α} {l : List (κ × α)}
    (h : alistGet k l = some v) : (k, v) ∈ l := by
  induction l with
  | nil => simp [alistGet] at h
  | cons p ps ih =>
    rcases p with ⟨pk, pv⟩
    by_cases hp : pk = k
    · subst hp
      simp [alistGet] at h
      subst h
      exact List.mem_cons_self _ _
    · simp only [alistGet, hp, if_false] at h
      exact List.mem_cons_of_mem _ (ih h)

theorem alistGet_eq_none_iff {κ α : Type} [DecidableEq κ] {k : κ} {l : List (κ × α)} :
    alistGet k l = none ↔ k ∉ l.map Prod.fst := by
  induction l with
  | nil => simp [alistGet]
  | cons p ps ih =>
    rcases p with ⟨pk, pv⟩
    by_cases hp : pk = k
    · subst hp
      simp [alistGet]
    · have hkp : ¬ k = pk := fun e => hp e.symm
      simp [alistGet, hp, ih, hkp]

theorem alistGet_isSome_iff {κ α : Type} [DecidableEq κ] {k : κ} {l : List (κ × α)} :
    (alistGet k l).isSome = true ↔ k ∈ l.map Prod.fst := by
  constructor
  · intro h
    by_contra hc
    rw [alistGet_eq_none_iff.mpr hc] at h
    simp at h
  · intro h
    cases he : alistGet k l with
    | none => exact absurd h (alistGet_eq_none_iff.mp he)
    | some v => simp

theorem mem_keys_of_get {κ α : Type} [DecidableEq κ] {k : κ} {v : α} {l : List (κ × α)}
    (h : alistGet k l = some v) : k ∈ l.map Prod.fst :=
  alistGet_isSome_iff.mp (by simp [h])

theorem alistGet_of_mem_nodup {κ α : Type} [DecidableEq κ] {k : κ} {v : α} {l : List (κ × α)}
    (hmem : (k, v) ∈ l) (hnd : (l.map Prod.fst).Nodup) : alistGet k l = some v := by
  induction l with
  | nil => simp at hmem
  | cons p ps ih =>
    rcases p with ⟨pk, pv⟩
    rw [List.map_cons, List.nodup_cons] at hnd
    rcases List.mem_cons.mp hmem with h | h
    · rw [Prod.mk.injEq] at h
      rcases h with ⟨h1, h2⟩
      subst h1
      subst h2
      simp [alistGet]
    · have hne : pk ≠ k := by
        intro e
        subst e
        exact hnd.1 (by simpa using List.mem_map_of_mem Prod.fst h)
      simp [alistGet, hne, ih h hnd.2]

theorem alistGet_of_mem_pair {κ α : Type} [DecidableEq κ] {p : κ × α} {l : List (κ × α)}
    (hp : p ∈ l) (hnd : (l.map Prod.fst).Nodup) : alistGet p.1 l = some p.2 := by
  rcases p with ⟨k, v⟩
  exact alistGet_of_mem_nodup hp hnd

theorem keys_set_of_mem {κ α : Type} [DecidableEq κ] {k : κ} (v : α) {l : List (κ × α)}
    (h : k ∈ l.map Prod.fst) : (alistSet k v l).map Prod.fst = l.map Prod.fst := by
  induction l with
  | nil => simp at h
  | cons p ps ih =>
    rcases p with ⟨pk, pv⟩
    by_cases hp : pk = k
    · subst hp
      simp [alistSet]
    · rw [List.map_cons, List.mem_cons] at h
      have hmem : k ∈ ps.map Prod.fst := by
        rcases h with h1 | h1
        · exact absurd h1.symm hp
        · exact h1
      simp [alistSet, hp, ih hmem]

theorem keys_set_of_not_mem {κ α : Type} [DecidableEq κ] {k : κ} (v : α) {l : List (κ × α)}
    (h : k ∉ l.map Prod.fst) : (alistSet k v l).map Prod.fst = l.map Prod.fst ++ [k] := by
  induction l with
  | nil => simp [alistSet]
  | cons p ps ih =>
    rcases p with ⟨pk, pv⟩
    rw [List.map_cons, List.mem_cons] at h
    push_neg at h
    have hp : ¬ pk = k := fun e => h.1 e.symm
    simp [alistSet, hp, ih h.2]

theorem nodup_keys_set {κ α : Type} [DecidableEq κ] (k : κ) (v : α) {l : List (κ × α)}
    (h : (l.map Prod.fst).Nodup) : ((alistSet k v l).map Prod.fst).Nodup := by
  by_cases hm : k ∈ l.map Prod.fst
  · rw [keys_set_of_mem v hm]
    exact h
  · rw [keys_set_of_not_mem v hm]
    refine List.Nodup.append h (List.nodup_singleton k) ?_
    intro a ha hk
    rw [List.mem_singleton] at hk
    subst hk
    exact hm ha

theorem keys_del_sublist {κ α : Type} [DecidableEq κ] (k : κ) (l : List (κ × α)) :
    ((alistDel k l).map Prod.fst).Sublist (l.map Prod.fst) := by
  induction l with
  | nil => simp [alistDel]
  | cons p ps ih =>
    by_cases hp : p.1 = k
    · simp only [alistDel, hp, if_pos rfl, List.map_cons]
      exact List.Sublist.cons _ (List.Sublist.refl _)
    · simp only [alistDel, hp, if_false, List.map_cons]
      exact List.Sublist.cons₂ _ ih

theorem nodup_keys_del {κ α : Type} [DecidableEq κ] (k : κ) {l : List (κ × α)}
    (h : (l.map Prod.fst).Nodup) : ((alistDel k l).map Prod.fst).Nodup :=
  (keys_del_sublist k l).nodup h

theorem alistGet_del_self {κ α : Type} [DecidableEq κ] (k : κ) {l : List (κ × α)}
    (h : (l.map Prod.fst).Nodup) : alistGet k (alistDel k l) = none := by
  induction l with
  | nil => rfl
  | cons p ps ih =>
    rcases p with ⟨pk, pv⟩
    rw [List.map_cons, List.nodup_cons] at h
    by_cases hp : pk = k
    · subst hp
      simp only [alistDel, if_pos rfl]
      exact alistGet_eq_none_iff.mpr h.1
    · simp [alistDel, hp, alistGet, ih h.2]

theorem alistDel_of_not_mem {κ α : Type} [DecidableEq κ] {k : κ} {l : List (κ × α)}
    (h : k ∉ l.map Prod.fst) : alistDel k l = l := by
  induction l with
  | nil => rfl
  | cons p ps ih =>
    rcases p with ⟨pk, pv⟩
    rw [List.map_cons, List.mem_cons] at h
    push_neg at h
    have hp : ¬ pk = k := fun e => h.1 e.symm
    simp [alistDel, hp, ih h.2]

theorem length_set_of_mem {κ α : Type} [DecidableEq κ] {k : κ} (v : α) {l : List (κ × α)}
    (h : k ∈ l.map Prod.fst) : (alistSet k v l).length = l.length := by
  have := keys_set_of_mem v h
  have h1 : ((alistSet k v l).map Prod.fst).length = (l.map Prod.fst).length := by rw [this]
  simpa using h1

theorem length_set_of_not_mem {κ α : Type} [DecidableEq κ] {k : κ} (v : α) {l : List (κ × α)}
    (h : k ∉ l.map Prod.fst) : (alistSet k v l).length = l.length + 1 := by
  have := keys_set_of_not_mem v h
  have h1 : ((alistSet k v l).map Prod.fst).length = (l.map Prod.fst ++ [k]).length := by rw [this]
  simpa using h1

/-! ## Lemma toolkit: the heap -/

theorem Heap.find?_write_self (h : Heap) (a : Nat) (r : Record) :
    (h.write a r).find? a = some r :=
  alistGet_set_self a r h.recs

theorem Heap.find?_write_ne (h : Heap) {a a' : Nat} (r : Record) (hne : a' ≠ a) :
    (h.write a r).find? a' = h.find? a' :=
  alistGet_set_ne r h.recs hne

theorem Heap.get_write_self (h : Heap) (a : Nat) (r : Record) :
    (h.write a r).get a = r := by
  simp [Heap.get, Heap.find?_write_self]

theorem Heap.get_write_ne (h : Heap) {a a' : Nat} (r : Record) (hne : a' ≠ a) :
    (h.write a r).get a' = h.get a' := by
  simp [Heap.get, Heap.find?_write_ne h r hne]

theorem Heap.find?_alloc_fresh (h : Heap) (r : Record) :
    (h.alloc r).1.find? h.next = some r := by
  simp [Heap.alloc, Heap.find?, alistGet]

theorem Heap.find?_alloc_ne (h : Heap) (r : Record) {a : Nat} (hne : a ≠ h.next) :
    (h.alloc r).1.find? a = h.find? a := by
  simp [Heap.alloc, Heap.find?, alistGet, fun e => hne e]
  intro e
  exact absurd e.symm hne

theorem Heap.next_write (h : Heap) (a : Nat) (r : Record) :
    (h.write a r).next = h.next := rfl

/-- writing a record does not change the set of allocated addresses when the
address was already allocated. -/
theorem Heap.keys_write_of_mem (h : Heap) {a : Nat} (r : Record)
    (hm : a ∈ h.recs.map Prod.fst) :
    (h.write a r).recs.map Prod.fst = h.recs.map Prod.fst :=
  keys_set_of_mem r hm

/-! ## Lemma toolkit: counting collections that contain a record -/

theorem countP_alistSet_present {κ α : Type} [DecidableEq κ] {k : κ} {v₀ : α} (v : α)
    {l : List (κ × α)} (P : κ × α → Bool)
    (hget : alistGet k l = some v₀) (hnd : (l.map Prod.fst).Nodup) :
    ((alistSet k v l).filter P).length + (if P (k, v₀) then 1 else 0) =
      (l.filter P).length + (if P (k, v) then 1 else 0) := by
  induction l with
  | nil => simp [alistGet] at hget
  | cons p ps ih =>
    rcases p with ⟨pk, pv⟩
    rw [List.map_cons, List.nodup_cons] at hnd
    by_cases hp : pk = k
    · subst hp
      simp [alistGet] at hget
      subst hget
      simp only [alistSet, if_pos rfl]
      by_cases h1 : P (pk, pv) <;> by_cases h2 : P (pk, v) <;>
        simp [List.filter_cons, h1, h2] <;> omega
    · simp only [alistGet, hp, if_false] at hget
      simp only [alistSet, hp, if_false]
      have := ih hget hnd.2
      by_cases h1 : P (pk, pv) <;> simp [List.filter_cons, h1] <;> omega

theorem countP_alistSet_fresh {κ α : Type} [DecidableEq κ] {k : κ} (v : α)
    {l : List (κ × α)} (P : κ × α → Bool) (hget : k ∉ l.map Prod.fst) :
    ((alistSet k v l).filter P).length =
      (l.filter P).length + (if P (k, v) then 1 else 0) := by
  induction l with
  | nil => by_cases h : P (k, v) <;> simp [alistSet, List.filter_cons, h]
  | cons p ps ih =>
    rcases p with ⟨pk, pv⟩
    rw [List.map_cons, List.mem_cons] at hget
    push_neg at hget
    have hp : ¬ pk = k := fun e => hget.1 e.symm
    simp only [alistSet, hp, if_false]
    by_cases h1 : P (pk, pv) <;> simp [List.filter_cons, h1, ih hget.2] <;> omega

theorem countP_alistDel {κ α : Type} [DecidableEq κ] {k : κ} {v₀ : α}
    {l : List (κ × α)} (P : κ × α → Bool)
    (hget : alistGet k l = some v₀) (hnd : (l.map Prod.fst).Nodup) :
    ((alistDel k l).filter P).length + (if P (k, v₀) then 1 else 0) =
      (l.filter P).length := by
  induction l with
  | nil => simp [alistGet] at hget
  | cons p ps ih =>
    rcases p with ⟨pk, pv⟩
    rw [List.map_cons, List.nodup_cons] at hnd
    by_cases hp : pk = k
    · subst hp
      simp [alistGet] at hget
      subst hget
      simp only [alistDel, if_pos rfl]
      by_cases h1 : P (pk, pv) <;> simp [List.filter_cons, h1]
    · simp only [alistGet, hp, if_false] at hget
      simp only [alistDel, hp, if_false]
      have := ih hget hnd.2
      by_cases h1 : P (pk, pv) <;> simp [List.filter_cons, h1] <;> omega

/-- a filter over values only is unchanged by re-keying nothing: filtering
with a predicate that ignores some component commutes with nothing; helper
fact: if two association lists have pointwise equal predicate results the
filters have equal length. -/
theorem filter_length_congr {α : Type} {l : List α} {P Q : α → Bool}
    (h : ∀ x ∈ l, P x = Q x) : (l.filter P).length = (l.filter Q).length := by
  induction l with
  | nil => rfl
  | cons x xs ih =>
    have hx := h x (List.mem_cons_self _ _)
    have ihx := ih (fun y hy => h y (List.mem_cons_of_mem _ hy))
    by_cases h1 : P x
    · have h2 : Q x = true := by rw [← hx]; exact h1
      simp [List.filter_cons, h1, h2, ihx]
    · have h2 : Q x = false := by rw [← hx]; simpa using h1
      simp [List.filter_cons, h1, h2, ihx]

/-! ## Consequences of the invariant -/

theorem wf_find_of_id {s : S} (hwf : WF s) {i : Int} {a : Nat}
    (h : alistGet i s.lib.byID = some a) :
    s.heap.find? a = some (s.heap.get a) ∧ (s.heap.get a).id = i ∧
      alistGet (s.heap.get a).title s.lib.byTitle = some a := by
  obtain ⟨r, hr, hid, ht⟩ := hwf.idToTitle i a h
  have hg : s.heap.get a = r := by simp [Heap.get, hr]
  rw [hg]
  exact ⟨hr, hid, ht⟩

theorem wf_find_of_title {s : S} (hwf : WF s) {t : String} {a : Nat}
    (h : alistGet t s.lib.byTitle = some a) :
    s.heap.find? a = some (s.heap.get a) ∧ (s.heap.get a).title = t ∧
      alistGet (s.heap.get a).id s.lib.byID = some a := by
  obtain ⟨r, hr, hid, ht⟩ := hwf.titleToId t a h
  have hg : s.heap.get a = r := by simp [Heap.get, hr]
  rw [hg]
  exact ⟨hr, hid, ht⟩

theorem wf_addr_lt {s : S} (hwf : WF s) {a : Nat} {r : Record}
    (h : s.heap.find? a = some r) : a < s.heap.next :=
  hwf.heapBound _ (alistGet_mem h)

theorem wf_id_lt_next {s : S} (hwf : WF s) {i : Int} {a : Nat}
    (h : alistGet i s.lib.byID = some a) : i < s.lib.nextID := by
  have h1 := (hwf.recOK i a h).2
  have h2 := (wf_find_of_id hwf h).2.1
  omega

theorem wf_nextID_not_key {s : S} (hwf : WF s) :
    alistGet s.lib.nextID s.lib.byID = none := by
  cases he : alistGet s.lib.nextID s.lib.byID with
  | none => rfl
  | some a => exact absurd (wf_id_lt_next hwf he) (by omega)

/-- a record id indexed by no collection has zero containing collections. -/
theorem countColls_eq_zero_of_no_member {s : S} (hwf : WF s) {i : Int}
    (h : alistGet i s.lib.byID = none) : countColls s.cat i = 0 := by
  unfold countColls
  have : s.cat.collections.filter (fun p => (alistGet i p.2.members).isSome) = [] := by
    rw [List.filter_eq_nil]
    intro p hp
    cases hm : alistGet i p.2.members with
    | none => simp
    | some a =>
      have hcol := hwf.colOK p.1 p.2 (alistGet_of_mem_nodup (by
        cases p
        exact hp) hwf.catKeysNodup)
      have := hcol.2.2.2 i a hm
      rw [h] at this
      cases this
  rw [this]
  rfl

/-- the address indexed under a title determines the title. -/
theorem wf_title_addr_inj {s : S} (hwf : WF s) {t t' : String} {a : Nat}
    (h : alistGet t s.lib.byTitle = some a) (h' : alistGet t' s.lib.byTitle = some a) :
    t = t' := by
  have h1 := (wf_find_of_title hwf h).2.1
  have h2 := (wf_find_of_title hwf h').2.1
  rw [← h1, h2]

theorem wf_id_addr_inj {s : S} (hwf : WF s) {i i' : Int} {a : Nat}
    (h : alistGet i s.lib.byID = some a) (h' : alistGet i' s.lib.byID = some a) :
    i = i' := by
  have h1 := (wf_find_of_id hwf h).2.1
  have h2 := (wf_find_of_id hwf h').2.1
  rw [← h1, h2]

/-! ## Preservation of the invariant, operation by operation -/

theorem wf_init : WF initS := by
  constructor <;> intros <;> simp_all [initS, Heap.empty, NewLibrary, NewCatalog, alistGet,
    Heap.find?, countColls] <;> try omega

/-- equation for the successful ar handler. -/
theorem addRecordOp_fresh {s : S} {medium title : String}
    (h : alistGet title s.lib.byTitle = none) :
    addRecordOp s medium title =
      (⟨⟨(s.heap.next, NewRecord medium title s.lib.nextID) :: s.heap.recs, s.heap.next + 1⟩,
        ⟨alistSet title s.heap.next s.lib.byTitle,
          alistSet s.lib.nextID s.heap.next s.lib.byID, s.lib.nextID + 1⟩, s.cat⟩, none) := by
  simp [addRecordOp, AddRecord, h, Heap.alloc]

theorem addRecordOp_dup {s : S} {medium title : String}
    (h : (alistGet title s.lib.byTitle).isSome = true) :
    addRecordOp s medium title = (s, some (.regular errDuplicateRecordTitle)) := by
  cases he : alistGet title s.lib.byTitle with
  | none => rw [he] at h; simp at h
  | some a => simp [addRecordOp, AddRecord, he]

theorem wf_addRecordOp {s : S} (hwf : WF s) (medium title : String)
    (hm : wordOK medium = true) (ht : titleOK title = true) :
    WF (addRecordOp s medium title).1 := by
  cases he : alistGet title s.lib.byTitle with
  | some a => rw [addRecordOp_dup (by simp [he])]; exact hwf
  | none =>
  rw [addRecordOp_fresh he]
  have hfreshT : title ∉ s.lib.byTitle.map Prod.fst := alistGet_eq_none_iff.mp he
  have hfreshI : s.lib.nextID ∉ s.lib.byID.map Prod.fst :=
    alistGet_eq_none_iff.mp (wf_nextID_not_key hwf)
  have hfreshA : ∀ (a : Nat) (r : Record), s.heap.find? a = some r → s.heap.next ≠ a := by
    intro a r h
    have := wf_addr_lt hwf h
    omega
  have hNH : ∀ (a : Nat) (r : Record), s.heap.find? a = some r →
      Heap.find? ⟨(s.heap.next, NewRecord medium title s.lib.nextID) ::
        s.heap.recs, s.heap.next + 1⟩ a = some r := by
    intro a r hr
    have hne := hfreshA a r hr
    show alistGet a _ = some r
    rw [alistGet_cons_ne _ _ hne]
    exact hr
  have hNHget : ∀ (a : Nat) (r : Record), s.heap.find? a = some r →
      Heap.get ⟨(s.heap.next, NewRecord medium title s.lib.nextID) ::
        s.heap.recs, s.heap.next + 1⟩ a = s.heap.get a := by
    intro a r hr
    unfold Heap.get
    rw [hNH a r hr, hr]
  constructor
  case heapNodup =>
    simp only [List.map_cons, List.nodup_cons]
    refine ⟨fun hc => ?_, hwf.heapNodup⟩
    rcases List.mem_map.mp hc with ⟨p, hp, hpe⟩
    exact absurd (hpe ▸ hwf.heapBound p hp) (by omega)
  case heapBound =>
    intro p hp
    rcases List.mem_cons.mp hp with hp1 | hp1
    · subst hp1
      exact Nat.lt_succ_self _
    · have := hwf.heapBound p hp1
      show p.1 < s.heap.next + 1
      omega
  case titleKeysNodup => exact nodup_keys_set _ _ hwf.titleKeysNodup
  case idKeysNodup => exact nodup_keys_set _ _ hwf.idKeysNodup
  case titleToId =>
    intro t a hta
    by_cases hteq : t = title
    · subst hteq
      rw [alistGet_set_self] at hta
      cases hta
      refine ⟨NewRecord medium t s.lib.nextID, ?_, rfl, ?_⟩
      · show alistGet _ _ = _
        rw [alistGet_cons_self]
      · simp [NewRecord, alistGet_set_self]
    · rw [alistGet_set_ne _ _ (fun e => hteq e)] at hta
      obtain ⟨r, hr, hrt, hri⟩ := hwf.titleToId t a hta
      refine ⟨r, hNH a r hr, hrt, ?_⟩
      have hne2 : r.id ≠ s.lib.nextID := by
        have := wf_id_lt_next hwf hri
        omega
      rw [alistGet_set_ne _ _ hne2]
      exact hri
  case idToTitle =>
    intro i a hia
    by_cases hieq : i = s.lib.nextID
    · subst hieq
      rw [alistGet_set_self] at hia
      cases hia
      refine ⟨NewRecord medium title s.lib.nextID, ?_, rfl, ?_⟩
      · show alistGet _ _ = _
        rw [alistGet_cons_self]
      · simp [NewRecord, alistGet_set_self]
    · rw [alistGet_set_ne _ _ (fun e => hieq e)] at hia
      obtain ⟨r, hr, hri, hrt⟩ := hwf.idToTitle i a hia
      refine ⟨r, hNH a r hr, hri, ?_⟩
      have hne2 : r.title ≠ title := by
        intro e
        rw [e] at hrt
        rw [hrt] at he
        cases he
      rw [alistGet_set_ne _ _ hne2]
      exact hrt
  case nextPos =>
    have := hwf.nextPos
    show (1 : Int) ≤ s.lib.nextID + 1
    omega
  case recOK =>
    intro i a hia
    by_cases hieq : i = s.lib.nextID
    · subst hieq
      rw [alistGet_set_self] at hia
      cases hia
      have hg : Heap.get ⟨(s.heap.next, NewRecord medium title s.lib.nextID) ::
          s.heap.recs, s.heap.next + 1⟩ s.heap.next = NewRecord medium title s.lib.nextID := by
        simp [Heap.get, Heap.find?, alistGet_cons_self]
      rw [hg]
      constructor
      · exact ⟨hwf.nextPos, by simp [NewRecord], by simp [NewRecord], by simp [NewRecord, hm],
          by simp [NewRecord, ht]⟩
      · show (NewRecord medium title s.lib.nextID).id < s.lib.nextID + 1
        simp [NewRecord]
    · rw [alistGet_set_ne _ _ (fun e => hieq e)] at hia
      have hold := hwf.recOK i a hia
      have hfind := (wf_find_of_id hwf hia).1
      rw [hNHget a _ hfind]
      refine ⟨hold.1, ?_⟩
      show (s.heap.get a).id < s.lib.nextID + 1
      have := hold.2
      omega
  case catKeysNodup => exact hwf.catKeysNodup
  case colOK =>
    intro n col hn
    obtain ⟨h1, h2, h3, h4⟩ := hwf.colOK n col hn
    refine ⟨h1, h2, h3, ?_⟩
    intro i a hia
    have hold := h4 i a hia
    have hne2 : i ≠ s.lib.nextID := by
      have := wf_id_lt_next hwf hold
      omega
    rw [alistGet_set_ne _ _ hne2]
    exact hold
  case counts =>
    intro i a hia
    by_cases hieq : i = s.lib.nextID
    · subst hieq
      rw [alistGet_set_self] at hia
      cases hia
      have hg : Heap.get ⟨(s.heap.next, NewRecord medium title s.lib.nextID) ::
          s.heap.recs, s.heap.next + 1⟩ s.heap.next = NewRecord medium title s.lib.nextID := by
        simp [Heap.get, Heap.find?, alistGet_cons_self]
      rw [hg]
      have hz := countColls_eq_zero_of_no_member hwf (wf_nextID_not_key hwf)
      show (NewRecord medium title s.lib.nextID).numCollections = countColls s.cat s.lib.nextID
      rw [hz]
      simp [NewRecord]
    · rw [alistGet_set_ne _ _ (fun e => hieq e)] at hia
      have hold := hwf.counts i a hia
      have hfind := (wf_find_of_id hwf hia).1
      rw [hNHget a _ hfind]
      exact hold

theorem mem_alistSet {κ α : Type} [DecidableEq κ] {p : κ × α} {k : κ} {v : α}
    {l : List (κ × α)} (h : p ∈ alistSet k v l) : p = (k, v) ∨ p ∈ l := by
  induction l with
  | nil => simpa [alistSet] using h
  | cons q qs ih =>
    by_cases hq : q.1 = k
    · simp only [alistSet, hq, if_pos rfl] at h
      rcases List.mem_cons.mp h with h1 | h1
      · exact Or.inl h1
      · exact Or.inr (List.mem_cons_of_mem _ h1)
    · simp only [alistSet, hq, if_false] at h
      rcases List.mem_cons.mp h with h1 | h1
      · exact Or.inr (h1 ▸ List.mem_cons_self _ _)
      · rcases ih h1 with h2 | h2
        · exact Or.inl h2
        · exact Or.inr (List.mem_cons_of_mem _ h2)

theorem Heap.bound_write {h : Heap} {a : Nat} (r : Record)
    (hb : ∀ p ∈ h.recs, p.1 < h.next) (ha : a < h.next) :
    ∀ p ∈ (h.write a r).recs, p.1 < (h.write a r).next := by
  intro p hp
  rcases mem_alistSet hp with h1 | h1
  · subst h1
    exact ha
  · exact hb p h1

/-- writing a record back at an indexed address, keeping its id, title and
numCollections, preserves the whole invariant (the mr handler's rating
update). -/
theorem wf_write_update {s : S} (hwf : WF s) {a : Nat} {i : Int}
    (hia : alistGet i s.lib.byID = some a) (r' : Record)
    (hid : r'.id = (s.heap.get a).id) (htitle : r'.title = (s.heap.get a).title)
    (hcnt : r'.numCollections = (s.heap.get a).numCollections)
    (hrec : recordOK r') :
    WF ⟨s.heap.write a r', s.lib, s.cat⟩ := by
  obtain ⟨hfind, hids, htitles⟩ := wf_find_of_id hwf hia
  have hmem : a ∈ s.heap.recs.map Prod.fst := mem_keys_of_get hfind
  have halt : a < s.heap.next := wf_addr_lt hwf hfind
  constructor
  case heapNodup => rw [Heap.keys_write_of_mem _ _ hmem]; exact hwf.heapNodup
  case heapBound => exact Heap.bound_write r' hwf.heapBound halt
  case titleKeysNodup => exact hwf.titleKeysNodup
  case idKeysNodup => exact hwf.idKeysNodup
  case titleToId =>
    intro t a' hta
    obtain ⟨r, hr, hrt, hri⟩ := hwf.titleToId t a' hta
    by_cases hae : a = a'
    · subst hae
      have hg : s.heap.get a = r := by simp [Heap.get, hr]
      refine ⟨r', Heap.find?_write_self _ _ _, ?_, ?_⟩
      · rw [htitle, hg]
        exact hrt
      · rw [hid, hg]
        exact hri
    · exact ⟨r, by rw [Heap.find?_write_ne _ _ (fun e => hae e.symm)]; exact hr, hrt, hri⟩
  case idToTitle =>
    intro i' a' hta
    obtain ⟨r, hr, hri, hrt⟩ := hwf.idToTitle i' a' hta
    by_cases hae : a = a'
    · subst hae
      have hg : s.heap.get a = r := by simp [Heap.get, hr]
      refine ⟨r', Heap.find?_write_self _ _ _, ?_, ?_⟩
      · rw [hid, hg]
        exact hri
      · rw [htitle, hg]
        exact hrt
    · exact ⟨r, by rw [Heap.find?_write_ne _ _ (fun e => hae e.symm)]; exact hr, hri, hrt⟩
  case nextPos => exact hwf.nextPos
  case recOK =>
    intro i' a' hta
    by_cases hae : a = a'
    · subst hae
      rw [Heap.get_write_self]
      refine ⟨hrec, ?_⟩
      rw [hid]
      exact (hwf.recOK i a hia).2
    · rw [Heap.get_write_ne _ _ (fun e => hae e.symm)]
      exact hwf.recOK i' a' hta
  case catKeysNodup => exact hwf.catKeysNodup
  case colOK => exact hwf.colOK
  case counts =>
    intro i' a' hta
    by_cases hae : a = a'
    · subst hae
      rw [Heap.get_write_self, hcnt]
      have hii : i' = i := wf_id_addr_inj hwf hta hia
      subst hii
      exact hwf.counts i' a hta
    · rw [Heap.get_write_ne _ _ (fun e => hae e.symm)]
      exact hwf.counts i' a' hta

theorem modifyRatingOp_set {s : S} {id rating : Int} {a : Nat}
    (hia : alistGet id s.lib.byID = some a) (hok : ¬ (rating < 1 ∨ 5 < rating)) :
    modifyRatingOp s id rating =
      (⟨s.heap.write a { s.heap.get a with rating := rating }, s.lib, s.cat⟩, none) := by
  simp [modifyRatingOp, FindRecordByID, hia, SetRating, hok]

theorem modifyRatingOp_fail {s : S} {id rating : Int}
    (h : (modifyRatingOp s id rating).2 ≠ none) : (modifyRatingOp s id rating).1 = s := by
  unfold modifyRatingOp FindRecordByID SetRating at *
  cases hia : alistGet id s.lib.byID with
  | none => simp [hia]
  | some a =>
    by_cases hr : rating < 1 ∨ 5 < rating
    · simp [hia, hr]
    · rw [hia] at h
      simp [hr] at h

theorem wf_modifyRatingOp {s : S} (hwf : WF s) (id rating : Int) :
    WF (modifyRatingOp s id rating).1 := by
  cases hia : alistGet id s.lib.byID with
  | none =>
    have : modifyRatingOp s id rating = (s, some (.newline "No record with that ID!")) := by
      simp [modifyRatingOp, FindRecordByID, hia]
    rw [this]
    exact hwf
  | some a =>
    by_cases hr : rating < 1 ∨ 5 < rating
    · have : modifyRatingOp s id rating =
          (s, some (.newline "Rating is out of range!")) := by
        simp [modifyRatingOp, FindRecordByID, hia, SetRating, hr]
      rw [this]
      exact hwf
    · rw [modifyRatingOp_set hia hr]
      push_neg at hr
      have hrec := (hwf.recOK id a hia).1
      exact wf_write_update hwf hia _ rfl rfl rfl
        ⟨hrec.1, by simp only; omega, by simp only; omega, hrec.2.2.2.1, hrec.2.2.2.2⟩

theorem countColls_nonneg (c : Catalog) (i : Int) : 0 ≤ countColls c i := by
  unfold countColls
  positivity

theorem countColls_pos_of_member {c : Catalog} {n : String} {col : Collection} {i : Int}
    (hn : alistGet n c.collections = some col) (hm : (alistGet i col.members).isSome = true) :
    1 ≤ countColls c i := by
  unfold countColls
  have hmem : (n, col) ∈ c.collections.filter (fun p => (alistGet i p.2.members).isSome) :=
    List.mem_filter.mpr ⟨alistGet_mem hn, hm⟩
  have := List.length_pos.mpr (List.ne_nil_of_mem hmem)
  omega

/-- a record whose membershipCount is zero belongs to no collection. -/
theorem no_member_of_count_zero {s : S} (hwf : WF s) {i : Int} {a : Nat}
    (hia : alistGet i s.lib.byID = some a)
    (hz : ¬ 0 < (s.heap.get a).numCollections) :
    ∀ n col, alistGet n s.cat.collections = some col → alistGet i col.members = none := by
  intro n col hn
  cases hm : alistGet i col.members with
  | none => rfl
  | some a2 =>
    have h1 := countColls_pos_of_member hn (by rw [hm]; rfl)
    have h2 := hwf.counts i a hia
    omega

theorem deleteRecordOp_del {s : S} {title : String} {a : Nat}
    (hta : alistGet title s.lib.byTitle = some a)
    (hz : ¬ 0 < (s.heap.get a).numCollections) :
    deleteRecordOp s title =
      (⟨s.heap, ⟨alistDel (s.heap.get a).title s.lib.byTitle,
        alistDel (s.heap.get a).id s.lib.byID, s.lib.nextID⟩, s.cat⟩, none) := by
  simp [deleteRecordOp, DeleteRecord, hta, hz]

theorem deleteRecordOp_notfound {s : S} {title : String}
    (hta : alistGet title s.lib.byTitle = none) :
    deleteRecordOp s title = (s, some (.regular errNoSuchRecordTitle)) := by
  simp [deleteRecordOp, DeleteRecord, hta]

theorem deleteRecordOp_inuse {s : S} {title : String} {a : Nat}
    (hta : alistGet title s.lib.byTitle = some a)
    (hz : 0 < (s.heap.get a).numCollections) :
    deleteRecordOp s title =
      (s, some (.regular "Cannot delete a record that is a member of a collection!")) := by
  simp [deleteRecordOp, DeleteRecord, hta, hz]

theorem wf_deleteRecordOp {s : S} (hwf : WF s) (title : String) :
    WF (deleteRecordOp s title).1 := by
  cases hta : alistGet title s.lib.byTitle with
  | none => rw [deleteRecordOp_notfound hta]; exact hwf
  | some a =>
  by_cases hz : 0 < (s.heap.get a).numCollections
  · rw [deleteRecordOp_inuse hta hz]
    exact hwf
  · rw [deleteRecordOp_del hta hz]
    have hfind := (wf_find_of_title hwf hta).1
    have htit := (wf_find_of_title hwf hta).2.1
    have hids := (wf_find_of_title hwf hta).2.2
    have hnomem := no_member_of_count_zero hwf hids hz
    refine ⟨?_, ?_, ?_, ?_, ?_, ?_, ?_, ?_, ?_, ?_, ?_⟩
    · exact hwf.heapNodup
    · exact hwf.heapBound
    · exact nodup_keys_del _ hwf.titleKeysNodup
    · exact nodup_keys_del _ hwf.idKeysNodup
    ·
      intro t a2 hta2
      by_cases hteq : t = (s.heap.get a).title
      · rw [hteq, alistGet_del_self _ hwf.titleKeysNodup] at hta2
        cases hta2
      · rw [alistGet_del_ne _ (fun e => hteq e)] at hta2
        obtain ⟨r, hr, hrt, hri⟩ := hwf.titleToId t a2 hta2
        refine ⟨r, hr, hrt, ?_⟩
        have hne : r.id ≠ (s.heap.get a).id := by
          intro e
          rw [e] at hri
          rw [hids] at hri
          cases hri
          have hg : s.heap.get a = r := by simp [Heap.get, hr]
          rw [← hg] at hrt
          exact hteq hrt.symm
        rw [alistGet_del_ne _ hne]
        exact hri
    ·
      intro i a2 hia2
      by_cases hieq : i = (s.heap.get a).id
      · rw [hieq, alistGet_del_self _ hwf.idKeysNodup] at hia2
        cases hia2
      · rw [alistGet_del_ne _ (fun e => hieq e)] at hia2
        obtain ⟨r, hr, hri, hrt⟩ := hwf.idToTitle i a2 hia2
        refine ⟨r, hr, hri, ?_⟩
        have hne : r.title ≠ (s.heap.get a).title := by
          intro e
          rw [e, htit] at hrt
          rw [hta] at hrt
          cases hrt
          have hg : s.heap.get a = r := by simp [Heap.get, hr]
          refine hieq ?_
          rw [hg]
          exact hri.symm
        rw [alistGet_del_ne _ hne]
        exact hrt
    · exact hwf.nextPos
    ·
      intro i a2 hia2
      by_cases hieq : i = (s.heap.get a).id
      · rw [hieq, alistGet_del_self _ hwf.idKeysNodup] at hia2
        cases hia2
      · rw [alistGet_del_ne _ (fun e => hieq e)] at hia2
        exact hwf.recOK i a2 hia2
    · exact hwf.catKeysNodup
    ·
      intro n col hn
      obtain ⟨h1, h2, h3, h4⟩ := hwf.colOK n col hn
      refine ⟨h1, h2, h3, ?_⟩
      intro i a2 hia2
      have hold := h4 i a2 hia2
      have hne : i ≠ (s.heap.get a).id := by
        intro e
        have := hnomem n col hn
        rw [← e] at this
        rw [this] at hia2
        cases hia2
      rw [alistGet_del_ne _ hne]
      exact hold
    ·
      intro i a2 hia2
      by_cases hieq : i = (s.heap.get a).id
      · rw [hieq, alistGet_del_self _ hwf.idKeysNodup] at hia2
        cases hia2
      · rw [alistGet_del_ne _ (fun e => hieq e)] at hia2
        exact hwf.counts i a2 hia2

theorem modifyTitleOp_rekey {s : S} {id : Int} {newTitle : String} {a : Nat}
    (hia : alistGet id s.lib.byID = some a)
    (hnew : alistGet newTitle s.lib.byTitle = none) :
    modifyTitleOp s id newTitle =
      (⟨s.heap.write a { s.heap.get a with title := newTitle },
        ⟨alistSet newTitle a (alistDel (s.heap.get a).title s.lib.byTitle),
          s.lib.byID, s.lib.nextID⟩, s.cat⟩, none) := by
  simp [modifyTitleOp, FindRecordByID, hia, ModifyTitle, hnew]

theorem modifyTitleOp_dup {s : S} {id : Int} {newTitle : String} {a : Nat}
    (hia : alistGet id s.lib.byID = some a)
    (hnew : (alistGet newTitle s.lib.byTitle).isSome = true) :
    modifyTitleOp s id newTitle = (s, some (.regular errDuplicateRecordTitle)) := by
  cases he : alistGet newTitle s.lib.byTitle with
  | none => rw [he] at hnew; simp at hnew
  | some a2 => simp [modifyTitleOp, FindRecordByID, hia, ModifyTitle, he]

theorem wf_modifyTitleOp {s : S} (hwf : WF s) (id : Int) (newTitle : String)
    (ht : titleOK newTitle = true) : WF (modifyTitleOp s id newTitle).1 := by
  cases hia : alistGet id s.lib.byID with
  | none =>
    have : modifyTitleOp s id newTitle = (s, some (.newline "No record with that ID!")) := by
      simp [modifyTitleOp, FindRecordByID, hia]
    rw [this]
    exact hwf
  | some a =>
  cases hnew : alistGet newTitle s.lib.byTitle with
  | some a2 => rw [modifyTitleOp_dup hia (by simp [hnew])]; exact hwf
  | none =>
  rw [modifyTitleOp_rekey hia hnew]
  have hfind := (wf_find_of_id hwf hia).1
  have hrid := (wf_find_of_id hwf hia).2.1
  have hrt := (wf_find_of_id hwf hia).2.2
  have hmem : a ∈ s.heap.recs.map Prod.fst := mem_keys_of_get hfind
  have halt : a < s.heap.next := wf_addr_lt hwf hfind
  constructor
  case heapNodup => rw [Heap.keys_write_of_mem _ _ hmem]; exact hwf.heapNodup
  case heapBound => exact Heap.bound_write _ hwf.heapBound halt
  case titleKeysNodup => exact nodup_keys_set _ _ (nodup_keys_del _ hwf.titleKeysNodup)
  case idKeysNodup => exact hwf.idKeysNodup
  case titleToId =>
    intro t a2 hta2
    by_cases hteq : t = newTitle
    · subst hteq
      rw [alistGet_set_self] at hta2
      cases hta2
      refine ⟨{ s.heap.get a with title := t }, Heap.find?_write_self _ _ _, rfl, ?_⟩
      show alistGet (s.heap.get a).id s.lib.byID = some a
      rw [hrid]
      exact hia
    · rw [alistGet_set_ne _ _ (fun e => hteq e)] at hta2
      by_cases hteq2 : t = (s.heap.get a).title
      · rw [hteq2, alistGet_del_self _ hwf.titleKeysNodup] at hta2
        cases hta2
      · rw [alistGet_del_ne _ (fun e => hteq2 e)] at hta2
        obtain ⟨r, hr, hrt2, hri2⟩ := hwf.titleToId t a2 hta2
        have hne : a2 ≠ a := by
          intro e
          subst e
          have : s.heap.get a2 = r := by simp [Heap.get, hr]
          rw [← this] at hrt2
          exact hteq2 hrt2.symm
        exact ⟨r, by rw [Heap.find?_write_ne _ _ hne]; exact hr, hrt2, hri2⟩
  case idToTitle =>
    intro i a2 hia2
    obtain ⟨r, hr, hri2, hrt2⟩ := hwf.idToTitle i a2 hia2
    by_cases hae : a = a2
    · subst hae
      have hg : s.heap.get a = r := by simp [Heap.get, hr]
      refine ⟨{ s.heap.get a with title := newTitle }, Heap.find?_write_self _ _ _, ?_, ?_⟩
      · show (s.heap.get a).id = i
        rw [hg]
        exact hri2
      · show alistGet newTitle _ = _
        rw [alistGet_set_self]
    · have hrtne : r.title ≠ newTitle := by
        intro e
        rw [e] at hrt2
        rw [hnew] at hrt2
        cases hrt2
      have hrtne2 : r.title ≠ (s.heap.get a).title := by
        intro e
        have hgt : alistGet (s.heap.get a).title s.lib.byTitle = some a := hrt
        rw [e] at hrt2
        rw [hgt] at hrt2
        cases hrt2
        exact hae rfl
      refine ⟨r, by rw [Heap.find?_write_ne _ _ (fun e => hae e.symm)]; exact hr, hri2, ?_⟩
      rw [alistGet_set_ne _ _ hrtne, alistGet_del_ne _ hrtne2]
      exact hrt2
  case nextPos => exact hwf.nextPos
  case recOK =>
    intro i a2 hia2
    by_cases hae : a = a2
    · subst hae
      rw [Heap.get_write_self]
      have hold := hwf.recOK i a hia2
      refine ⟨⟨hold.1.1, hold.1.2.1, hold.1.2.2.1, hold.1.2.2.2.1, ht⟩, hold.2⟩
    · rw [Heap.get_write_ne _ _ (fun e => hae e.symm)]
      exact hwf.recOK i a2 hia2
  case catKeysNodup => exact hwf.catKeysNodup
  case colOK => exact hwf.colOK
  case counts =>
    intro i a2 hia2
    by_cases hae : a = a2
    · subst hae
      rw [Heap.get_write_self]
      exact hwf.counts i a hia2
    · rw [Heap.get_write_ne _ _ (fun e => hae e.symm)]
      exact hwf.counts i a2 hia2

theorem addCollectionOp_fresh {s : S} {name : String}
    (h : alistGet name s.cat.collections = none) :
    addCollectionOp s name =
      (⟨s.heap, s.lib, ⟨alistSet name (NewCollection name) s.cat.collections⟩⟩, none) := by
  simp [addCollectionOp, AddCollection, h]

theorem addCollectionOp_dup {s : S} {name : String}
    (h : (alistGet name s.cat.collections).isSome = true) :
    addCollectionOp s name = (s, some (.newline errDuplicateCollection)) := by
  cases he : alistGet name s.cat.collections with
  | none => rw [he] at h; simp at h
  | some col => simp [addCollectionOp, AddCollection, he]

theorem countColls_set_empty {c : Catalog} {name : String} {i : Int}
    (h : alistGet name c.collections = none) :
    countColls ⟨alistSet name (NewCollection name) c.collections⟩ i = countColls c i := by
  unfold countColls
  rw [countP_alistSet_fresh _ _ (alistGet_eq_none_iff.mp h)]
  simp [NewCollection, alistGet]

theorem wf_addCollectionOp {s : S} (hwf : WF s) (name : String)
    (hw : wordOK name = true) : WF (addCollectionOp s name).1 := by
  cases he : alistGet name s.cat.collections with
  | some col => rw [addCollectionOp_dup (by simp [he])]; exact hwf
  | none =>
  rw [addCollectionOp_fresh he]
  constructor
  case heapNodup => exact hwf.heapNodup
  case heapBound => exact hwf.heapBound
  case titleKeysNodup => exact hwf.titleKeysNodup
  case idKeysNodup => exact hwf.idKeysNodup
  case titleToId => exact hwf.titleToId
  case idToTitle => exact hwf.idToTitle
  case nextPos => exact hwf.nextPos
  case recOK => exact hwf.recOK
  case catKeysNodup => exact nodup_keys_set _ _ hwf.catKeysNodup
  case colOK =>
    intro n col hn
    by_cases hne : n = name
    · subst hne
      rw [alistGet_set_self] at hn
      cases hn
      exact ⟨rfl, hw, List.nodup_nil, fun i a h => by cases h⟩
    · rw [alistGet_set_ne _ _ (fun e => hne e)] at hn
      exact hwf.colOK n col hn
  case counts =>
    intro i a hia
    rw [countColls_set_empty he]
    exact hwf.counts i a hia

theorem clearLibraryOp_clear {s : S}
    (h : s.cat.collections.any (fun p => ¬ p.2.members.isEmpty) = false) :
    clearLibraryOp s = (⟨s.heap, NewLibrary, s.cat⟩, none) := by
  simp only [clearLibraryOp, LibraryClear, h, Bool.false_eq_true, if_false]

theorem wf_clearLibraryOp {s : S} (hwf : WF s) : WF (clearLibraryOp s).1 := by
  cases hany : s.cat.collections.any (fun p => ¬ p.2.members.isEmpty) with
  | true =>
    have : clearLibraryOp s =
        (s, some (.newline "Cannot clear all records unless all collections are empty!")) := by
      simp only [clearLibraryOp, LibraryClear, hany, if_true]
    rw [this]
    exact hwf
  | false =>
  rw [clearLibraryOp_clear hany]
  have hempty : ∀ p ∈ s.cat.collections, p.2.members = [] := by
    intro p hp
    have := List.any_eq_false.mp hany p hp
    simp at this
    exact this
  constructor
  case heapNodup => exact hwf.heapNodup
  case heapBound => exact hwf.heapBound
  case titleKeysNodup => exact List.nodup_nil
  case idKeysNodup => exact List.nodup_nil
  case titleToId => intro t a h; cases h
  case idToTitle => intro i a h; cases h
  case nextPos => exact le_refl 1
  case recOK => intro i a h; cases h
  case catKeysNodup => exact hwf.catKeysNodup
  case colOK =>
    intro n col hn
    obtain ⟨h1, h2, h3, _⟩ := hwf.colOK n col hn
    refine ⟨h1, h2, h3, ?_⟩
    intro i a hm
    rw [hempty (n, col) (alistGet_mem hn)] at hm
    cases hm
  case counts => intro i a h; cases h

/-! ## Membership mutation (am / dm handlers) -/

theorem wf_write_cat {s : S} (hwf : WF s) {a : Nat} {i : Int}
    (hia : alistGet i s.lib.byID = some a) (r' : Record) (cat' : Catalog)
    (hid : r'.id = (s.heap.get a).id) (htitle : r'.title = (s.heap.get a).title)
    (hrec : recordOK r')
    (hcatnd : (cat'.collections.map Prod.fst).Nodup)
    (hcolOK : ∀ n col, alistGet n cat'.collections = some col →
      col.name = n ∧ wordOK n = true ∧ (col.members.map Prod.fst).Nodup ∧
      ∀ i2 a2, alistGet i2 col.members = some a2 → alistGet i2 s.lib.byID = some a2)
    (hcnt_a : r'.numCollections = countColls cat' i)
    (hcnt_other : ∀ i2 a2, alistGet i2 s.lib.byID = some a2 → a2 ≠ a →
      (s.heap.get a2).numCollections = countColls cat' i2) :
    WF ⟨s.heap.write a r', s.lib, cat'⟩ := by
  have hfind := (wf_find_of_id hwf hia).1
  have hmem : a ∈ s.heap.recs.map Prod.fst := mem_keys_of_get hfind
  have halt : a < s.heap.next := wf_addr_lt hwf hfind
  refine ⟨?_, ?_, ?_, ?_, ?_, ?_, ?_, ?_, ?_, ?_, ?_⟩
  · rw [Heap.keys_write_of_mem _ _ hmem]
    exact hwf.heapNodup
  · exact Heap.bound_write _ hwf.heapBound halt
  · exact hwf.titleKeysNodup
  · exact hwf.idKeysNodup
  · intro t a2 hta
    obtain ⟨r, hr, hrt, hri⟩ := hwf.titleToId t a2 hta
    by_cases hae : a = a2
    · subst hae
      have hg : s.heap.get a = r := by simp [Heap.get, hr]
      refine ⟨r', Heap.find?_write_self _ _ _, ?_, ?_⟩
      · rw [htitle, hg]
        exact hrt
      · rw [hid, hg]
        exact hri
    · exact ⟨r, by rw [Heap.find?_write_ne _ _ (fun e => hae e.symm)]; exact hr, hrt, hri⟩
  · intro i2 a2 hta
    obtain ⟨r, hr, hri, hrt⟩ := hwf.idToTitle i2 a2 hta
    by_cases hae : a = a2
    · subst hae
      have hg : s.heap.get a = r := by simp [Heap.get, hr]
      refine ⟨r', Heap.find?_write_self _ _ _, ?_, ?_⟩
      · rw [hid, hg]
        exact hri
      · rw [htitle, hg]
        exact hrt
    · exact ⟨r, by rw [Heap.find?_write_ne _ _ (fun e => hae e.symm)]; exact hr, hri, hrt⟩
  · exact hwf.nextPos
  · intro i2 a2 hta
    by_cases hae : a = a2
    · subst hae
      rw [Heap.get_write_self]
      refine ⟨hrec, ?_⟩
      rw [hid]
      exact (hwf.recOK i a hia).2
    · rw [Heap.get_write_ne _ _ (fun e => hae e.symm)]
      exact hwf.recOK i2 a2 hta
  · exact hcatnd
  · exact hcolOK
  · intro i2 a2 hta
    by_cases hae : a = a2
    · subst hae
      rw [Heap.get_write_self]
      have hii : i2 = i := wf_id_addr_inj hwf hta hia
      subst hii
      exact hcnt_a
    · rw [Heap.get_write_ne _ _ (fun e => hae e.symm)]
      exact hcnt_other i2 a2 hta (fun e => hae e.symm)

theorem countColls_set_member_self {cols : List (String × Collection)} {cname : String}
    {col : Collection} {i : Int} {a : Nat}
    (hn : alistGet cname cols = some col) (hnd : (cols.map Prod.fst).Nodup)
    (hnotin : alistGet i col.members = none) :
    countColls ⟨alistSet cname { col with members := alistSet i a col.members } cols⟩ i =
      countColls ⟨cols⟩ i + 1 := by
  have h := countP_alistSet_present { col with members := alistSet i a col.members }
    (fun p => (alistGet i p.2.members).isSome) hn hnd
  simp only at h
  simp only [hnotin, alistGet_set_self] at h
  simp at h
  unfold countColls
  simp only
  omega

theorem countColls_set_member_other {cols : List (String × Collection)} {cname : String}
    {col : Collection} {i i2 : Int} {a : Nat}
    (hn : alistGet cname cols = some col) (hnd : (cols.map Prod.fst).Nodup)
    (hne : i2 ≠ i) :
    countColls ⟨alistSet cname { col with members := alistSet i a col.members } cols⟩ i2 =
      countColls ⟨cols⟩ i2 := by
  have h := countP_alistSet_present { col with members := alistSet i a col.members }
    (fun p => (alistGet i2 p.2.members).isSome) hn hnd
  simp only at h
  simp only [alistGet_set_ne _ _ hne] at h
  unfold countColls
  simp only
  by_cases hc : (alistGet i2 col.members).isSome = true <;> simp [hc] at h <;> omega

theorem countColls_del_member_self {cols : List (String × Collection)} {cname : String}
    {col : Collection} {i : Int}
    (hn : alistGet cname cols = some col) (hnd : (cols.map Prod.fst).Nodup)
    (hmnd : (col.members.map Prod.fst).Nodup)
    (hin : (alistGet i col.members).isSome = true) :
    countColls ⟨alistSet cname { col with members := alistDel i col.members } cols⟩ i + 1 =
      countColls ⟨cols⟩ i := by
  have h := countP_alistSet_present { col with members := alistDel i col.members }
    (fun p => (alistGet i p.2.members).isSome) hn hnd
  simp only at h
  simp only [hin, alistGet_del_self _ hmnd] at h
  simp at h
  unfold countColls
  simp only
  omega

theorem countColls_del_member_other {cols : List (String × Collection)} {cname : String}
    {col : Collection} {i i2 : Int}
    (hn : alistGet cname cols = some col) (hnd : (cols.map Prod.fst).Nodup)
    (hne : i2 ≠ i) :
    countColls ⟨alistSet cname { col with members := alistDel i col.members } cols⟩ i2 =
      countColls ⟨cols⟩ i2 := by
  have h := countP_alistSet_present { col with members := alistDel i col.members }
    (fun p => (alistGet i2 p.2.members).isSome) hn hnd
  simp only at h
  simp only [alistGet_del_ne _ hne] at h
  unfold countColls
  simp only
  by_cases hc : (alistGet i2 col.members).isSome = true <;> simp [hc] at h <;> omega

theorem addMemberOp_add {s : S} {cname : String} {id : Int} {col : Collection} {a : Nat}
    (hcn : alistGet cname s.cat.collections = some col)
    (hia : alistGet id s.lib.byID = some a)
    (hnm : alistGet (s.heap.get a).id col.members = none) :
    addMemberOp s cname id =
      (⟨s.heap.write a
          { s.heap.get a with numCollections := (s.heap.get a).numCollections + 1 },
        s.lib,
        ⟨alistSet cname
          { col with members := alistSet (s.heap.get a).id a col.members }
          s.cat.collections⟩⟩, none) := by
  simp [addMemberOp, FindCollection, hcn, FindRecordByID, hia, AddMember, hnm]

theorem wf_addMemberOp {s : S} (hwf : WF s) (cname : String) (id : Int) :
    WF (addMemberOp s cname id).1 := by
  cases hcn : alistGet cname s.cat.collections with
  | none =>
    have : addMemberOp s cname id = (s, some (.newline errNoSuchCollection)) := by
      simp [addMemberOp, FindCollection, hcn]
    rw [this]
    exact hwf
  | some col =>
  cases hia : alistGet id s.lib.byID with
  | none =>
    have : addMemberOp s cname id = (s, some (.newline "No record with that ID!")) := by
      simp [addMemberOp, FindCollection, hcn, FindRecordByID, hia]
    rw [this]
    exact hwf
  | some a =>
  cases hnm : alistGet (s.heap.get a).id col.members with
  | some a2 =>
    have : addMemberOp s cname id =
        (s, some (.newline "Record is already a member in the collection!")) := by
      simp [addMemberOp, FindCollection, hcn, FindRecordByID, hia, AddMember, hnm]
    rw [this]
    exact hwf
  | none =>
  rw [addMemberOp_add hcn hia hnm]
  have hrid : (s.heap.get a).id = id := (wf_find_of_id hwf hia).2.1
  have hcolf := hwf.colOK cname col hcn
  refine wf_write_cat hwf hia _ _ rfl rfl ?_ ?_ ?_ ?_ ?_
  · exact (hwf.recOK id a hia).1
  · rw [keys_set_of_mem _ (mem_keys_of_get hcn)]
    exact hwf.catKeysNodup
  · intro n col2 hn2
    by_cases hne : n = cname
    · subst hne
      rw [alistGet_set_self] at hn2
      cases hn2
      refine ⟨hcolf.1, hcolf.2.1, nodup_keys_set _ _ hcolf.2.2.1, ?_⟩
      intro i2 a2 hm2
      by_cases hie : i2 = (s.heap.get a).id
      · subst hie
        rw [alistGet_set_self] at hm2
        cases hm2
        rw [hrid]
        exact hia
      · rw [alistGet_set_ne _ _ (fun e => hie e)] at hm2
        exact hcolf.2.2.2 i2 a2 hm2
    · rw [alistGet_set_ne _ _ (fun e => hne e)] at hn2
      exact hwf.colOK n col2 hn2
  · show (s.heap.get a).numCollections + 1 = _
    rw [hrid] at hnm
    have hset := @countColls_set_member_self s.cat.collections cname col id a hcn
      hwf.catKeysNodup hnm
    have hcat : countColls ⟨s.cat.collections⟩ id = countColls s.cat id := rfl
    rw [hcat] at hset
    rw [hrid, hset]
    have := hwf.counts id a hia
    omega
  · intro i2 a2 hia2 hne
    have hine : i2 ≠ id := by
      intro e
      subst e
      rw [hia2] at hia
      cases hia
      exact hne rfl
    rw [hrid]
    rw [countColls_set_member_other hcn hwf.catKeysNodup hine]
    exact hwf.counts i2 a2 hia2

theorem deleteMemberOp_del {s : S} {cname : String} {id : Int} {col : Collection} {a a2 : Nat}
    (hcn : alistGet cname s.cat.collections = some col)
    (hia : alistGet id s.lib.byID = some a)
    (hnm : alistGet (s.heap.get a).id col.members = some a2) :
    deleteMemberOp s cname id =
      (⟨s.heap.write a
          { s.heap.get a with numCollections := (s.heap.get a).numCollections - 1 },
        s.lib,
        ⟨alistSet cname
          { col with members := alistDel (s.heap.get a).id col.members }
          s.cat.collections⟩⟩, none) := by
  simp [deleteMemberOp, FindCollection, hcn, FindRecordByID, hia, DeleteMember, hnm]

theorem wf_deleteMemberOp {s : S} (hwf : WF s) (cname : String) (id : Int) :
    WF (deleteMemberOp s cname id).1 := by
  cases hcn : alistGet cname s.cat.collections with
  | none =>
    have : deleteMemberOp s cname id = (s, some (.newline errNoSuchCollection)) := by
      simp [deleteMemberOp, FindCollection, hcn]
    rw [this]
    exact hwf
  | some col =>
  cases hia : alistGet id s.lib.byID with
  | none =>
    have : deleteMemberOp s cname id = (s, some (.newline "No record with that ID!")) := by
      simp [deleteMemberOp, FindCollection, hcn, FindRecordByID, hia]
    rw [this]
    exact hwf
  | some a =>
  cases hnm : alistGet (s.heap.get a).id col.members with
  | none =>
    have : deleteMemberOp s cname id =
        (s, some (.newline "Record is not a member in the collection!")) := by
      simp [deleteMemberOp, FindCollection, hcn, FindRecordByID, hia, DeleteMember, hnm]
    rw [this]
    exact hwf
  | some a2 =>
  rw [deleteMemberOp_del hcn hia hnm]
  have hrid : (s.heap.get a).id = id := (wf_find_of_id hwf hia).2.1
  have hcolf := hwf.colOK cname col hcn
  refine wf_write_cat hwf hia _ _ rfl rfl ?_ ?_ ?_ ?_ ?_
  · exact (hwf.recOK id a hia).1
  · rw [keys_set_of_mem _ (mem_keys_of_get hcn)]
    exact hwf.catKeysNodup
  · intro n col2 hn2
    by_cases hne : n = cname
    · subst hne
      rw [alistGet_set_self] at hn2
      cases hn2
      refine ⟨hcolf.1, hcolf.2.1, nodup_keys_del _ hcolf.2.2.1, ?_⟩
      intro i2 a3 hm2
      by_cases hie : i2 = (s.heap.get a).id
      · subst hie
        rw [alistGet_del_self _ hcolf.2.2.1] at hm2
        cases hm2
      · rw [alistGet_del_ne _ (fun e => hie e)] at hm2
        exact hcolf.2.2.2 i2 a3 hm2
    · rw [alistGet_set_ne _ _ (fun e => hne e)] at hn2
      exact hwf.colOK n col2 hn2
  · show (s.heap.get a).numCollections - 1 = _
    rw [hrid] at hnm
    have hdel := countColls_del_member_self hcn hwf.catKeysNodup hcolf.2.2.1 (by rw [hnm]; rfl)
    have hcat : countColls ⟨s.cat.collections⟩ id = countColls s.cat id := rfl
    rw [hcat] at hdel
    have := hwf.counts id a hia
    rw [hrid]
    omega
  · intro i2 a3 hia2 hne
    have hine : i2 ≠ id := by
      intro e
      subst e
      rw [hia2] at hia
      cases hia
      exact hne rfl
    rw [hrid]
    rw [countColls_del_member_other hcn hwf.catKeysNodup hine]
    exact hwf.counts i2 a3 hia2

/-! ## Clearing collections (dc / cC / cA handlers) -/

theorem decMembers_next (h : Heap) (m : List (Int × Nat)) :
    (decMembers h m).next = h.next := by
  induction m generalizing h with
  | nil => rfl
  | cons p rest ih => rw [decMembers, ih]; rfl

theorem decMembers_keys (h : Heap) (m : List (Int × Nat))
    (hall : ∀ p ∈ m, p.2 ∈ h.recs.map Prod.fst) :
    (decMembers h m).recs.map Prod.fst = h.recs.map Prod.fst := by
  induction m generalizing h with
  | nil => rfl
  | cons p rest ih =>
    rw [decMembers]
    rw [ih]
    · exact Heap.keys_write_of_mem _ _ (hall p (List.mem_cons_self _ _))
    · intro q hq
      rw [Heap.keys_write_of_mem _ _ (hall p (List.mem_cons_self _ _))]
      exact hall q (List.mem_cons_of_mem _ hq)

theorem decMembers_find_not_mem (h : Heap) (m : List (Int × Nat)) {a : Nat}
    (hna : a ∉ m.map Prod.snd) :
    (decMembers h m).find? a = h.find? a := by
  induction m generalizing h with
  | nil => rfl
  | cons p rest ih =>
    rw [List.map_cons, List.mem_cons] at hna
    push_neg at hna
    rw [decMembers, ih _ hna.2, Heap.find?_write_ne _ _ hna.1]

theorem decMembers_find (h : Heap) (m : List (Int × Nat)) (a : Nat)
    (hnd : (m.map Prod.snd).Nodup)
    (hall : ∀ p ∈ m, p.2 ∈ h.recs.map Prod.fst) :
    (decMembers h m).find? a = (h.find? a).map (fun r =>
      { r with numCollections := r.numCollections -
          (if a ∈ m.map Prod.snd then 1 else 0) }) := by
  induction m generalizing h with
  | nil =>
    cases hf : h.find? a <;> simp [decMembers, hf]
  | cons p rest ih =>
    rw [List.map_cons, List.nodup_cons] at hnd
    rw [decMembers]
    have hallrest : ∀ q ∈ rest, q.2 ∈ (h.write p.2 { h.get p.2 with
        numCollections := (h.get p.2).numCollections - 1 }).recs.map Prod.fst := by
      intro q hq
      rw [Heap.keys_write_of_mem _ _ (hall p (List.mem_cons_self _ _))]
      exact hall q (List.mem_cons_of_mem _ hq)
    rw [ih _ hnd.2 hallrest]
    by_cases hap : a = p.2
    · have hna : a ∉ rest.map Prod.snd := by rw [hap]; exact hnd.1
      have hmem : a ∈ (p :: rest).map Prod.snd := by
        rw [hap, List.map_cons]
        exact List.mem_cons_self _ _
      have hsome : (h.find? a).isSome = true := by
        rw [hap]
        exact alistGet_isSome_iff.mpr (hall p (List.mem_cons_self _ _))
      cases hf : h.find? a with
      | none => rw [hf] at hsome; cases hsome
      | some r =>
        have hg : h.get p.2 = r := by rw [← hap]; simp [Heap.get, hf]
        have hw : (h.write p.2 { h.get p.2 with
            numCollections := (h.get p.2).numCollections - 1 }).find? a =
            some { h.get p.2 with numCollections := (h.get p.2).numCollections - 1 } := by
          rw [hap]
          exact Heap.find?_write_self _ _ _
        rw [hw, hg]
        simp [hna, hmem, hap]
        intro x hx
        rw [hap] at hna
        exact hna (List.mem_map.mpr ⟨(x, p.2), hx, rfl⟩)
    · rw [Heap.find?_write_ne _ _ hap]
      have hcons : (a ∈ (p :: rest).map Prod.snd) ↔ (a ∈ rest.map Prod.snd) := by
        simp [List.map_cons, List.mem_cons, hap]
      cases hf : h.find? a with
      | none => simp
      | some r =>
        by_cases hm : a ∈ rest.map Prod.snd
        · simp [hm, hcons.mpr hm, hap]
        · simp [hm, fun hc => hm (hcons.mp hc), hap]

theorem clearColls_next (h : Heap) (cols : List (String × Collection)) :
    (clearColls h cols).next = h.next := by
  induction cols generalizing h with
  | nil => rfl
  | cons p rest ih =>
    rw [clearColls.eq_def]
    cases p with
    | mk n col =>
      simp only [clearCollection]
      rw [ih]
      exact decMembers_next _ _

theorem clearColls_keys (h : Heap) (cols : List (String × Collection))
    (hall : ∀ p ∈ cols, ∀ q ∈ p.2.members, q.2 ∈ h.recs.map Prod.fst) :
    (clearColls h cols).recs.map Prod.fst = h.recs.map Prod.fst := by
  induction cols generalizing h with
  | nil => rfl
  | cons p rest ih =>
    rw [clearColls.eq_def]
    cases p with
    | mk n col =>
      simp only [clearCollection]
      have hk : (decMembers h col.members).recs.map Prod.fst = h.recs.map Prod.fst :=
        decMembers_keys _ _ (hall (n, col) (List.mem_cons_self _ _))
      rw [ih, hk]
      intro q hq r hr
      rw [hk]
      exact hall q (List.mem_cons_of_mem _ hq) r hr

theorem clearColls_find (h : Heap) (cols : List (String × Collection)) (a : Nat)
    (hnd : ∀ p ∈ cols, (p.2.members.map Prod.snd).Nodup)
    (hall : ∀ p ∈ cols, ∀ q ∈ p.2.members, q.2 ∈ h.recs.map Prod.fst) :
    (clearColls h cols).find? a = (h.find? a).map (fun r =>
      { r with numCollections := r.numCollections -
          ((cols.filter (fun p => a ∈ p.2.members.map Prod.snd)).length : Int) }) := by
  induction cols generalizing h with
  | nil =>
    cases hf : h.find? a <;> simp [clearColls, hf]
  | cons p rest ih =>
    rw [clearColls.eq_def]
    cases p with
    | mk n col =>
    simp only [clearCollection]
    have hkeys : (decMembers h col.members).recs.map Prod.fst = h.recs.map Prod.fst :=
      decMembers_keys _ _ (hall (n, col) (List.mem_cons_self _ _))
    rw [ih _ (fun q hq => hnd q (List.mem_cons_of_mem _ hq))
      (fun q hq r hr => by rw [hkeys]; exact hall q (List.mem_cons_of_mem _ hq) r hr)]
    rw [decMembers_find h col.members a (hnd (n, col) (List.mem_cons_self _ _))
      (hall (n, col) (List.mem_cons_self _ _))]
    cases hf : h.find? a with
    | none => simp
    | some r =>
      by_cases hm : a ∈ col.members.map Prod.snd <;>
        simp [List.filter_cons, hm, Record.mk.injEq] <;> push_cast <;> ring

theorem nodup_snd_of_inj {κ β : Type} {l : List (κ × β)}
    (hfst : (l.map Prod.fst).Nodup)
    (hinj : ∀ p ∈ l, ∀ q ∈ l, p.2 = q.2 → p.1 = q.1) : (l.map Prod.snd).Nodup := by
  induction l with
  | nil => exact List.nodup_nil
  | cons p rest ih =>
    rw [List.map_cons, List.nodup_cons] at hfst ⊢
    refine ⟨?_, ih hfst.2 (fun q hq r hr he =>
      hinj q (List.mem_cons_of_mem _ hq) r (List.mem_cons_of_mem _ hr) he)⟩
    intro hc
    rcases List.mem_map.mp hc with ⟨q, hq, he⟩
    have := hinj q (List.mem_cons_of_mem _ hq) p (List.mem_cons_self _ _) he
    exact hfst.1 (this ▸ List.mem_map.mpr ⟨q, hq, rfl⟩)

/-- members of a collection in a well-formed state have pairwise distinct
addresses. -/
theorem wf_members_addr_nodup {s : S} (hwf : WF s) {n : String} {col : Collection}
    (hn : alistGet n s.cat.collections = some col) :
    (col.members.map Prod.snd).Nodup := by
  have hcolf := hwf.colOK n col hn
  refine nodup_snd_of_inj hcolf.2.2.1 ?_
  intro p hp q hq he
  have h1 := hcolf.2.2.2 p.1 p.2 (alistGet_of_mem_nodup (by cases p; exact hp) hcolf.2.2.1)
  have h2 := hcolf.2.2.2 q.1 q.2 (alistGet_of_mem_nodup (by cases q; exact hq) hcolf.2.2.1)
  rw [he] at h1
  exact wf_id_addr_inj hwf h1 h2

theorem wf_members_addr_alloc {s : S} (hwf : WF s) {n : String} {col : Collection}
    (hn : alistGet n s.cat.collections = some col) :
    ∀ q ∈ col.members, q.2 ∈ s.heap.recs.map Prod.fst := by
  intro q hq
  have hcolf := hwf.colOK n col hn
  have hbyid := hcolf.2.2.2 q.1 q.2
    (alistGet_of_mem_nodup (by cases q; exact hq) hcolf.2.2.1)
  exact mem_keys_of_get (wf_find_of_id hwf hbyid).1

/-- the membership test by key and the membership test by address agree for a
record indexed at (i, a). -/
theorem wf_member_key_addr {s : S} (hwf : WF s) {n : String} {col : Collection}
    {i : Int} {a : Nat}
    (hn : alistGet n s.cat.collections = some col)
    (hia : alistGet i s.lib.byID = some a) :
    (alistGet i col.members).isSome = decide (a ∈ col.members.map Prod.snd) := by
  have hcolf := hwf.colOK n col hn
  cases hm : alistGet i col.members with
  | some a2 =>
    have hb := hcolf.2.2.2 i a2 hm
    rw [hia] at hb
    cases hb
    simp
    exact ⟨i, alistGet_mem hm⟩
  | none =>
    simp
    intro x hx
    have hx2 := hcolf.2.2.2 x a (alistGet_of_mem_nodup hx hcolf.2.2.1)
    have hxi : x = i := wf_id_addr_inj hwf hx2 hia
    rw [hxi] at hx
    rw [alistGet_of_mem_nodup hx hcolf.2.2.1] at hm
    cases hm

/-- replacing the heap by one with identical skeleton (same allocation set,
same records up to numCollections) and the catalog by one whose collections
still resolve in the library, with matching counts, preserves WF. -/
theorem wf_replace_counts {s : S} (hwf : WF s) (h2 : Heap) (cat2 : Catalog)
    (hnext : h2.next = s.heap.next)
    (hkeys : h2.recs.map Prod.fst = s.heap.recs.map Prod.fst)
    (hfind : ∀ a r, s.heap.find? a = some r →
      ∃ c : Int, h2.find? a = some { r with numCollections := c })
    (hcatnd : (cat2.collections.map Prod.fst).Nodup)
    (hcolOK : ∀ n col, alistGet n cat2.collections = some col →
      col.name = n ∧ wordOK n = true ∧ (col.members.map Prod.fst).Nodup ∧
      ∀ i2 a2, alistGet i2 col.members = some a2 → alistGet i2 s.lib.byID = some a2)
    (hcounts : ∀ i a, alistGet i s.lib.byID = some a →
      (h2.get a).numCollections = countColls cat2 i) :
    WF ⟨h2, s.lib, cat2⟩ := by
  refine ⟨?_, ?_, ?_, ?_, ?_, ?_, ?_, ?_, ?_, ?_, ?_⟩
  · rw [hkeys]
    exact hwf.heapNodup
  · intro p hp
    have hmem : p.1 ∈ s.heap.recs.map Prod.fst := by
      rw [← hkeys]
      exact List.mem_map.mpr ⟨p, hp, rfl⟩
    rcases List.mem_map.mp hmem with ⟨q, hq, he⟩
    rw [hnext, ← he]
    exact hwf.heapBound q hq
  · exact hwf.titleKeysNodup
  · exact hwf.idKeysNodup
  · intro t a hta
    obtain ⟨r, hr, hrt, hri⟩ := hwf.titleToId t a hta
    obtain ⟨c, hc⟩ := hfind a r hr
    exact ⟨{ r with numCollections := c }, hc, hrt, hri⟩
  · intro i a hia
    obtain ⟨r, hr, hri, hrt⟩ := hwf.idToTitle i a hia
    obtain ⟨c, hc⟩ := hfind a r hr
    exact ⟨{ r with numCollections := c }, hc, hri, hrt⟩
  · exact hwf.nextPos
  · intro i a hia
    have hold := hwf.recOK i a hia
    have hr := (wf_find_of_id hwf hia).1
    obtain ⟨c, hc⟩ := hfind a _ hr
    have hg : h2.get a = { s.heap.get a with numCollections := c } := by
      simp [Heap.get, hc]
    rw [hg]
    exact ⟨⟨hold.1.1, hold.1.2.1, hold.1.2.2.1, hold.1.2.2.2.1, hold.1.2.2.2.2⟩, hold.2⟩
  · exact hcatnd
  · exact hcolOK
  · exact hcounts

theorem wf_clearCatalogOp {s : S} (hwf : WF s) : WF (clearCatalogOp s).1 := by
  have hall : ∀ p ∈ s.cat.collections, ∀ q ∈ p.2.members, q.2 ∈ s.heap.recs.map Prod.fst := by
    intro p hp
    exact wf_members_addr_alloc hwf (alistGet_of_mem_pair hp hwf.catKeysNodup)
  have hnd : ∀ p ∈ s.cat.collections, (p.2.members.map Prod.snd).Nodup := by
    intro p hp
    exact wf_members_addr_nodup hwf (alistGet_of_mem_pair hp hwf.catKeysNodup)
  show WF ⟨clearColls s.heap s.cat.collections, s.lib, NewCatalog⟩
  refine wf_replace_counts hwf _ _ (clearColls_next _ _) (clearColls_keys _ _ hall) ?_ ?_ ?_ ?_
  · intro a r hr
    refine ⟨r.numCollections -
      ((s.cat.collections.filter (fun p => a ∈ p.2.members.map Prod.snd)).length : Int), ?_⟩
    rw [clearColls_find _ _ _ hnd hall, hr]
    rfl
  · exact List.nodup_nil
  · intro n col hn
    cases hn
  · intro i a hia
    have hr := (wf_find_of_id hwf hia).1
    have hg : ((clearColls s.heap s.cat.collections).get a).numCollections =
        (s.heap.get a).numCollections -
          ((s.cat.collections.filter (fun p => a ∈ p.2.members.map Prod.snd)).length : Int) := by
      unfold Heap.get
      rw [clearColls_find _ _ _ hnd hall, hr]
      rfl
    rw [hg]
    have hcnt := hwf.counts i a hia
    have hsame : ((s.cat.collections.filter
        (fun p => (alistGet i p.2.members).isSome)).length) =
        ((s.cat.collections.filter (fun p => a ∈ p.2.members.map Prod.snd)).length) := by
      refine filter_length_congr ?_
      intro p hp
      exact wf_member_key_addr hwf
        (alistGet_of_mem_pair hp hwf.catKeysNodup) hia
    have hz : countColls NewCatalog i = 0 := rfl
    rw [hz]
    unfold countColls at hcnt
    omega

theorem wf_clearAllOp {s : S} (hwf : WF s) : WF (clearAllOp s).1 := by
  have hall : ∀ p ∈ s.cat.collections, ∀ q ∈ p.2.members, q.2 ∈ s.heap.recs.map Prod.fst := by
    intro p hp
    exact wf_members_addr_alloc hwf (alistGet_of_mem_pair hp hwf.catKeysNodup)
  show WF ⟨clearColls s.heap s.cat.collections, NewLibrary, NewCatalog⟩
  refine ⟨?_, ?_, ?_, ?_, ?_, ?_, ?_, ?_, ?_, ?_, ?_⟩
  · rw [clearColls_keys _ _ hall]
    exact hwf.heapNodup
  · intro p hp
    have hmem : p.1 ∈ s.heap.recs.map Prod.fst := by
      rw [← clearColls_keys _ _ hall]
      exact List.mem_map.mpr ⟨p, hp, rfl⟩
    rcases List.mem_map.mp hmem with ⟨q, hq, he⟩
    rw [clearColls_next, ← he]
    exact hwf.heapBound q hq
  · exact List.nodup_nil
  · exact List.nodup_nil
  · intro t a h
    cases h
  · intro i a h
    cases h
  · exact le_refl 1
  · intro i a h
    cases h
  · exact List.nodup_nil
  · intro n col h
    cases h
  · intro i a h
    cases h

theorem deleteCollectionOp_del {s : S} {name : String} {col : Collection}
    (hn : alistGet name s.cat.collections = some col) :
    deleteCollectionOp s name =
      (⟨decMembers s.heap col.members, s.lib, ⟨alistDel name s.cat.collections⟩⟩, none) := by
  simp [deleteCollectionOp, DeleteCollection, hn, clearCollection]

theorem wf_deleteCollectionOp {s : S} (hwf : WF s) (name : String) :
    WF (deleteCollectionOp s name).1 := by
  cases hn : alistGet name s.cat.collections with
  | none =>
    have : deleteCollectionOp s name = (s, some (.newline errNoSuchCollection)) := by
      simp [deleteCollectionOp, DeleteCollection, hn]
    rw [this]
    exact hwf
  | some col =>
  rw [deleteCollectionOp_del hn]
  have hall := wf_members_addr_alloc hwf hn
  have hnd := wf_members_addr_nodup hwf hn
  refine wf_replace_counts hwf _ _ (decMembers_next _ _) (decMembers_keys _ _ hall) ?_ ?_ ?_ ?_
  · intro a r hr
    refine ⟨r.numCollections - (if a ∈ col.members.map Prod.snd then 1 else 0), ?_⟩
    rw [decMembers_find _ _ _ hnd hall, hr]
    rfl
  · exact nodup_keys_del _ hwf.catKeysNodup
  · intro n2 col2 hn2
    by_cases hne : n2 = name
    · rw [hne, alistGet_del_self _ hwf.catKeysNodup] at hn2
      cases hn2
    · rw [alistGet_del_ne _ (fun e => hne e)] at hn2
      exact hwf.colOK n2 col2 hn2
  · intro i a hia
    have hr := (wf_find_of_id hwf hia).1
    have hg : ((decMembers s.heap col.members).get a).numCollections =
        (s.heap.get a).numCollections - (if a ∈ col.members.map Prod.snd then 1 else 0) := by
      unfold Heap.get
      rw [decMembers_find _ _ _ hnd hall, hr]
      rfl
    rw [hg]
    have hcnt := hwf.counts i a hia
    have hdel := countP_alistDel (fun p => (alistGet i p.2.members).isSome)
      hn hwf.catKeysNodup
    simp only at hdel
    have hkey := wf_member_key_addr hwf hn hia
    have hcc : countColls ⟨alistDel name s.cat.collections⟩ i =
        ((alistDel name s.cat.collections).filter
          (fun p => (alistGet i p.2.members).isSome)).length := rfl
    unfold countColls at hcnt
    rw [hcc]
    by_cases hm : a ∈ col.members.map Prod.snd
    · rw [if_pos hm]
      have hs : (alistGet i col.members).isSome = true := by
        rw [hkey]
        simpa using hm
      simp only [hs] at hdel
      simp at hdel
      omega
    · rw [if_neg hm]
      have hs : (alistGet i col.members).isSome = false := by
        rw [hkey]
        simpa using hm
      simp only [hs] at hdel
      simp at hdel
      omega

/-! ## CombineCollections (cc handler) -/

theorem addAllMembers_spec (m : List (Int × Nat)) (h : Heap) (dst : Collection)
    (hids : ∀ p ∈ m, (h.get p.2).id = p.1)
    (hnd : (m.map Prod.fst).Nodup)
    (hall : ∀ p ∈ m, p.2 ∈ h.recs.map Prod.fst) :
    (addAllMembers h dst m).2.name = dst.name ∧
    (addAllMembers h dst m).1.next = h.next ∧
    (addAllMembers h dst m).1.recs.map Prod.fst = h.recs.map Prod.fst ∧
    (∀ i, alistGet i (addAllMembers h dst m).2.members =
      match alistGet i dst.members with
      | some a => some a
      | none => alistGet i m) ∧
    (∀ a r, h.find? a = some r → (addAllMembers h dst m).1.find? a =
      some { r with numCollections := r.numCollections +
        ((m.filter (fun p => p.2 = a ∧ (alistGet p.1 dst.members).isNone)).length : Int) }) ∧
    ((dst.members.map Prod.fst).Nodup →
      ((addAllMembers h dst m).2.members.map Prod.fst).Nodup) := by
  induction m generalizing h dst with
  | nil =>
    refine ⟨rfl, rfl, rfl, ?_, ?_, fun h => h⟩
    · intro i
      cases hd : alistGet i dst.members <;> simp [addAllMembers, hd, alistGet]
    · intro a r hr
      simp [addAllMembers, hr]
  | cons p rest ih =>
    rcases p with ⟨pi, pa⟩
    rw [List.map_cons, List.nodup_cons] at hnd
    have hpid : (h.get pa).id = pi := hids (pi, pa) (List.mem_cons_self _ _)
    rw [addAllMembers.eq_def]
    simp only [AddMember]
    cases hd : alistGet (h.get pa).id dst.members with
    | some a0 =>
      simp only
      have hdpi : alistGet pi dst.members = some a0 := by rw [← hpid]; exact hd
      have hrec := ih h dst (fun q hq => hids q (List.mem_cons_of_mem _ hq)) hnd.2
        (fun q hq => hall q (List.mem_cons_of_mem _ hq))
      refine ⟨hrec.1, hrec.2.1, hrec.2.2.1, ?_, ?_, hrec.2.2.2.2.2⟩
      · intro i
        rw [hrec.2.2.2.1 i]
        by_cases hie : i = pi
        · subst hie
          rw [hdpi]
        · cases hdi : alistGet i dst.members
          · rw [alistGet_cons_ne _ _ (fun e => hie e.symm)]
          · rfl
      · intro a r hr
        rw [hrec.2.2.2.2.1 a r hr]
        have hfl : (List.filter (fun q => decide (q.2 = a ∧ (alistGet q.1 dst.members).isNone))
            ((pi, pa) :: rest)).length =
            (List.filter (fun q => decide (q.2 = a ∧ (alistGet q.1 dst.members).isNone))
              rest).length := by
          rw [List.filter_cons]
          simp [hdpi]
        rw [hfl]
    | none =>
      simp only
      have hdpi : alistGet pi dst.members = none := by rw [← hpid]; exact hd
      have hpamem : pa ∈ h.recs.map Prod.fst := hall (pi, pa) (List.mem_cons_self _ _)
      set r1 : Record := { h.get pa with numCollections := (h.get pa).numCollections + 1 }
        with hr1
      set h1 : Heap := h.write pa r1 with hh1
      set dst1 : Collection := { dst with members := alistSet (h.get pa).id pa dst.members }
        with hdst1
      have hk1 : h1.recs.map Prod.fst = h.recs.map Prod.fst :=
        Heap.keys_write_of_mem _ _ hpamem
      have hids1 : ∀ q ∈ rest, (h1.get q.2).id = q.1 := by
        intro q hq
        by_cases hqa : q.2 = pa
        · exfalso
          have h1id := hids q (List.mem_cons_of_mem _ hq)
          rw [hqa, hpid] at h1id
          exact hnd.1 (h1id ▸ List.mem_map.mpr ⟨q, hq, rfl⟩)
        · rw [hh1, Heap.get_write_ne _ _ hqa]
          exact hids q (List.mem_cons_of_mem _ hq)
      have hall1 : ∀ q ∈ rest, q.2 ∈ h1.recs.map Prod.fst := by
        intro q hq
        rw [hk1]
        exact hall q (List.mem_cons_of_mem _ hq)
      have hrec := ih h1 dst1 hids1 hnd.2 hall1
      have hdkeys : ∀ i, i ≠ pi → alistGet i dst1.members = alistGet i dst.members := by
        intro i hie
        rw [hdst1]
        simp only
        rw [hpid]
        exact alistGet_set_ne _ _ hie
      have hdpi1 : alistGet pi dst1.members = some pa := by
        rw [hdst1]
        simp only
        rw [hpid]
        exact alistGet_set_self _ _ _
      refine ⟨hrec.1, by rw [hrec.2.1, hh1]; rfl, by rw [hrec.2.2.1]; exact hk1, ?_, ?_, ?_⟩
      · intro i
        rw [hrec.2.2.2.1 i]
        by_cases hie : i = pi
        · subst hie
          rw [hdpi, hdpi1, alistGet_cons_self]
        · rw [hdkeys i hie]
          cases hdi : alistGet i dst.members
          · rw [alistGet_cons_ne _ _ (fun e => hie e.symm)]
          · rfl
      · intro a r hr
        have hrest_congr : ∀ dstx : Collection, (∀ i, i ≠ pi →
            alistGet i dstx.members = alistGet i dst.members) →
            (List.filter (fun q => decide (q.2 = a ∧ (alistGet q.1 dstx.members).isNone))
              rest).length =
            (List.filter (fun q => decide (q.2 = a ∧ (alistGet q.1 dst.members).isNone))
              rest).length := by
          intro dstx hx
          refine filter_length_congr ?_
          intro q hq
          have hqpi : q.1 ≠ pi := by
            intro e
            exact hnd.1 (e ▸ List.mem_map.mpr ⟨q, hq, rfl⟩)
          rw [hx q.1 hqpi]
        by_cases hqa : a = pa
        · have hget : h.get pa = r := by
            rw [← hqa]
            simp [Heap.get, hr]
          have hra : r1 = { r with numCollections := r.numCollections + 1 } := by
            rw [hr1]
            simp only
            rw [hget]
          have hf1 : h1.find? a = some { r with numCollections := r.numCollections + 1 } := by
            rw [hh1, ← hra, hqa]
            exact Heap.find?_write_self _ _ _
          rw [hrec.2.2.2.2.1 a _ hf1]
          have hfl : (List.filter (fun q => decide (q.2 = a ∧ (alistGet q.1 dst.members).isNone))
              ((pi, pa) :: rest)).length =
              (List.filter (fun q => decide (q.2 = a ∧ (alistGet q.1 dst1.members).isNone))
                rest).length + 1 := by
            rw [List.filter_cons]
            have hc : (decide ((pi, pa).2 = a ∧ (alistGet (pi, pa).1 dst.members).isNone)) =
                true := by
              simp [hdpi, hqa]
            rw [hc]
            simp only [if_true, List.length_cons]
            rw [hrest_congr dst1 hdkeys]
          rw [hfl]
          simp only [Option.some.injEq, Record.mk.injEq, and_true, true_and]
          push_cast
          ring
        · have hf1 : h1.find? a = some r := by
            rw [hh1, Heap.find?_write_ne _ _ hqa]
            exact hr
          rw [hrec.2.2.2.2.1 a _ hf1]
          have hfl : (List.filter (fun q => decide (q.2 = a ∧ (alistGet q.1 dst.members).isNone))
              ((pi, pa) :: rest)).length =
              (List.filter (fun q => decide (q.2 = a ∧ (alistGet q.1 dst1.members).isNone))
                rest).length := by
            rw [List.filter_cons]
            have hc : (decide ((pi, pa).2 = a ∧ (alistGet (pi, pa).1 dst.members).isNone)) =
                false := by
              simp only [decide_eq_false_iff_not]
              intro hx
              exact hqa hx.1.symm
            rw [hc]
            simp only [Bool.false_eq_true, if_false]
            rw [hrest_congr dst1 hdkeys]
          rw [hfl]
      · intro hdnd
        refine hrec.2.2.2.2.2 ?_
        rw [hdst1]
        exact nodup_keys_set _ _ hdnd

theorem filter_addr_length {m : List (Int × Nat)} (hnd : (m.map Prod.snd).Nodup) (a : Nat) :
    (m.filter (fun p => p.2 = a)).length = if a ∈ m.map Prod.snd then 1 else 0 := by
  induction m with
  | nil => simp
  | cons p rest ih =>
    rw [List.map_cons, List.nodup_cons] at hnd
    rw [List.filter_cons]
    by_cases hp : p.2 = a
    · have hfe : rest.filter (fun q => decide (q.2 = a)) = [] := by
        rw [List.filter_eq_nil]
        intro q hq
        simp only [decide_eq_true_eq]
        intro he
        have hqm : q.2 ∈ rest.map Prod.snd := List.mem_map.mpr ⟨q, hq, rfl⟩
        rw [he, ← hp] at hqm
        exact hnd.1 hqm
      have hmem : a ∈ p.2 :: rest.map Prod.snd := List.mem_cons.mpr (Or.inl hp.symm)
      simp only [List.map_cons]
      rw [if_pos hmem]
      simp [hp, hfe]
    · have hc : (decide (p.2 = a)) = false := by simp [hp]
      rw [hc]
      simp only [Bool.false_eq_true, if_false, List.map_cons]
      rw [ih hnd.2]
      have hiff : (a ∈ p.2 :: rest.map Prod.snd) ↔ (a ∈ rest.map Prod.snd) := by
        rw [List.mem_cons]
        constructor
        · rintro (he | hm2)
          · exact absurd he.symm hp
          · exact hm2
        · exact Or.inr
      by_cases hm : a ∈ rest.map Prod.snd
      · rw [if_pos hm, if_pos (hiff.mpr hm)]
      · rw [if_neg hm, if_neg (fun hc2 => hm (hiff.mp hc2))]

theorem combineCollectionsOp_ok {s : S} {firstName secondName dstName : String}
    {first second : Collection}
    (h1 : alistGet firstName s.cat.collections = some first)
    (h2 : alistGet secondName s.cat.collections = some second)
    (h3 : alistGet dstName s.cat.collections = none) :
    combineCollectionsOp s firstName secondName dstName =
      (⟨(addAllMembers (addAllMembers s.heap (NewCollection dstName) first.members).1
          (addAllMembers s.heap (NewCollection dstName) first.members).2 second.members).1,
        s.lib,
        ⟨alistSet dstName
          (addAllMembers (addAllMembers s.heap (NewCollection dstName) first.members).1
            (addAllMembers s.heap (NewCollection dstName) first.members).2 second.members).2
          s.cat.collections⟩⟩, none) := by
  simp [combineCollectionsOp, CombineCollections, h1, h2, h3]

theorem wf_combineCollectionsOp {s : S} (hwf : WF s)
    (firstName secondName dstName : String) (hw : wordOK dstName = true) :
    WF (combineCollectionsOp s firstName secondName dstName).1 := by
  cases h1 : alistGet firstName s.cat.collections with
  | none =>
    have : combineCollectionsOp s firstName secondName dstName =
        (s, some (.newline errNoSuchCollection)) := by
      simp [combineCollectionsOp, CombineCollections, h1]
    rw [this]
    exact hwf
  | some first =>
  cases h2 : alistGet secondName s.cat.collections with
  | none =>
    have : combineCollectionsOp s firstName secondName dstName =
        (s, some (.newline errNoSuchCollection)) := by
      simp [combineCollectionsOp, CombineCollections, h1, h2]
    rw [this]
    exact hwf
  | some second =>
  cases h3 : alistGet dstName s.cat.collections with
  | some col =>
    have : combineCollectionsOp s firstName secondName dstName =
        (s, some (.newline errDuplicateCollection)) := by
      simp [combineCollectionsOp, CombineCollections, h1, h2, h3]
    rw [this]
    exact hwf
  | none =>
  rw [combineCollectionsOp_ok h1 h2 h3]
  have hfc := hwf.colOK firstName first h1
  have hsc := hwf.colOK secondName second h2
  have hids1 : ∀ p ∈ first.members, (s.heap.get p.2).id = p.1 := by
    intro p hp
    have hbyid := hfc.2.2.2 p.1 p.2 (alistGet_of_mem_pair hp hfc.2.2.1)
    exact (wf_find_of_id hwf hbyid).2.1
  have hall1 := wf_members_addr_alloc hwf h1
  have spec1 := addAllMembers_spec first.members s.heap (NewCollection dstName)
    hids1 hfc.2.2.1 hall1
  set p1 := addAllMembers s.heap (NewCollection dstName) first.members with hp1
  have hdst1keys : ∀ i, alistGet i p1.2.members = alistGet i first.members := by
    intro i
    rw [spec1.2.2.2.1 i]
    rfl
  have hids2 : ∀ p ∈ second.members, (p1.1.get p.2).id = p.1 := by
    intro p hp
    have hbyid := hsc.2.2.2 p.1 p.2 (alistGet_of_mem_pair hp hsc.2.2.1)
    have hfind := (wf_find_of_id hwf hbyid).1
    have := spec1.2.2.2.2.1 p.2 _ hfind
    unfold Heap.get
    rw [this]
    exact (wf_find_of_id hwf hbyid).2.1
  have hall2 : ∀ p ∈ second.members, p.2 ∈ p1.1.recs.map Prod.fst := by
    intro p hp
    rw [spec1.2.2.1]
    exact wf_members_addr_alloc hwf h2 p hp
  have spec2 := addAllMembers_spec second.members p1.1 p1.2 hids2 hsc.2.2.1 hall2
  set q1 := addAllMembers p1.1 p1.2 second.members with hq1
  have hqname : q1.2.name = dstName := by
    rw [spec2.1, spec1.1]
    rfl
  have hqkeys : (q1.2.members.map Prod.fst).Nodup :=
    spec2.2.2.2.2.2 (spec1.2.2.2.2.2 List.nodup_nil)
  have hqmem : ∀ i, alistGet i q1.2.members =
      match alistGet i first.members with
      | some a => some a
      | none => alistGet i second.members := by
    intro i
    rw [spec2.2.2.2.1 i, hdst1keys i]
  refine wf_replace_counts hwf q1.1 ⟨alistSet dstName q1.2 s.cat.collections⟩
    (by rw [spec2.2.1, spec1.2.1]) (by rw [spec2.2.2.1, spec1.2.2.1]) ?_ ?_ ?_ ?_
  · intro a r hr
    have hf1 := spec1.2.2.2.2.1 a r hr
    have hf2 := spec2.2.2.2.2.1 a _ hf1
    exact ⟨_, hf2⟩
  · exact nodup_keys_set _ _ hwf.catKeysNodup
  · intro n col hn
    by_cases hne : n = dstName
    · subst hne
      rw [alistGet_set_self] at hn
      cases hn
      refine ⟨hqname, hw, hqkeys, ?_⟩
      intro i2 a2 hm2
      rw [hqmem i2] at hm2
      cases hf : alistGet i2 first.members with
      | some a3 =>
        rw [hf] at hm2
        cases hm2
        exact hfc.2.2.2 i2 a2 hf
      | none =>
        rw [hf] at hm2
        exact hsc.2.2.2 i2 a2 hm2
    · rw [alistGet_set_ne _ _ (fun e => hne e)] at hn
      exact hwf.colOK n col hn
  · intro i a hia
    have hfind := (wf_find_of_id hwf hia).1
    have hf1 := spec1.2.2.2.2.1 a _ hfind
    have hf2 := spec2.2.2.2.2.1 a _ hf1
    have hgq : q1.1.get a = { s.heap.get a with numCollections :=
        (s.heap.get a).numCollections +
        ((first.members.filter (fun p => p.2 = a ∧
          (alistGet p.1 (NewCollection dstName).members).isNone)).length : Int) +
        ((second.members.filter (fun p => p.2 = a ∧
          (alistGet p.1 p1.2.members).isNone)).length : Int) } := by
      have h0 : q1.1.get a = (q1.1.find? a).getD default := rfl
      rw [h0, hf2]
      rfl
    rw [hgq]
    simp only
    have hcnt := hwf.counts i a hia
    have hfresh : dstName ∉ s.cat.collections.map Prod.fst := alistGet_eq_none_iff.mp h3
    have hnewcount : countColls ⟨alistSet dstName q1.2 s.cat.collections⟩ i =
        countColls s.cat i + (if (alistGet i q1.2.members).isSome then 1 else 0) := by
      unfold countColls
      rw [countP_alistSet_fresh _ _ hfresh]
      simp only
      by_cases hq : (alistGet i q1.2.members).isSome = true <;> simp [hq]
    rw [hnewcount, ← hcnt]
    have hkey1 := wf_member_key_addr hwf h1 hia
    have hkey2 := wf_member_key_addr hwf h2 hia
    have hnd1 := wf_members_addr_nodup hwf h1
    have hnd2 := wf_members_addr_nodup hwf h2
    have hc1 : ((first.members.filter (fun p => p.2 = a ∧
        (alistGet p.1 (NewCollection dstName).members).isNone)).length : Int) =
        if (alistGet i first.members).isSome then 1 else 0 := by
      have he : (first.members.filter (fun p => p.2 = a ∧
          (alistGet p.1 (NewCollection dstName).members).isNone)).length =
          (first.members.filter (fun p => p.2 = a)).length := by
        refine filter_length_congr ?_
        intro q hq
        simp [NewCollection, alistGet]
      rw [he, filter_addr_length hnd1 a, hkey1]
      by_cases hm : a ∈ first.members.map Prod.snd <;> simp [hm]
    have hsecond_id : ∀ q ∈ second.members, q.2 = a → q.1 = i := by
      intro q hq he
      have hbyid := hsc.2.2.2 q.1 q.2 (alistGet_of_mem_pair hq hsc.2.2.1)
      rw [he] at hbyid
      exact wf_id_addr_inj hwf hbyid hia
    cases hfirstm : alistGet i first.members with
    | some a3 =>
      have hc2 : ((second.members.filter (fun p => p.2 = a ∧
          (alistGet p.1 p1.2.members).isNone)).length : Int) = 0 := by
        have he : (second.members.filter (fun p => p.2 = a ∧
            (alistGet p.1 p1.2.members).isNone)).length =
            (second.members.filter (fun _ => false)).length := by
          refine filter_length_congr ?_
          intro q hq
          simp only [decide_eq_false_iff_not, decide_eq_true_eq]
          by_cases hqe : q.2 = a
          · intro hx
            rw [hdst1keys q.1, hsecond_id q hq hqe, hfirstm] at hx
            cases hx.2
          · intro hx
            exact hqe hx.1
        rw [he]
        simp
      rw [hc1, hc2, hqmem i, hfirstm]
      simp [hfirstm]
    | none =>
      have hc2 : ((second.members.filter (fun p => p.2 = a ∧
          (alistGet p.1 p1.2.members).isNone)).length : Int) =
          if (alistGet i second.members).isSome then 1 else 0 := by
        have he : (second.members.filter (fun p => p.2 = a ∧
            (alistGet p.1 p1.2.members).isNone)).length =
            (second.members.filter (fun p => p.2 = a)).length := by
          refine filter_length_congr ?_
          intro q hq
          by_cases hqe : q.2 = a
          · simp only [hqe, decide_eq_true_eq, true_and]
            rw [hdst1keys q.1, hsecond_id q hq hqe, hfirstm]
            simp [Option.isNone]
          · simp [hqe]
        rw [he, filter_addr_length hnd2 a, hkey2]
        by_cases hm : a ∈ second.members.map Prod.snd <;> simp [hm]
      rw [hc1, hc2, hqmem i, hfirstm]
      simp only [hfirstm, Option.isSome_none, Bool.false_eq_true, if_false]
      by_cases hq : (alistGet i second.members).isSome = true <;> simp [hq] <;> ring

/-! ## Deserialization: shapes of parsed values -/

theorem takeWord_no_space : ∀ (l : List Char), ∀ c ∈ (takeWord l).1, ¬ isSpaceGo c = true := by
  intro l
  induction l with
  | nil => intro c hc; cases hc
  | cons d ds ih =>
    intro c hc
    by_cases hd : isSpaceGo d
    · rw [takeWord, if_pos hd] at hc
      cases hc
    · rw [takeWord, if_neg hd] at hc
      rcases List.mem_cons.mp hc with he | he
      · rw [he]
        exact hd
      · exact ih c he

theorem ReadWord_ok_wordOK {input : List Char} {w : String} {rest : List Char}
    (h : ReadWord input = .ok (w, rest)) : wordOK w = true := by
  unfold ReadWord at h
  by_cases he : (takeWord (skipWs input)).1.isEmpty
  · rw [if_pos he] at h
    cases h
  · rw [if_neg he] at h
    cases h
    unfold wordOK
    simp only [Bool.and_eq_true]
    constructor
    · simpa using he
    · rw [List.all_eq_true]
      intro c hc
      simp only [Bool.not_eq_true']
      have := takeWord_no_space (skipWs input) c hc
      simpa using this

theorem skipWs_head {l : List Char} {c : Char} {cs : List Char}
    (h : skipWs l = c :: cs) : ¬ isSpaceGo c = true := by
  induction l with
  | nil => cases h
  | cons d ds ih =>
    by_cases hd : isSpaceGo d
    · rw [skipWs, if_pos hd] at h
      exact ih h
    · rw [skipWs, if_neg hd] at h
      cases h
      exact hd

theorem readLineAux_no_newline : ∀ (l : List Char), ∀ c ∈ (readLineAux l).1, c ≠ '\n' := by
  intro l
  induction l with
  | nil => intro c hc; cases hc
  | cons d ds ih =>
    intro c hc
    by_cases hd : d = '\n'
    · rw [readLineAux, if_pos hd] at hc
      cases hc
    · rw [readLineAux, if_neg hd] at hc
      rcases List.mem_cons.mp hc with he | he
      · rw [he]
        exact hd
      · exact ih c he

theorem readLine_skipWs_titleOK {input : List Char} {t : List Char}
    (hne : t ≠ []) (ht : (readLineAux (skipWs input)).1 = t) :
    titleOK ⟨t⟩ = true := by
  unfold titleOK
  cases hts : t with
  | nil => rw [hts] at hne; simp at hne
  | cons c cs =>
    simp only [Bool.and_eq_true]
    constructor
    · cases hsk : skipWs input with
      | nil => rw [hsk] at ht; rw [hts] at ht; cases ht
      | cons d ds =>
        have hd := skipWs_head hsk
        rw [hsk] at ht
        by_cases hdn : d = '\n'
        · rw [readLineAux, if_pos hdn] at ht
          rw [hts] at ht
          cases ht
        · rw [readLineAux, if_neg hdn] at ht
          rw [hts] at ht
          have : d = c := by
            have := congrArg (fun l => l.headD ' ') ht
            simpa using this
          simp only [Bool.not_eq_true']
          rw [← this]
          simpa using hd
    · rw [List.all_eq_true]
      intro d hd
      have : d ∈ (readLineAux (skipWs input)).1 := by
        rw [ht, hts]
        exact hd
      have := readLineAux_no_newline _ d this
      simpa using this

theorem restoreRecord_fields {input : List Char} {r : Record} {rest : List Char}
    (h : RestoreRecord input = .ok (r, rest)) :
    1 ≤ r.id ∧ 0 ≤ r.rating ∧ r.rating ≤ 5 ∧ wordOK r.medium = true ∧
      titleOK r.title = true ∧ r.numCollections = 0 := by
  unfold RestoreRecord at h
  cases h1 : ReadInt input with
  | err e => rw [h1] at h; cases h
  | panicked m => rw [h1] at h; cases h
  | ok v =>
    rcases v with ⟨id, input1⟩
    rw [h1] at h
    simp only at h
    by_cases hid : id < 1
    · rw [if_pos hid] at h
      cases h
    · rw [if_neg hid] at h
      cases h2 : ReadWord input1 with
      | err e => rw [h2] at h; cases h
      | panicked m => rw [h2] at h; cases h
      | ok v2 =>
        rcases v2 with ⟨medium, input2⟩
        rw [h2] at h
        simp only at h
        by_cases hme : medium.isEmpty
        · rw [if_pos hme] at h
          cases h
        · rw [if_neg hme] at h
          cases h3 : ReadInt input2 with
          | err e => rw [h3] at h; cases h
          | panicked m => rw [h3] at h; cases h
          | ok v3 =>
            rcases v3 with ⟨rating, input3⟩
            rw [h3] at h
            simp only at h
            by_cases hra : rating < 0 ∨ 5 < rating
            · rw [if_pos hra] at h
              cases h
            · rw [if_neg hra] at h
              by_cases hte : (ReadLine (skipWs input3)).1.isEmpty
              · rw [if_pos hte] at h
                cases h
              · rw [if_neg hte] at h
                cases h
                push_neg at hra
                refine ⟨?_, hra.1, hra.2, ReadWord_ok_wordOK h2, ?_, rfl⟩
                · show (1 : Int) ≤ id
                  omega
                · refine readLine_skipWs_titleOK ?_ rfl
                  intro hnil
                  apply hte
                  show (String.mk (readLineAux (skipWs input3)).1).isEmpty = true
                  rw [hnil]
                  rfl

/-! ## Deserialization: the restore loops preserve the invariant -/

theorem alistSet_set_self {κ α : Type} [DecidableEq κ] (k : κ) (v w : α) (l : List (κ × α)) :
    alistSet k v (alistSet k w l) = alistSet k v l := by
  induction l with
  | nil => simp [alistSet]
  | cons q qs ih =>
    by_cases hq : q.1 = k
    · simp [alistSet, hq]
    · simp only [alistSet, hq, if_false, if_neg hq]
      rw [ih]

/-- the record loop: the invariant survives each successful iteration and
yields a fully well-formed state (over the empty catalog) at the end. -/
theorem restoreRecords_wf : ∀ (fuel : Nat) (h : Heap) (lib : Library) (maxID : Int)
    (input : List Char) (h2 : Heap) (lib2 : Library) (rest : List Char),
    RLInv h lib maxID →
    restoreRecords h lib maxID fuel input = .ok (h2, lib2, rest) →
    WF ⟨h2, lib2, NewCatalog⟩ := by
  intro fuel
  induction fuel with
  | zero =>
    intro h lib maxID input h2 lib2 rest hinv hok
    rw [restoreRecords] at hok
    cases hok
    refine ⟨hinv.heapNodup, hinv.heapBound, hinv.titleKeysNodup, hinv.idKeysNodup,
      hinv.titleToId, hinv.idToTitle, ?_, ?_, ?_, ?_, ?_⟩
    · show (1 : Int) ≤ maxID + 1
      have := hinv.maxNonneg
      omega
    · intro i a hia
      obtain ⟨h1, h2c, h3⟩ := hinv.recOK0 i a hia
      refine ⟨h1, ?_⟩
      show (h.get a).id < maxID + 1
      omega
    · simp [NewCatalog]
    · intro n col hn
      simp [NewCatalog, alistGet] at hn
    · intro i a hia
      obtain ⟨h1, h2c, h3⟩ := hinv.recOK0 i a hia
      rw [h2c]
      simp [countColls, NewCatalog]
  | succ fuel ih =>
    intro h lib maxID input h2 lib2 rest hinv hok
    rw [restoreRecords] at hok
    cases hrec : RestoreRecord input with
    | err e => rw [hrec] at hok; cases hok
    | panicked m => rw [hrec] at hok; cases hok
    | ok q =>
      rcases q with ⟨record, input1⟩
      rw [hrec] at hok
      simp only at hok
      cases hid : alistGet record.id lib.byID with
      | some _ => rw [hid] at hok; cases hok
      | none =>
        rw [hid] at hok
        cases hti : alistGet record.title lib.byTitle with
        | some _ => rw [hti] at hok; cases hok
        | none =>
          rw [hti] at hok
          simp only [Heap.alloc] at hok
          refine ih _ _ _ _ _ _ _ ?_ hok
          obtain ⟨hf1, hf2, hf3, hf4, hf5, hf6⟩ := restoreRecord_fields hrec
          have hfreshA : ∀ (a : Nat) (r : Record), h.find? a = some r → h.next ≠ a := by
            intro a r hr
            have := hinv.heapBound (a, r) (alistGet_mem hr)
            omega
          have hNH : ∀ (a : Nat) (r : Record), h.find? a = some r →
              Heap.find? ⟨(h.next, record) :: h.recs, h.next + 1⟩ a = some r := by
            intro a r hr
            have hne := hfreshA a r hr
            show alistGet a _ = some r
            rw [alistGet_cons_ne _ _ hne]
            exact hr
          have hNHget : ∀ (a : Nat) (r : Record), h.find? a = some r →
              Heap.get ⟨(h.next, record) :: h.recs, h.next + 1⟩ a = h.get a := by
            intro a r hr
            unfold Heap.get
            rw [hNH a r hr, hr]
          constructor
          case heapNodup =>
            simp only [List.map_cons, List.nodup_cons]
            refine ⟨fun hc => ?_, hinv.heapNodup⟩
            rcases List.mem_map.mp hc with ⟨p, hp, hpe⟩
            exact absurd (hpe ▸ hinv.heapBound p hp) (by omega)
          case heapBound =>
            intro p hp
            rcases List.mem_cons.mp hp with hp1 | hp1
            · subst hp1
              exact Nat.lt_succ_self _
            · have := hinv.heapBound p hp1
              show p.1 < h.next + 1
              omega
          case titleKeysNodup => exact nodup_keys_set _ _ hinv.titleKeysNodup
          case idKeysNodup => exact nodup_keys_set _ _ hinv.idKeysNodup
          case titleToId =>
            intro t a hta
            by_cases hteq : t = record.title
            · subst hteq
              rw [alistGet_set_self] at hta
              cases hta
              refine ⟨record, ?_, rfl, ?_⟩
              · show alistGet _ _ = _
                rw [alistGet_cons_self]
              · simp [alistGet_set_self]
            · rw [alistGet_set_ne _ _ (fun e => hteq e)] at hta
              obtain ⟨r, hr, hrt, hri⟩ := hinv.titleToId t a hta
              refine ⟨r, hNH a r hr, hrt, ?_⟩
              have hne2 : r.id ≠ record.id := by
                intro e
                rw [e] at hri
                rw [hri] at hid
                cases hid
              rw [alistGet_set_ne _ _ hne2]
              exact hri
          case idToTitle =>
            intro i a hia
            by_cases hieq : i = record.id
            · subst hieq
              rw [alistGet_set_self] at hia
              cases hia
              refine ⟨record, ?_, rfl, ?_⟩
              · show alistGet _ _ = _
                rw [alistGet_cons_self]
              · simp [alistGet_set_self]
            · rw [alistGet_set_ne _ _ (fun e => hieq e)] at hia
              obtain ⟨r, hr, hri, hrt⟩ := hinv.idToTitle i a hia
              refine ⟨r, hNH a r hr, hri, ?_⟩
              have hne2 : r.title ≠ record.title := by
                intro e
                rw [e] at hrt
                rw [hrt] at hti
                cases hti
              rw [alistGet_set_ne _ _ hne2]
              exact hrt
          case recOK0 =>
            intro i a hia
            by_cases hieq : i = record.id
            · subst hieq
              rw [alistGet_set_self] at hia
              cases hia
              have hg : Heap.get ⟨(h.next, record) :: h.recs, h.next + 1⟩ h.next = record := by
                simp [Heap.get, Heap.find?, alistGet_cons_self]
              rw [hg]
              exact ⟨⟨hf1, hf2, hf3, hf4, hf5⟩, hf6, le_max_right _ _⟩
            · rw [alistGet_set_ne _ _ (fun e => hieq e)] at hia
              obtain ⟨h1, h2c, h3⟩ := hinv.recOK0 i a hia
              obtain ⟨r, hr, _, _⟩ := hinv.idToTitle i a hia
              rw [hNHget a r hr]
              exact ⟨h1, h2c, le_trans h3 (le_max_left _ _)⟩
          case maxNonneg => exact le_trans hinv.maxNonneg (le_max_left _ _)

/-- entering the record loop from an empty library. -/
theorem rlinv_start {h : Heap} (hnd : (h.recs.map Prod.fst).Nodup)
    (hbd : ∀ p ∈ h.recs, p.1 < h.next) : RLInv h NewLibrary 0 := by
  refine ⟨hnd, hbd, ?_, ?_, ?_, ?_, ?_, le_refl 0⟩
  · simp [NewLibrary]
  · simp [NewLibrary]
  · intro t a hta
    simp [NewLibrary, alistGet] at hta
  · intro i a hia
    simp [NewLibrary, alistGet] at hia
  · intro i a hia
    simp [NewLibrary, alistGet] at hia

/-- a successful RestoreLibrary yields a well-formed state over the empty
catalog (the caller installs a freshly restored catalog afterwards). -/
theorem restoreLibrary_wf {h : Heap} {input : List Char} {h2 : Heap} {lib2 : Library}
    {rest : List Char} (hnd : (h.recs.map Prod.fst).Nodup)
    (hbd : ∀ p ∈ h.recs, p.1 < h.next)
    (hok : RestoreLibrary h input = .ok (h2, lib2, rest)) :
    WF ⟨h2, lib2, NewCatalog⟩ := by
  unfold RestoreLibrary at hok
  cases h1 : ReadInt input with
  | err e => rw [h1] at hok; cases hok
  | panicked m => rw [h1] at hok; cases hok
  | ok q =>
    rcases q with ⟨numRecords, input1⟩
    rw [h1] at hok
    simp only at hok
    by_cases hn : numRecords < 0
    · rw [if_pos hn] at hok
      cases hok
    · rw [if_neg hn] at hok
      exact restoreRecords_wf _ _ _ _ _ _ _ _ (rlinv_start hnd hbd) hok

/-- the member loop never renames the collection under construction. -/
theorem restoreMembers_name : ∀ (fuel : Nat) (h : Heap) (lib : Library) (col : Collection)
    (input : List Char) (h2 : Heap) (col2 : Collection) (rest : List Char),
    restoreMembers h lib col fuel input = .ok (h2, col2, rest) → col2.name = col.name := by
  intro fuel
  induction fuel with
  | zero =>
    intro h lib col input h2 col2 rest hok
    rw [restoreMembers] at hok
    cases hok
    rfl
  | succ fuel ih =>
    intro h lib col input h2 col2 rest hok
    rw [restoreMembers] at hok
    simp only at hok
    cases hta : alistGet (ReadLine input).1 lib.byTitle with
    | none => rw [hta] at hok; cases hok
    | some a =>
      rw [hta] at hok
      simp only at hok
      cases hnm : alistGet (h.get a).id col.members with
      | some _ => rw [hnm] at hok; cases hok
      | none =>
        rw [hnm] at hok
        simp only at hok
        have := ih _ _ _ _ _ _ _ hok
        exact this

/-- each successful member iteration is exactly an am transition on the state
whose catalog already holds the collection under construction, so the member
loop preserves well-formedness of that state. -/
theorem restoreMembers_wf : ∀ (fuel : Nat) (h : Heap) (col : Collection) (input : List Char)
    {lib : Library} {cat : List (String × Collection)} {h2 : Heap} {col2 : Collection}
    {rest : List Char},
    WF ⟨h, lib, ⟨alistSet col.name col cat⟩⟩ →
    alistGet col.name cat = none →
    restoreMembers h lib col fuel input = .ok (h2, col2, rest) →
    WF ⟨h2, lib, ⟨alistSet col.name col2 cat⟩⟩ := by
  intro fuel
  induction fuel with
  | zero =>
    intro h col input lib cat h2 col2 rest hwf hfresh hok
    rw [restoreMembers] at hok
    cases hok
    exact hwf
  | succ fuel ih =>
    intro h col input lib cat h2 col2 rest hwf hfresh hok
    rw [restoreMembers] at hok
    simp only at hok
    cases hta : alistGet (ReadLine input).1 lib.byTitle with
    | none => rw [hta] at hok; cases hok
    | some a =>
      rw [hta] at hok
      simp only at hok
      cases hnm : alistGet (h.get a).id col.members with
      | some _ => rw [hnm] at hok; cases hok
      | none =>
        rw [hnm] at hok
        simp only at hok
        obtain ⟨r, hr, hrt, hri⟩ := hwf.titleToId (ReadLine input).1 a hta
        have hga : h.get a = r := by
          unfold Heap.get Heap.find?
          unfold Heap.find? at hr
          rw [hr]
          rfl
        have hia : alistGet (h.get a).id lib.byID = some a := by
          rw [hga]
          exact hri
        have hcn : alistGet col.name (alistSet col.name col cat) = some col :=
          alistGet_set_self _ _ _
        have heq := @addMemberOp_add ⟨h, lib, ⟨alistSet col.name col cat⟩⟩ col.name
          ((h.get a).id) col a hcn hia hnm
        have hwf2 := wf_addMemberOp hwf col.name ((h.get a).id)
        rw [heq] at hwf2
        rw [alistSet_set_self] at hwf2
        have := ih (h.write a
            { h.get a with numCollections := (h.get a).numCollections + 1 })
          { col with members := alistSet (h.get a).id a col.members }
          (ReadLine input).2 hwf2 hfresh hok
        exact this

/-- a successful RestoreCollection extends the catalog with the parsed
collection while keeping the state well-formed, provided its name is fresh
(the caller checks this before installing it). -/
theorem restoreCollection_wf {h : Heap} {lib : Library} {cat : List (String × Collection)}
    {input : List Char} {h2 : Heap} {col2 : Collection} {rest : List Char}
    (hwf : WF ⟨h, lib, ⟨cat⟩⟩)
    (hok : RestoreCollection h lib input = .ok (h2, col2, rest))
    (hfresh : alistGet col2.name cat = none) :
    WF ⟨h2, lib, ⟨alistSet col2.name col2 cat⟩⟩ := by
  unfold RestoreCollection at hok
  cases h1 : ReadWord input with
  | err e => rw [h1] at hok; cases hok
  | panicked m => rw [h1] at hok; cases hok
  | ok q =>
    rcases q with ⟨name, input1⟩
    rw [h1] at hok
    simp only at hok
    by_cases hne : name.isEmpty
    · rw [if_pos hne] at hok
      cases hok
    · rw [if_neg hne] at hok
      cases h2i : ReadInt input1 with
      | err e => rw [h2i] at hok; cases hok
      | panicked m => rw [h2i] at hok; cases hok
      | ok q2 =>
        rcases q2 with ⟨numMembers, input2⟩
        rw [h2i] at hok
        simp only at hok
        by_cases hnm : numMembers < 0
        · rw [if_pos hnm] at hok
          cases hok
        · rw [if_neg hnm] at hok
          have hname := restoreMembers_name _ _ _ _ _ _ _ _ hok
          rw [hname] at hfresh
          have heq := @addCollectionOp_fresh ⟨h, lib, ⟨cat⟩⟩ name hfresh
          have hwf2 := wf_addCollectionOp hwf name (ReadWord_ok_wordOK h1)
          rw [heq] at hwf2
          have := restoreMembers_wf _ _ _ _ hwf2 hfresh hok
          rw [hname]
          exact this

/-- the collection loop of RestoreCatalog preserves well-formedness. -/
theorem restoreColls_wf : ∀ (fuel : Nat) (h : Heap) (cat : Catalog) (input : List Char)
    {lib : Library} {h2 : Heap} {cat2 : Catalog} {rest : List Char},
    WF ⟨h, lib, cat⟩ →
    restoreColls h lib cat fuel input = .ok (h2, cat2, rest) →
    WF ⟨h2, lib, cat2⟩ := by
  intro fuel
  induction fuel with
  | zero =>
    intro h cat input lib h2 cat2 rest hwf hok
    rw [restoreColls] at hok
    cases hok
    exact hwf
  | succ fuel ih =>
    intro h cat input lib h2 cat2 rest hwf hok
    rw [restoreColls] at hok
    cases h1 : RestoreCollection h lib input with
    | err e => rw [h1] at hok; cases hok
    | panicked m => rw [h1] at hok; cases hok
    | ok q =>
      rcases q with ⟨ha, col, input1⟩
      rw [h1] at hok
      simp only at hok
      cases hdup : alistGet col.name cat.collections with
      | some _ => rw [hdup] at hok; cases hok
      | none =>
        rw [hdup] at hok
        exact ih _ _ _ (restoreCollection_wf hwf h1 hdup) hok

/-- a successful RestoreCatalog over a well-formed library state yields a
well-formed state with the restored catalog. -/
theorem restoreCatalog_wf {h : Heap} {lib : Library} {input : List Char} {h2 : Heap}
    {cat2 : Catalog} {rest : List Char} (hwf : WF ⟨h, lib, NewCatalog⟩)
    (hok : RestoreCatalog h lib input = .ok (h2, cat2, rest)) :
    WF ⟨h2, lib, cat2⟩ := by
  unfold RestoreCatalog at hok
  cases h1 : ReadInt input with
  | err e => rw [h1] at hok; cases hok
  | panicked m => rw [h1] at hok; cases hok
  | ok q =>
    rcases q with ⟨numCollections, input1⟩
    rw [h1] at hok
    simp only at hok
    by_cases hn : numCollections < 0
    · rw [if_pos hn] at hok
      cases hok
    · rw [if_neg hn] at hok
      exact restoreColls_wf _ _ _ _ hwf hok

/-- the rA handler preserves well-formedness: restore failures leave the
state untouched and a successful restore installs a well-formed state. -/
theorem wf_restoreAllOp {s : S} (hwf : WF s) (input : List Char) :
    WF (restoreAllOp s input).1 := by
  unfold restoreAllOp
  cases h1 : RestoreLibrary s.heap input with
  | err e => exact hwf
  | panicked m => exact hwf
  | ok q =>
    rcases q with ⟨h, newLib, input1⟩
    simp only
    cases h2 : RestoreCatalog h newLib input1 with
    | err e => exact hwf
    | panicked m => exact hwf
    | ok q2 =>
      rcases q2 with ⟨h2h, newCat, rest⟩
      simp only
      exact restoreCatalog_wf (restoreLibrary_wf hwf.heapNodup hwf.heapBound h1) h2

/-! ## Every reachable state is well-formed -/

theorem reachable_wf {s : S} (h : Reachable s) : WF s := by
  induction h with
  | init => exact wf_init
  | addRecord s medium title _ hm ht ih => exact wf_addRecordOp ih medium title hm ht
  | modifyRating s id rating _ ih => exact wf_modifyRatingOp ih id rating
  | deleteRecord s title _ ih => exact wf_deleteRecordOp ih title
  | modifyTitle s id newTitle _ ht ih => exact wf_modifyTitleOp ih id newTitle ht
  | addCollection s name _ hw ih => exact wf_addCollectionOp ih name hw
  | deleteCollection s name _ ih => exact wf_deleteCollectionOp ih name
  | addMember s cname id _ ih => exact wf_addMemberOp ih cname id
  | deleteMember s cname id _ ih => exact wf_deleteMemberOp ih cname id
  | clearLibrary s _ ih => exact wf_clearLibraryOp ih
  | clearCatalog s _ ih => exact wf_clearCatalogOp ih
  | clearAllStep s _ ih => exact wf_clearAllOp ih
  | combineCollections s firstName secondName dstName _ hw ih =>
    exact wf_combineCollectionsOp ih firstName secondName dstName hw
  | restoreAll s input _ ih => exact wf_restoreAllOp ih input

/-! ## Claim theorems -/

/-- C10: the query handlers (fr by title, pr by id, pc by name, fs substring
search, lr rating listing, cs statistics) never modify the program state:
the state component of each handler result is the input state, whether the
query succeeds or fails. -/
theorem C10_queries_pure :
    ∀ (s : S) (title : String) (id : Int) (name substr : String),
      (findRecordOp s title).1 = s ∧ (printRecordOp s id).1 = s ∧
      (printCollectionOp s name).1 = s ∧ (findStringOp s substr).1 = s ∧
      (listRatingsOp s).1 = s ∧ (collectionStatisticsOp s).1 = s := by
  intro s title id name substr
  refine ⟨?_, ?_, ?_, rfl, rfl, rfl⟩
  · cases h : FindRecordByTitle s.lib title <;> simp [findRecordOp, h]
  · cases h : FindRecordByID s.lib id <;> simp [printRecordOp, h]
  · cases h : FindCollection s.cat name <;> simp [printCollectionOp, h]

/-- C2: in every reachable state, the numCollections field of every record
held by the library equals the number of distinct catalog collections whose
membership set contains that record's id. -/
theorem C2_membership_count_invariant {s : S} (hr : Reachable s) :
    ∀ i a, alistGet i s.lib.byID = some a →
      (s.heap.get a).numCollections = countColls s.cat i :=
  (reachable_wf hr).counts

theorem C2_membership_count_invariant_witness :
    ((addMemberOp (addCollectionOp (addRecordOp initS "dvd" "Es").1 "Co").1
        "Co" 1).1.heap.get 0).numCollections =
      countColls (addMemberOp (addCollectionOp (addRecordOp initS "dvd" "Es").1 "Co").1
        "Co" 1).1.cat 1 :=
  C2_membership_count_invariant
    (Reachable.addMember _ "Co" 1
      (Reachable.addCollection _ "Co"
        (Reachable.addRecord _ "dvd" "Es" Reachable.init (by decide) (by decide))
        (by decide)))
    1 0 (by decide)

/-- C9: in every reachable state the two library indexes agree: every entry
of byTitle points to a stored record whose title is its key and whose id is
a byID key for the same address, and symmetrically for byID. -/
theorem C9_index_agreement {s : S} (hr : Reachable s) :
    (∀ t a, alistGet t s.lib.byTitle = some a →
      ∃ r, s.heap.find? a = some r ∧ r.title = t ∧ alistGet r.id s.lib.byID = some a) ∧
    (∀ i a, alistGet i s.lib.byID = some a →
      ∃ r, s.heap.find? a = some r ∧ r.id = i ∧ alistGet r.title s.lib.byTitle = some a) :=
  ⟨(reachable_wf hr).titleToId, (reachable_wf hr).idToTitle⟩

theorem C9_index_agreement_witness :
    ∃ r, (addRecordOp initS "dvd" "Es").1.heap.find? 0 = some r ∧ r.title = "Es" ∧
      alistGet r.id (addRecordOp initS "dvd" "Es").1.lib.byID = some 0 :=
  (C9_index_agreement
    (Reachable.addRecord _ "dvd" "Es" Reachable.init (by decide) (by decide))).1
    "Es" 0 (by decide)

/-- C5: in every reachable state, dr on an unknown title fails with the
no-such-record error; on a record that is still a member of some collection
it fails with the in-use error leaving the state untouched; otherwise
DeleteRecord removes exactly the record's entries from both indexes (all
other entries and nextID untouched) and returns its address. -/
theorem C5_deleteRecord_semantics {s : S} (hr : Reachable s) (title : String) :
    (alistGet title s.lib.byTitle = none →
      deleteRecordOp s title = (s, some (.regular errNoSuchRecordTitle))) ∧
    (∀ a, alistGet title s.lib.byTitle = some a →
      0 < (s.heap.get a).numCollections →
        deleteRecordOp s title =
          (s, some (.regular "Cannot delete a record that is a member of a collection!"))) ∧
    (∀ a, alistGet title s.lib.byTitle = some a →
      ¬ 0 < (s.heap.get a).numCollections →
        DeleteRecord s.heap s.lib title =
          .ok (⟨alistDel title s.lib.byTitle, alistDel (s.heap.get a).id s.lib.byID,
            s.lib.nextID⟩, a) ∧
        alistGet title (alistDel title s.lib.byTitle) = none ∧
        alistGet (s.heap.get a).id (alistDel (s.heap.get a).id s.lib.byID) = none ∧
        (∀ t, t ≠ title → alistGet t (alistDel title s.lib.byTitle) = alistGet t s.lib.byTitle) ∧
        (∀ i, i ≠ (s.heap.get a).id →
          alistGet i (alistDel (s.heap.get a).id s.lib.byID) = alistGet i s.lib.byID)) := by
  have hwf := reachable_wf hr
  refine ⟨?_, ?_, ?_⟩
  · intro h
    exact deleteRecordOp_notfound h
  · intro a hta hz
    exact deleteRecordOp_inuse hta hz
  · intro a hta hz
    have htitle : (s.heap.get a).title = title := (wf_find_of_title hwf hta).2.1
    refine ⟨?_, ?_, ?_, ?_, ?_⟩
    · have hta2 : alistGet (s.heap.get a).title s.lib.byTitle = some a := by
        rw [htitle]; exact hta
      rw [← htitle]
      simp [DeleteRecord, hta2, hz]
    · exact alistGet_del_self _ hwf.titleKeysNodup
    · exact alistGet_del_self _ hwf.idKeysNodup
    · intro t htne
      exact alistGet_del_ne _ htne
    · intro i hine
      exact alistGet_del_ne _ hine

theorem C5_deleteRecord_semantics_witness :
    DeleteRecord (addRecordOp initS "dvd" "Es").1.heap (addRecordOp initS "dvd" "Es").1.lib
      "Es" = .ok (⟨[], [], 2⟩, 0) := by
  have h := ((C5_deleteRecord_semantics
    (Reachable.addRecord _ "dvd" "Es" Reachable.init (by decide) (by decide)) "Es").2.2
    0 (by decide) (by decide)).1
  exact h

/-- C4: contrary to the no-panic claim, the restore path panics on truncated
input: ReadWord at EOF panics, so RestoreRecord panics on a file ending
right after the id, RestoreCollection panics on empty input, and the rA
driver propagates the panic. -/
theorem C4_restore_panics_on_truncated_input :
    ReadWord ([] : List Char) = .panicked "did not read any runes before EOF" ∧
    RestoreRecord ("5".data) = .panicked "did not read any runes before EOF" ∧
    RestoreCollection Heap.empty NewLibrary ([] : List Char) =
      .panicked "did not read any runes before EOF" ∧
    restoreAllOp initS ("1\n5".data) =
      (initS, .panicked "did not read any runes before EOF") := by
  refine ⟨rfl, ?_, rfl, ?_⟩ <;> decide

/-- full characterization of a successful AddRecord. -/
theorem AddRecord_ok_eq {h : Heap} {l : Library} {medium title : String}
    {q : Heap × Library × Int} (hok : AddRecord h l medium title = .ok q) :
    alistGet title l.byTitle = none ∧
    q = ((h.alloc (NewRecord medium title l.nextID)).1,
      ⟨alistSet title h.next l.byTitle, alistSet l.nextID h.next l.byID, l.nextID + 1⟩,
      l.nextID) := by
  unfold AddRecord at hok
  cases he : alistGet title l.byTitle with
  | some a => rw [he] at hok; cases hok
  | none =>
    rw [he] at hok
    simp only at hok
    cases hok
    exact ⟨rfl, rfl⟩

/-- the ids returned by a run of ar commands are consecutive starting at the
initial nextID, with failed commands contributing nothing. -/
theorem addRecordsOp_ids : ∀ (ps : List (String × String)) (s : S),
    (addRecordsOp s ps).2 =
      (List.range (addRecordsOp s ps).2.length).map
        (fun n : Nat => s.lib.nextID + (n : Int)) := by
  intro ps
  induction ps with
  | nil =>
    intro s
    simp [addRecordsOp]
  | cons p rest ih =>
    intro s
    rw [addRecordsOp]
    cases hA : AddRecord s.heap s.lib p.1 p.2 with
    | error e => exact ih s
    | ok q =>
      obtain ⟨hfr, hq⟩ := AddRecord_ok_eq hA
      simp only
      rw [hq]
      simp only
      have ihs := ih ⟨(s.heap.alloc (NewRecord p.1 p.2 s.lib.nextID)).1,
        ⟨alistSet p.2 s.heap.next s.lib.byTitle, alistSet s.lib.nextID s.heap.next s.lib.byID,
          s.lib.nextID + 1⟩, s.cat⟩
      rw [ihs]
      rw [List.length_cons, List.length_map, List.length_range]
      rw [List.range_succ_eq_map, List.map_cons, List.map_map]
      congr 1
      · simp
      · apply List.map_congr_left
        intro n hn
        simp only [Function.comp]
        push_cast
        ring

/-- C6: the ids handed out by ar runs from start-up are 1, 2, 3, ...
(consecutive, hence strictly increasing); a successful AddRecord returns
the library's nextID, increments it, and makes the new record (with rating
0) findable by both title and id; a duplicate title fails with the
duplicate error and leaves the whole state (nextID included) unchanged. -/
theorem C6_addRecord_id_sequence :
    (∀ ps : List (String × String),
      (addRecordsOp initS ps).2 =
        (List.range (addRecordsOp initS ps).2.length).map (fun n : Nat => 1 + (n : Int))) ∧
    (∀ (h : Heap) (l : Library) (medium title : String) (q : Heap × Library × Int),
      AddRecord h l medium title = .ok q →
      q.2.2 = l.nextID ∧ q.2.1.nextID = l.nextID + 1 ∧
      libFindT q.1 q.2.1 title = some (NewRecord medium title l.nextID) ∧
      libFindI q.1 q.2.1 q.2.2 = some (NewRecord medium title l.nextID) ∧
      (NewRecord medium title l.nextID).rating = 0) ∧
    (∀ (s : S) (medium title : String), (alistGet title s.lib.byTitle).isSome →
      addRecordOp s medium title = (s, some (.regular errDuplicateRecordTitle))) := by
  refine ⟨?_, ?_, ?_⟩
  · intro ps
    exact addRecordsOp_ids ps initS
  · intro h l medium title q hok
    obtain ⟨hfr, hq⟩ := AddRecord_ok_eq hok
    subst hq
    refine ⟨rfl, rfl, ?_, ?_, rfl⟩
    · simp [libFindT, alistGet_set_self, Heap.get, Heap.find?, Heap.alloc, alistGet_cons_self]
    · simp [libFindI, alistGet_set_self, Heap.get, Heap.find?, Heap.alloc, alistGet_cons_self]
  · intro s medium title hsome
    exact addRecordOp_dup hsome

theorem C6_addRecord_id_sequence_witness :
    ((addRecordsOp initS [("dvd", "Aa"), ("cd", "Bb")]).2 =
      (List.range (addRecordsOp initS [("dvd", "Aa"), ("cd", "Bb")]).2.length).map
        (fun n : Nat => 1 + (n : Int))) ∧
    (libFindT (⟨[(0, NewRecord "dvd" "Aa" 1)], 1⟩ : Heap)
        (⟨[("Aa", 0)], [(1, 0)], 2⟩ : Library) "Aa" =
        some (NewRecord "dvd" "Aa" NewLibrary.nextID) ∧
      libFindI (⟨[(0, NewRecord "dvd" "Aa" 1)], 1⟩ : Heap)
        (⟨[("Aa", 0)], [(1, 0)], 2⟩ : Library) 1 =
        some (NewRecord "dvd" "Aa" NewLibrary.nextID) ∧
      (NewRecord "dvd" "Aa" NewLibrary.nextID).rating = 0) ∧
    addRecordOp (addRecordOp initS "dvd" "Aa").1 "cd" "Aa" =
      ((addRecordOp initS "dvd" "Aa").1, some (.regular errDuplicateRecordTitle)) := by
  refine ⟨C6_addRecord_id_sequence.1 [("dvd", "Aa"), ("cd", "Bb")], ?_,
    C6_addRecord_id_sequence.2.2 (addRecordOp initS "dvd" "Aa").1 "cd" "Aa" (by decide)⟩
  have h := C6_addRecord_id_sequence.2.1 Heap.empty NewLibrary "dvd" "Aa"
    (⟨[(0, NewRecord "dvd" "Aa" 1)], 1⟩, ⟨[("Aa", 0)], [(1, 0)], 2⟩, 1) rfl
  exact ⟨h.2.2.1, h.2.2.2.1, h.2.2.2.2⟩

/-- C7 counterexample: ModifyTitle rejects a newTitle equal to the record's
own current title, although no different record uses it: with a single
record (id 1, title "Es"), mt 1 "Es" fails with the duplicate error. -/
theorem C7_modifyTitle_same_title_counterexample :
    alistGet "Es" (addRecordOp initS "dvd" "Es").1.lib.byTitle = some 0 ∧
    alistGet (1 : Int) (addRecordOp initS "dvd" "Es").1.lib.byID = some 0 ∧
    modifyTitleOp (addRecordOp initS "dvd" "Es").1 1 "Es" =
      ((addRecordOp initS "dvd" "Es").1, some (.regular errDuplicateRecordTitle)) := by
  exact ⟨by decide, by decide, by decide⟩

/-- C7 (amended): mt fails with the duplicate error exactly when newTitle is
present in the title index, be it on a different record or on the modified
record itself; otherwise it re-keys the title index (old key removed, new
key bound to the same address), leaving the record's id and the id index
untouched. -/
theorem C7_modifyTitle_amended {s : S} (hr : Reachable s) (id : Int) (newTitle : String)
    (a : Nat) (hia : alistGet id s.lib.byID = some a) :
    ((alistGet newTitle s.lib.byTitle).isSome →
      modifyTitleOp s id newTitle = (s, some (.regular errDuplicateRecordTitle))) ∧
    (alistGet newTitle s.lib.byTitle = none →
      modifyTitleOp s id newTitle =
        (⟨s.heap.write a { s.heap.get a with title := newTitle },
          ⟨alistSet newTitle a (alistDel (s.heap.get a).title s.lib.byTitle),
            s.lib.byID, s.lib.nextID⟩, s.cat⟩, none) ∧
      ((s.heap.write a { s.heap.get a with title := newTitle }).get a).id =
        (s.heap.get a).id ∧
      alistGet newTitle
        (alistSet newTitle a (alistDel (s.heap.get a).title s.lib.byTitle)) = some a ∧
      alistGet (s.heap.get a).title
        (alistSet newTitle a (alistDel (s.heap.get a).title s.lib.byTitle)) = none) := by
  have hwf := reachable_wf hr
  refine ⟨?_, ?_⟩
  · intro hnew
    exact modifyTitleOp_dup hia hnew
  · intro hnew
    have hot := (wf_find_of_id hwf hia).2.2
    have hne : (s.heap.get a).title ≠ newTitle := by
      intro e
      rw [e] at hot
      rw [hnew] at hot
      cases hot
    refine ⟨modifyTitleOp_rekey hia hnew, ?_, alistGet_set_self _ _ _, ?_⟩
    · rw [Heap.get_write_self]
    · rw [alistGet_set_ne _ _ hne]
      exact alistGet_del_self _ hwf.titleKeysNodup

theorem C7_modifyTitle_amended_witness :
    alistGet "Zz" (alistSet "Zz" 0
      (alistDel ((addRecordOp initS "dvd" "Aa").1.heap.get 0).title
        (addRecordOp initS "dvd" "Aa").1.lib.byTitle)) = some 0 ∧
    alistGet ((addRecordOp initS "dvd" "Aa").1.heap.get 0).title
      (alistSet "Zz" 0 (alistDel ((addRecordOp initS "dvd" "Aa").1.heap.get 0).title
        (addRecordOp initS "dvd" "Aa").1.lib.byTitle)) = none := by
  have h := (C7_modifyTitle_amended
    (Reachable.addRecord _ "dvd" "Aa" Reachable.init (by decide) (by decide))
    1 "Zz" 0 (by decide)).2 (by decide)
  exact ⟨h.2.2.1, h.2.2.2⟩

/-- C8: cc fails with the no-such-collection error when either source name
is unknown and with the duplicate error when the destination name exists,
each failure leaving the state unchanged; on success the new destination
holds exactly the union of the two sources' member id sets while every
other collection (the sources included) keeps its entry and members. -/
theorem C8_combineCollections_semantics {s : S} (hr : Reachable s)
    (firstName secondName dstName : String) :
    (alistGet firstName s.cat.collections = none →
      combineCollectionsOp s firstName secondName dstName =
        (s, some (.newline errNoSuchCollection))) ∧
    (∀ first, alistGet firstName s.cat.collections = some first →
      alistGet secondName s.cat.collections = none →
      combineCollectionsOp s firstName secondName dstName =
        (s, some (.newline errNoSuchCollection))) ∧
    (∀ first second, alistGet firstName s.cat.collections = some first →
      alistGet secondName s.cat.collections = some second →
      (alistGet dstName s.cat.collections).isSome →
      combineCollectionsOp s firstName secondName dstName =
        (s, some (.newline errDuplicateCollection))) ∧
    (∀ first second, alistGet firstName s.cat.collections = some first →
      alistGet secondName s.cat.collections = some second →
      alistGet dstName s.cat.collections = none →
      (combineCollectionsOp s firstName secondName dstName).2 = none ∧
      (combineCollectionsOp s firstName secondName dstName).1.lib = s.lib ∧
      hasColl (combineCollectionsOp s firstName secondName dstName).1.cat dstName = true ∧
      (∀ i, memberIn (combineCollectionsOp s firstName secondName dstName).1.cat dstName i =
        (memberIn s.cat firstName i || memberIn s.cat secondName i)) ∧
      (∀ n, n ≠ dstName →
        alistGet n (combineCollectionsOp s firstName secondName dstName).1.cat.collections =
          alistGet n s.cat.collections) ∧
      (∀ i, memberIn (combineCollectionsOp s firstName secondName dstName).1.cat firstName i =
        memberIn s.cat firstName i) ∧
      (∀ i, memberIn (combineCollectionsOp s firstName secondName dstName).1.cat secondName i =
        memberIn s.cat secondName i)) := by
  have hwf := reachable_wf hr
  refine ⟨?_, ?_, ?_, ?_⟩
  · intro h1
    simp [combineCollectionsOp, CombineCollections, h1]
  · intro first h1 h2
    simp [combineCollectionsOp, CombineCollections, h1, h2]
  · intro first second h1 h2 h3s
    cases h3 : alistGet dstName s.cat.collections with
    | none => rw [h3] at h3s; simp at h3s
    | some col => simp [combineCollectionsOp, CombineCollections, h1, h2, h3]
  · intro first second h1 h2 h3
    rw [combineCollectionsOp_ok h1 h2 h3]
    have hfc := hwf.colOK firstName first h1
    have hsc := hwf.colOK secondName second h2
    have hids1 : ∀ p ∈ first.members, (s.heap.get p.2).id = p.1 := by
      intro p hp
      have hbyid := hfc.2.2.2 p.1 p.2 (alistGet_of_mem_pair hp hfc.2.2.1)
      exact (wf_find_of_id hwf hbyid).2.1
    have hall1 := wf_members_addr_alloc hwf h1
    have spec1 := addAllMembers_spec first.members s.heap (NewCollection dstName)
      hids1 hfc.2.2.1 hall1
    set p1 := addAllMembers s.heap (NewCollection dstName) first.members with hp1
    have hids2 : ∀ p ∈ second.members, (p1.1.get p.2).id = p.1 := by
      intro p hp
      have hbyid := hsc.2.2.2 p.1 p.2 (alistGet_of_mem_pair hp hsc.2.2.1)
      have hfind := (wf_find_of_id hwf hbyid).1
      have hupd := spec1.2.2.2.2.1 p.2 _ hfind
      unfold Heap.get
      rw [hupd]
      exact (wf_find_of_id hwf hbyid).2.1
    have hall2 : ∀ p ∈ second.members, p.2 ∈ p1.1.recs.map Prod.fst := by
      intro p hp
      rw [spec1.2.2.1]
      exact wf_members_addr_alloc hwf h2 p hp
    have spec2 := addAllMembers_spec second.members p1.1 p1.2 hids2 hsc.2.2.1 hall2
    set q1 := addAllMembers p1.1 p1.2 second.members with hq1
    have hqmem : ∀ i, alistGet i q1.2.members =
        match alistGet i first.members with
        | some a => some a
        | none => alistGet i second.members := by
      intro i
      rw [spec2.2.2.2.1 i]
      have hd1 : alistGet i p1.2.members = alistGet i first.members := by
        rw [spec1.2.2.2.1 i]
        rfl
      rw [hd1]
    have hne1 : firstName ≠ dstName := by
      intro e
      rw [e, h3] at h1
      cases h1
    have hne2 : secondName ≠ dstName := by
      intro e
      rw [e, h3] at h2
      cases h2
    refine ⟨rfl, rfl, ?_, ?_, ?_, ?_, ?_⟩
    · simp [hasColl, alistGet_set_self]
    · intro i
      have hms : memberIn (⟨alistSet dstName q1.2 s.cat.collections⟩ : Catalog) dstName i =
          (alistGet i q1.2.members).isSome := by
        simp [memberIn, alistGet_set_self]
      rw [hms, hqmem i]
      have hf : memberIn s.cat firstName i = (alistGet i first.members).isSome := by
        simp [memberIn, h1]
      have hs : memberIn s.cat secondName i = (alistGet i second.members).isSome := by
        simp [memberIn, h2]
      rw [hf, hs]
      cases alistGet i first.members <;> simp
    · intro n hne
      exact alistGet_set_ne _ _ hne
    · intro i
      simp [memberIn, alistGet_set_ne _ _ hne1]
    · intro i
      simp [memberIn, alistGet_set_ne _ _ hne2]

theorem C8_combineCollections_semantics_witness :
    (combineCollectionsOp combineSampleS "C1" "C2" "C3").2 = none ∧
    hasColl (combineCollectionsOp combineSampleS "C1" "C2" "C3").1.cat "C3" = true ∧
    memberIn (combineCollectionsOp combineSampleS "C1" "C2" "C3").1.cat "C3" 1 =
      (memberIn combineSampleS.cat "C1" 1 || memberIn combineSampleS.cat "C2" 1) ∧
    memberIn (combineCollectionsOp combineSampleS "C1" "C2" "C3").1.cat "C3" 2 =
      (memberIn combineSampleS.cat "C1" 2 || memberIn combineSampleS.cat "C2" 2) ∧
    memberIn (combineCollectionsOp combineSampleS "C1" "C2" "C3").1.cat "C1" 1 =
      memberIn combineSampleS.cat "C1" 1 := by
  have hreach : Reachable combineSampleS :=
    Reachable.addMember _ "C2" 2
      (Reachable.addMember _ "C1" 1
        (Reachable.addCollection _ "C2"
          (Reachable.addCollection _ "C1"
            (Reachable.addRecord _ "cd" "Bb"
              (Reachable.addRecord _ "dvd" "Aa" Reachable.init (by decide) (by decide))
              (by decide) (by decide))
            (by decide))
          (by decide)))
  have h := (C8_combineCollections_semantics hreach "C1" "C2" "C3").2.2.2
    ⟨"C1", [(1, 0)]⟩ ⟨"C2", [(2, 1)]⟩ (by decide) (by decide) (by decide)
  exact ⟨h.1, h.2.2.1, h.2.2.2.1 1, h.2.2.2.1 2, h.2.2.2.2.2.1 1⟩

/-! ## Restore error characterization -/

theorem ReadWord_no_err (input : List Char) (e : Err) : ReadWord input ≠ Res.err e := by
  unfold ReadWord
  by_cases hemp : (takeWord (skipWs input)).1.isEmpty
  · rw [if_pos hemp]
    intro h
    cases h
  · rw [if_neg hemp]
    intro h
    cases h

theorem RestoreRecord_err {input : List Char} {e : Err}
    (h : RestoreRecord input = .err e) : e = .newline ErrInvalidFile := by
  unfold RestoreRecord at h
  cases h1 : ReadInt input with
  | err e2 => rw [h1] at h; cases h; rfl
  | panicked m => rw [h1] at h; cases h
  | ok q =>
    rcases q with ⟨id, input1⟩
    rw [h1] at h
    simp only at h
    by_cases hid : id < 1
    · rw [if_pos hid] at h; cases h; rfl
    · rw [if_neg hid] at h
      cases h2 : ReadWord input1 with
      | err e2 => exact absurd h2 (ReadWord_no_err _ _)
      | panicked m => rw [h2] at h; cases h
      | ok q2 =>
        rcases q2 with ⟨medium, input2⟩
        rw [h2] at h
        simp only at h
        by_cases hme : medium.isEmpty
        · rw [if_pos hme] at h; cases h; rfl
        · rw [if_neg hme] at h
          cases h3 : ReadInt input2 with
          | err e2 => rw [h3] at h; cases h; rfl
          | panicked m => rw [h3] at h; cases h
          | ok q3 =>
            rcases q3 with ⟨rating, input3⟩
            rw [h3] at h
            simp only at h
            by_cases hra : rating < 0 ∨ 5 < rating
            · rw [if_pos hra] at h; cases h; rfl
            · rw [if_neg hra] at h
              by_cases hte : (ReadLine (skipWs input3)).1.isEmpty
              · rw [if_pos hte] at h; cases h; rfl
              · rw [if_neg hte] at h; cases h

theorem restoreRecords_err : ∀ (fuel : Nat) (h : Heap) (lib : Library) (maxID : Int)
    (input : List Char) (e : Err),
    restoreRecords h lib maxID fuel input = .err e → e = .newline ErrInvalidFile := by
  intro fuel
  induction fuel with
  | zero =>
    intro h lib maxID input e hok
    rw [restoreRecords] at hok
    cases hok
  | succ fuel ih =>
    intro h lib maxID input e hok
    rw [restoreRecords] at hok
    cases hrec : RestoreRecord input with
    | err e2 =>
      rw [hrec] at hok
      cases hok
      exact RestoreRecord_err hrec
    | panicked m => rw [hrec] at hok; cases hok
    | ok q =>
      rcases q with ⟨record, input1⟩
      rw [hrec] at hok
      simp only at hok
      cases hid : alistGet record.id lib.byID with
      | some _ => rw [hid] at hok; cases hok; rfl
      | none =>
        rw [hid] at hok
        cases hti : alistGet record.title lib.byTitle with
        | some _ => rw [hti] at hok; cases hok; rfl
        | none =>
          rw [hti] at hok
          simp only at hok
          exact ih _ _ _ _ _ hok

theorem RestoreLibrary_err {h : Heap} {input : List Char} {e : Err}
    (hk : RestoreLibrary h input = .err e) : e = .newline ErrInvalidFile := by
  unfold RestoreLibrary at hk
  cases h1 : ReadInt input with
  | err e2 => rw [h1] at hk; cases hk; rfl
  | panicked m => rw [h1] at hk; cases hk
  | ok q =>
    rcases q with ⟨numRecords, input1⟩
    rw [h1] at hk
    simp only at hk
    by_cases hn : numRecords < 0
    · rw [if_pos hn] at hk; cases hk; rfl
    · rw [if_neg hn] at hk
      exact restoreRecords_err _ _ _ _ _ _ hk

theorem restoreMembers_err : ∀ (fuel : Nat) (h : Heap) (lib : Library) (col : Collection)
    (input : List Char) (e : Err),
    restoreMembers h lib col fuel input = .err e → e = .newline ErrInvalidFile := by
  intro fuel
  induction fuel with
  | zero =>
    intro h lib col input e hok
    rw [restoreMembers] at hok
    cases hok
  | succ fuel ih =>
    intro h lib col input e hok
    rw [restoreMembers] at hok
    simp only at hok
    cases hta : alistGet (ReadLine input).1 lib.byTitle with
    | none => rw [hta] at hok; cases hok; rfl
    | some a =>
      rw [hta] at hok
      simp only at hok
      cases hnm : alistGet (h.get a).id col.members with
      | some _ => rw [hnm] at hok; cases hok; rfl
      | none =>
        rw [hnm] at hok
        simp only at hok
        exact ih _ _ _ _ _ hok

theorem RestoreCollection_err {h : Heap} {lib : Library} {input : List Char} {e : Err}
    (hk : RestoreCollection h lib input = .err e) : e = .newline ErrInvalidFile := by
  unfold RestoreCollection at hk
  cases h1 : ReadWord input with
  | err e2 => exact absurd h1 (ReadWord_no_err _ _)
  | panicked m => rw [h1] at hk; cases hk
  | ok q =>
    rcases q with ⟨name, input1⟩
    rw [h1] at hk
    simp only at hk
    by_cases hne : name.isEmpty
    · rw [if_pos hne] at hk; cases hk; rfl
    · rw [if_neg hne] at hk
      cases h2 : ReadInt input1 with
      | err e2 => rw [h2] at hk; cases hk; rfl
      | panicked m => rw [h2] at hk; cases hk
      | ok q2 =>
        rcases q2 with ⟨numMembers, input2⟩
        rw [h2] at hk
        simp only at hk
        by_cases hnm : numMembers < 0
        · rw [if_pos hnm] at hk; cases hk; rfl
        · rw [if_neg hnm] at hk
          exact restoreMembers_err _ _ _ _ _ _ hk

theorem restoreColls_err : ∀ (fuel : Nat) (h : Heap) (lib : Library) (cat : Catalog)
    (input : List Char) (e : Err),
    restoreColls h lib cat fuel input = .err e → e = .newline ErrInvalidFile := by
  intro fuel
  induction fuel with
  | zero =>
    intro h lib cat input e hok
    rw [restoreColls] at hok
    cases hok
  | succ fuel ih =>
    intro h lib cat input e hok
    rw [restoreColls] at hok
    cases h1 : RestoreCollection h lib input with
    | err e2 =>
      rw [h1] at hok
      cases hok
      exact RestoreCollection_err h1
    | panicked m => rw [h1] at hok; cases hok
    | ok q =>
      rcases q with ⟨h2, col, input1⟩
      rw [h1] at hok
      simp only at hok
      cases hdup : alistGet col.name cat.collections with
      | some _ => rw [hdup] at hok; cases hok; rfl
      | none =>
        rw [hdup] at hok
        exact ih _ _ _ _ _ hok

theorem RestoreCatalog_err {h : Heap} {lib : Library} {input : List Char} {e : Err}
    (hk : RestoreCatalog h lib input = .err e) : e = .newline ErrInvalidFile := by
  unfold RestoreCatalog at hk
  cases h1 : ReadInt input with
  | err e2 => rw [h1] at hk; cases hk; rfl
  | panicked m => rw [h1] at hk; cases hk
  | ok q =>
    rcases q with ⟨numCollections, input1⟩
    rw [h1] at hk
    simp only at hk
    by_cases hn : numCollections < 0
    · rw [if_pos hn] at hk; cases hk; rfl
    · rw [if_neg hn] at hk
      exact restoreColls_err _ _ _ _ _ _ hk

/-- C3 counterexample: a malformed file (one record whose line ends right
after the id, so the medium would be empty) makes RestoreLibrary panic
instead of rejecting the file with the invalid-file error. -/
theorem C3_missing_medium_panics_counterexample :
    RestoreLibrary Heap.empty ("1\n5".data) =
      .panicked "did not read any runes before EOF" := by
  decide

/-- C3 (amended): every error exit of the rA pipeline carries the
invalid-file newline error and leaves the state exactly as it was, as does
every panic exit; a successful restore yields a library whose two indexes
have duplicate-free keys and whose records all satisfy the parse-time
constraints (id at least 1, rating between 0 and 5, whitespace-free
nonempty medium, nonempty title). The spec's claim that a record line with
an empty medium is rejected with an error is dropped: such a line makes the
restore panic instead. -/
theorem C3_restore_validation_amended {s : S} (hr : Reachable s) (input : List Char) :
    (∀ e, (restoreAllOp s input).2 = .err e →
      (restoreAllOp s input).1 = s ∧ e = .newline ErrInvalidFile) ∧
    (∀ m, (restoreAllOp s input).2 = .panicked m → (restoreAllOp s input).1 = s) ∧
    ((restoreAllOp s input).2 = .ok () →
      ((restoreAllOp s input).1.lib.byTitle.map Prod.fst).Nodup ∧
      ((restoreAllOp s input).1.lib.byID.map Prod.fst).Nodup ∧
      ∀ i a, alistGet i (restoreAllOp s input).1.lib.byID = some a →
        recordOK ((restoreAllOp s input).1.heap.get a)) := by
  have hwf := reachable_wf hr
  unfold restoreAllOp
  cases hL : RestoreLibrary s.heap input with
  | err e0 =>
    refine ⟨?_, ?_, ?_⟩
    · intro e he
      cases he
      exact ⟨rfl, RestoreLibrary_err hL⟩
    · intro m hm
      cases hm
    · intro hk
      cases hk
  | panicked m0 =>
    refine ⟨?_, ?_, ?_⟩
    · intro e he
      cases he
    · intro m hm
      exact rfl
    · intro hk
      cases hk
  | ok q =>
    rcases q with ⟨h1, newLib, input1⟩
    simp only
    cases hC : RestoreCatalog h1 newLib input1 with
    | err e0 =>
      refine ⟨?_, ?_, ?_⟩
      · intro e he
        cases he
        exact ⟨rfl, RestoreCatalog_err hC⟩
      · intro m hm
        cases hm
      · intro hk
        cases hk
    | panicked m0 =>
      refine ⟨?_, ?_, ?_⟩
      · intro e he
        cases he
      · intro m hm
        exact rfl
      · intro hk
        cases hk
    | ok q2 =>
      rcases q2 with ⟨h2, newCat, rest⟩
      simp only
      refine ⟨?_, ?_, ?_⟩
      · intro e he
        cases he
      · intro m hm
        cases hm
      · intro _
        have hwf2 := restoreCatalog_wf
          (restoreLibrary_wf hwf.heapNodup hwf.heapBound hL) hC
        exact ⟨hwf2.titleKeysNodup, hwf2.idKeysNodup,
          fun i a hia => (hwf2.recOK i a hia).1⟩

theorem C3_restore_validation_amended_witness :
    (restoreAllOp initS ("-1".data)).1 = initS ∧
    Err.newline ErrInvalidFile = Err.newline ErrInvalidFile :=
  (C3_restore_validation_amended Reachable.init ("-1".data)).1
    (Err.newline ErrInvalidFile) (by decide)

/-! ## Decimal printing parses back -/

theorem digit_char_isDigit {m : Nat} (hm : m < 10) :
    (Char.ofNat (48 + m)).isDigit = true := by
  interval_cases m <;> decide

theorem digit_char_toNat {m : Nat} (hm : m < 10) :
    (Char.ofNat (48 + m)).toNat = 48 + m := by
  interval_cases m <;> decide

theorem digit_not_space {c : Char} (hc : c.isDigit = true) : isSpaceGo c = false := by
  by_contra hs
  rw [Bool.not_eq_false] at hs
  simp only [isSpaceGo, decide_eq_true_eq] at hs
  rcases hs with rfl | rfl | rfl | rfl | rfl | rfl <;> simp at hc


theorem skipWs_cons_space {c : Char} (hc : isSpaceGo c = true) (l : List Char) :
    skipWs (c :: l) = skipWs l := by
  rw [skipWs, if_pos hc]

theorem skipWs_cons_nospace {c : Char} (hc : isSpaceGo c = false) (l : List Char) :
    skipWs (c :: l) = c :: l := by
  rw [skipWs, if_neg (by simp [hc])]

theorem natToDigits_digits : ∀ (n : Nat), ∀ c ∈ natToDigits n, c.isDigit = true := by
  intro n
  induction n using Nat.strong_induction_on with
  | _ n ih =>
    rw [natToDigits]
    by_cases h : n < 10
    · rw [dif_pos h]
      intro c hc
      rw [List.mem_singleton] at hc
      rw [hc]
      exact digit_char_isDigit h
    · rw [dif_neg h]
      intro c hc
      rcases List.mem_append.mp hc with h1 | h1
      · exact ih (n / 10) (Nat.div_lt_self (by omega) (by omega)) c h1
      · rw [List.mem_singleton] at h1
        rw [h1]
        exact digit_char_isDigit (Nat.mod_lt _ (by omega))

theorem natToDigits_ne_nil (n : Nat) : natToDigits n ≠ [] := by
  rw [natToDigits]
  by_cases h : n < 10
  · rw [dif_pos h]
    simp
  · rw [dif_neg h]
    simp

theorem digitsVal_append (ds : List Char) (c : Char) :
    digitsVal (ds ++ [c]) = digitsVal ds * 10 + (c.toNat - 48) := by
  unfold digitsVal
  rw [List.foldl_append]
  rfl

theorem digitsVal_natToDigits : ∀ (n : Nat), digitsVal (natToDigits n) = n := by
  intro n
  induction n using Nat.strong_induction_on with
  | _ n ih =>
    rw [natToDigits]
    by_cases h : n < 10
    · rw [dif_pos h]
      show digitsVal ([] ++ [Char.ofNat (48 + n)]) = n
      rw [digitsVal_append, digit_char_toNat h]
      simp [digitsVal]
    · rw [dif_neg h]
      rw [digitsVal_append, ih (n / 10) (Nat.div_lt_self (by omega) (by omega)),
        digit_char_toNat (Nat.mod_lt _ (by omega))]
      omega

theorem takeDigits_append {ds : List Char} (hall : ∀ c ∈ ds, c.isDigit = true) :
    ∀ {c : Char} {rest : List Char}, c.isDigit = false →
      takeDigits (ds ++ c :: rest) = (ds, c :: rest) := by
  induction ds with
  | nil =>
    intro c rest hc
    simp [takeDigits, hc]
  | cons d dt ih =>
    intro c rest hc
    have hd := hall d (List.mem_cons_self _ _)
    rw [List.cons_append, takeDigits, if_pos hd,
      ih (fun x hx => hall x (List.mem_cons_of_mem _ hx)) hc]

theorem atoiGo_digits {ds : List Char} (hne : ds ≠ [])
    (hall : ∀ c ∈ ds, c.isDigit = true) :
    atoiGo ds = some ((digitsVal ds : Nat) : Int) := by
  cases ds with
  | nil => exact absurd rfl hne
  | cons d dt =>
    have hd := hall d (List.mem_cons_self _ _)
    have hplus : d ≠ '+' := by
      intro e
      rw [e] at hd
      simp at hd
    have hminus : d ≠ '-' := by
      intro e
      rw [e] at hd
      simp at hd
    have hallb : (d :: dt).all Char.isDigit = true := List.all_eq_true.mpr hall
    unfold atoiGo
    split
    · rename_i heq
      simp at heq
    · rename_i ds2 heq
      rw [List.cons.injEq] at heq
      exact absurd heq.1 hplus
    · rename_i ds2 heq
      rw [List.cons.injEq] at heq
      exact absurd heq.1 hminus
    · rw [if_neg (by simp [hallb])]

theorem ReadInt_digits {n : Nat} {c : Char} {rest : List Char} (hc : c.isDigit = false) :
    ReadInt (natToDigits n ++ c :: rest) = .ok ((n : Int), c :: rest) := by
  cases he : natToDigits n with
  | nil => exact absurd he (natToDigits_ne_nil n)
  | cons d dt =>
    have hall2 : ∀ x ∈ d :: dt, x.isDigit = true := by
      intro x hx
      refine natToDigits_digits n x ?_
      rw [he]
      exact hx
    have hd : d.isDigit = true := hall2 d (List.mem_cons_self _ _)
    have hdt : ∀ x ∈ dt, x.isDigit = true :=
      fun x hx => hall2 x (List.mem_cons_of_mem _ hx)
    have hn : digitsVal (d :: dt) = n := by
      rw [← he]
      exact digitsVal_natToDigits n
    unfold ReadInt
    rw [List.cons_append, skipWs_cons_nospace (digit_not_space hd)]
    simp [hd, takeDigits_append hdt hc, @atoiGo_digits (d :: dt) (by simp) hall2, hn]

theorem takeWord_append {l : List Char} (hall : ∀ x ∈ l, isSpaceGo x = false) :
    ∀ {c : Char} {rest : List Char}, isSpaceGo c = true →
      takeWord (l ++ c :: rest) = (l, c :: rest) := by
  induction l with
  | nil =>
    intro c rest hc
    simp [takeWord, hc]
  | cons d dt ih =>
    intro c rest hc
    have hd := hall d (List.mem_cons_self _ _)
    rw [List.cons_append, takeWord, if_neg (by simp [hd]),
      ih (fun x hx => hall x (List.mem_cons_of_mem _ hx)) hc]

theorem wordOK_chars {w : String} (hw : wordOK w = true) :
    w.data ≠ [] ∧ ∀ x ∈ w.data, isSpaceGo x = false := by
  unfold wordOK at hw
  rw [Bool.and_eq_true] at hw
  refine ⟨?_, ?_⟩
  · intro e
    rw [e] at hw
    simp at hw
  · intro x hx
    have := List.all_eq_true.mp hw.2 x hx
    simpa using this

theorem wordOK_not_isEmpty {w : String} (hw : wordOK w = true) : w.isEmpty = false := by
  have hne := (wordOK_chars hw).1
  rw [Bool.eq_false_iff]
  intro he
  rw [String.isEmpty_iff] at he
  rw [he] at hne
  exact hne rfl

theorem ReadWord_exact {w : String} (hw : wordOK w = true) {c : Char} {rest : List Char}
    (hc : isSpaceGo c = true) :
    ReadWord (w.data ++ c :: rest) = .ok (w, c :: rest) := by
  obtain ⟨hne, hall⟩ := wordOK_chars hw
  cases hd : w.data with
  | nil => exact absurd hd hne
  | cons d dt =>
    have hall2 : ∀ x ∈ d :: dt, isSpaceGo x = false := by
      rw [hd] at hall
      exact hall
    have hws : (String.mk (d :: dt)) = w := by
      rw [← hd]
    have hskip : skipWs ((d :: dt) ++ c :: rest) = (d :: dt) ++ c :: rest := by
      rw [List.cons_append, skipWs_cons_nospace (hall2 d (List.mem_cons_self _ _)),
        ← List.cons_append]
    unfold ReadWord
    rw [hskip, takeWord_append hall2 hc]
    simp [hws]

theorem readLineAux_append : ∀ (t : List Char), (∀ x ∈ t, x ≠ '\n') → ∀ (rest : List Char),
    readLineAux (t ++ '\n' :: rest) = (t, rest) := by
  intro t
  induction t with
  | nil =>
    intro _ rest
    simp [readLineAux]
  | cons d dt ih =>
    intro hnl rest
    have hd := hnl d (List.mem_cons_self _ _)
    rw [List.cons_append, readLineAux, if_neg hd,
      ih (fun x hx => hnl x (List.mem_cons_of_mem _ hx)) rest]

theorem titleOK_chars {t : String} (ht : titleOK t = true) :
    ∃ c cs, t.data = c :: cs ∧ isSpaceGo c = false ∧ ∀ x ∈ t.data, x ≠ '\n' := by
  unfold titleOK at ht
  cases hd : t.data with
  | nil =>
    rw [hd] at ht
    simp at ht
  | cons c cs =>
    rw [hd] at ht
    simp only [Bool.and_eq_true] at ht
    refine ⟨c, cs, rfl, by simpa using ht.1, ?_⟩
    intro x hx
    have := List.all_eq_true.mp ht.2 x hx
    simpa using this

theorem ReadInt_cons_space {c : Char} (hc : isSpaceGo c = true) (l : List Char) :
    ReadInt (c :: l) = ReadInt l := by
  unfold ReadInt
  rw [skipWs_cons_space hc]

theorem ReadWord_cons_space {c : Char} (hc : isSpaceGo c = true) (l : List Char) :
    ReadWord (c :: l) = ReadWord l := by
  unfold ReadWord
  rw [skipWs_cons_space hc]

theorem RestoreRecord_cons_space {c : Char} (hc : isSpaceGo c = true) (l : List Char) :
    RestoreRecord (c :: l) = RestoreRecord l := by
  unfold RestoreRecord
  rw [ReadInt_cons_space hc]

theorem RestoreCollection_cons_space {c : Char} (hc : isSpaceGo c = true)
    (h : Heap) (lib : Library) (l : List Char) :
    RestoreCollection h lib (c :: l) = RestoreCollection h lib l := by
  unfold RestoreCollection
  rw [ReadWord_cons_space hc]

/-- a saved record line parses back to the same record with a fresh
membership count, leaving exactly the trailing input. -/
theorem RestoreRecord_saveLine {r : Record} (hok : recordOK r) (rest : List Char) :
    RestoreRecord (r.saveLine ++ rest) = .ok (zeroCount r, rest) := by
  obtain ⟨hid, hr0, hr5, hm, ht⟩ := hok
  obtain ⟨c0, cs, hdt, hc0, hnl⟩ := titleOK_chars ht
  have hidstr : intStr r.id = natToDigits r.id.toNat := by
    unfold intStr
    rw [if_neg (by omega)]
  have hrstr : intStr r.rating = natToDigits r.rating.toNat := by
    unfold intStr
    rw [if_neg (by omega)]
  have hinput : r.saveLine ++ rest =
      natToDigits r.id.toNat ++ ' ' :: (r.medium.data ++ ' ' ::
        (natToDigits r.rating.toNat ++ ' ' :: (r.title.data ++ '\n' :: rest))) := by
    unfold Record.saveLine
    rw [hidstr, hrstr]
    simp [List.append_assoc]
  rw [hinput]
  unfold RestoreRecord
  rw [ReadInt_digits (by decide)]
  try simp only
  rw [Int.toNat_of_nonneg (by omega : (0 : Int) ≤ r.id)]
  rw [if_neg (by omega)]
  rw [ReadWord_cons_space (by decide), ReadWord_exact hm (by decide)]
  try simp only
  rw [if_neg (by simp [wordOK_not_isEmpty hm])]
  rw [ReadInt_cons_space (by decide), ReadInt_digits (by decide)]
  try simp only
  rw [Int.toNat_of_nonneg hr0]
  rw [if_neg (by omega)]
  have hskipT : skipWs (' ' :: (r.title.data ++ '\n' :: rest)) =
      r.title.data ++ '\n' :: rest := by
    rw [skipWs_cons_space (by decide)]
    rw [hdt, List.cons_append, skipWs_cons_nospace hc0, ← List.cons_append, ← hdt]
  rw [hskipT]
  have hrl : readLineAux (r.title.data ++ '\n' :: rest) = (r.title.data, rest) :=
    readLineAux_append r.title.data hnl rest
  simp only [ReadLine]
  rw [hrl]
  try simp only
  have htne : (String.mk r.title.data).isEmpty = false := by
    rw [Bool.eq_false_iff]
    intro he
    rw [String.isEmpty_iff] at he
    have := congrArg String.data he
    rw [hdt] at this
    simp at this
  rw [if_neg (by simp [htne])]
  rfl

/-! ## Sorting permutes -/

theorem insertRecBy_perm (f : Record → Record → Bool) (x : Record) :
    ∀ l, (insertRecBy f x l).Perm (x :: l) := by
  intro l
  induction l with
  | nil => simp [insertRecBy]
  | cons y ys ih =>
    rw [insertRecBy]
    by_cases h : f y x
    · rw [if_pos h]
      exact (List.Perm.cons y ih).trans (List.Perm.swap x y ys)
    · rw [if_neg h]

theorem sortRecBy_perm (f : Record → Record → Bool) :
    ∀ l, (sortRecBy f l).Perm l := by
  intro l
  induction l with
  | nil => simp [sortRecBy]
  | cons x xs ih =>
    rw [sortRecBy]
    exact (insertRecBy_perm f x (sortRecBy f xs)).trans (List.Perm.cons x ih)

theorem insertColByName_perm (x : Collection) :
    ∀ l, (insertColByName x l).Perm (x :: l) := by
  intro l
  induction l with
  | nil => simp [insertColByName]
  | cons y ys ih =>
    rw [insertColByName]
    by_cases h : y.name < x.name
    · rw [if_pos h]
      exact (List.Perm.cons y ih).trans (List.Perm.swap x y ys)
    · rw [if_neg h]

theorem sortCols_perm : ∀ l, (sortCols l).Perm l := by
  intro l
  induction l with
  | nil => simp [sortCols]
  | cons x xs ih =>
    rw [sortCols]
    exact (insertColByName_perm x (sortCols xs)).trans (List.Perm.cons x ih)

/-! ## The record loop parses a saved library back -/

theorem restoreRecords_save : ∀ (rs : List Record) (h : Heap) (lib : Library) (maxID : Int)
    (rest : List Char),
    (∀ r ∈ rs, recordOK r) →
    (lib.byTitle.map Prod.fst ++ rs.map Record.title).Nodup →
    (lib.byID.map Prod.fst ++ rs.map Record.id).Nodup →
    (∀ t a, alistGet t lib.byTitle = some a → a < h.next) →
    (∀ i a, alistGet i lib.byID = some a → a < h.next) →
    ∃ h2 lib2,
      restoreRecords h lib maxID rs.length ((rs.map Record.saveLine).flatten ++ rest) =
        .ok (h2, lib2, rest) ∧
      (∀ t, libFindT h2 lib2 t =
        match libFindT h lib t with
        | some q => some q
        | none => (rs.find? (fun r => r.title = t)).map zeroCount) ∧
      (∀ i, libFindI h2 lib2 i =
        match libFindI h lib i with
        | some q => some q
        | none => (rs.find? (fun r => r.id = i)).map zeroCount) ∧
      lib2.byID.map Prod.fst = lib.byID.map Prod.fst ++ rs.map Record.id ∧
      lib2.nextID = rs.foldl (fun m r => max m r.id) maxID + 1 := by
  intro rs
  induction rs with
  | nil =>
    intro h lib maxID rest hall hndT hndI hbT hbI
    refine ⟨h, { lib with nextID := maxID + 1 }, ?_, ?_, ?_, by simp, by simp⟩
    · simp only [List.length_nil, List.map_nil, List.flatten_nil, List.nil_append,
        restoreRecords]
    · intro t
      have hsame : libFindT h { lib with nextID := maxID + 1 } t = libFindT h lib t := rfl
      rw [hsame]
      cases hx : libFindT h lib t <;> simp [hx]
    · intro i
      have hsame : libFindI h { lib with nextID := maxID + 1 } i = libFindI h lib i := rfl
      rw [hsame]
      cases hx : libFindI h lib i <;> simp [hx]
  | cons r rs ih =>
    intro h lib maxID rest hall hndT hndI hbT hbI
    have hrok := hall r (List.mem_cons_self _ _)
    have hallr : ∀ x ∈ rs, recordOK x := fun x hx => hall x (List.mem_cons_of_mem _ hx)
    rw [List.map_cons] at hndT hndI
    have hfrT : alistGet r.title lib.byTitle = none := by
      rw [alistGet_eq_none_iff]
      intro hmem
      exact (List.disjoint_of_nodup_append hndT) hmem (List.mem_cons_self _ _)
    have hfrI : alistGet r.id lib.byID = none := by
      rw [alistGet_eq_none_iff]
      intro hmem
      exact (List.disjoint_of_nodup_append hndI) hmem (List.mem_cons_self _ _)
    have hmemT : r.title ∉ lib.byTitle.map Prod.fst := alistGet_eq_none_iff.mp hfrT
    have hmemI : r.id ∉ lib.byID.map Prod.fst := alistGet_eq_none_iff.mp hfrI
    have hndT2 : ((alistSet r.title h.next lib.byTitle).map Prod.fst ++
        rs.map Record.title).Nodup := by
      rw [keys_set_of_not_mem _ hmemT, List.append_assoc, List.singleton_append]
      exact hndT
    have hndI2 : ((alistSet r.id h.next lib.byID).map Prod.fst ++
        rs.map Record.id).Nodup := by
      rw [keys_set_of_not_mem _ hmemI, List.append_assoc, List.singleton_append]
      exact hndI
    have hbT2 : ∀ t a, alistGet t (alistSet r.title h.next lib.byTitle) = some a →
        a < h.next + 1 := by
      intro t a hta
      by_cases he : t = r.title
      · subst he
        rw [alistGet_set_self] at hta
        cases hta
        omega
      · rw [alistGet_set_ne _ _ (fun e => he e)] at hta
        have := hbT t a hta
        omega
    have hbI2 : ∀ i a, alistGet i (alistSet r.id h.next lib.byID) = some a →
        a < h.next + 1 := by
      intro i a hia
      by_cases he : i = r.id
      · subst he
        rw [alistGet_set_self] at hia
        cases hia
        omega
      · rw [alistGet_set_ne _ _ (fun e => he e)] at hia
        have := hbI i a hia
        omega
    obtain ⟨h2, lib2, heq, hT, hI, hkeys, hnext⟩ :=
      ih ⟨(h.next, zeroCount r) :: h.recs, h.next + 1⟩
        ⟨alistSet r.title h.next lib.byTitle, alistSet r.id h.next lib.byID, lib.nextID⟩
        (max maxID r.id) rest hallr hndT2 hndI2 hbT2 hbI2
    have hfindold : ∀ (a : Nat), a < h.next →
        Heap.find? ⟨(h.next, zeroCount r) :: h.recs, h.next + 1⟩ a = h.find? a := by
      intro a ha
      show alistGet a _ = _
      rw [alistGet_cons_ne _ _ (by omega)]
      rfl
    have hgetold : ∀ (a : Nat), a < h.next →
        Heap.get ⟨(h.next, zeroCount r) :: h.recs, h.next + 1⟩ a = h.get a := by
      intro a ha
      unfold Heap.get
      rw [hfindold a ha]
    have hstepT : ∀ t, libFindT ⟨(h.next, zeroCount r) :: h.recs, h.next + 1⟩
        ⟨alistSet r.title h.next lib.byTitle, alistSet r.id h.next lib.byID, lib.nextID⟩ t =
        match libFindT h lib t with
        | some q => some q
        | none => if r.title = t then some (zeroCount r) else none := by
      intro t
      by_cases he : t = r.title
      · subst he
        have hx : libFindT h lib r.title = none := by
          simp [libFindT, hfrT]
        rw [hx]
        have hg : Heap.get ⟨(h.next, zeroCount r) :: h.recs, h.next + 1⟩ h.next =
            zeroCount r := by
          simp [Heap.get, Heap.find?, alistGet_cons_self]
        simp [libFindT, alistGet_set_self, hg]
      · have hme : alistGet t (alistSet r.title h.next lib.byTitle) =
            alistGet t lib.byTitle := alistGet_set_ne _ _ (fun e => he e)
        show (alistGet t (alistSet r.title h.next lib.byTitle)).map _ = _
        rw [hme]
        cases hx : alistGet t lib.byTitle with
        | none =>
          have hx2 : libFindT h lib t = none := by
            simp [libFindT, hx]
          have hne2 : ¬ (r.title = t) := fun e => he e.symm
          rw [hx2]
          simp [if_neg hne2]
        | some a =>
          have hx2 : libFindT h lib t = some (h.get a) := by
            simp [libFindT, hx]
          rw [hx2]
          simp [hgetold a (hbT t a hx)]
    have hstepI : ∀ i, libFindI ⟨(h.next, zeroCount r) :: h.recs, h.next + 1⟩
        ⟨alistSet r.title h.next lib.byTitle, alistSet r.id h.next lib.byID, lib.nextID⟩ i =
        match libFindI h lib i with
        | some q => some q
        | none => if r.id = i then some (zeroCount r) else none := by
      intro i
      by_cases he : i = r.id
      · subst he
        have hx : libFindI h lib r.id = none := by
          simp [libFindI, hfrI]
        rw [hx]
        have hg : Heap.get ⟨(h.next, zeroCount r) :: h.recs, h.next + 1⟩ h.next =
            zeroCount r := by
          simp [Heap.get, Heap.find?, alistGet_cons_self]
        simp [libFindI, alistGet_set_self, hg]
      · have hme : alistGet i (alistSet r.id h.next lib.byID) =
            alistGet i lib.byID := alistGet_set_ne _ _ (fun e => he e)
        show (alistGet i (alistSet r.id h.next lib.byID)).map _ = _
        rw [hme]
        cases hx : alistGet i lib.byID with
        | none =>
          have hx2 : libFindI h lib i = none := by
            simp [libFindI, hx]
          have hne2 : ¬ (r.id = i) := fun e => he e.symm
          rw [hx2]
          simp [if_neg hne2]
        | some a =>
          have hx2 : libFindI h lib i = some (h.get a) := by
            simp [libFindI, hx]
          rw [hx2]
          simp [hgetold a (hbI i a hx)]
    refine ⟨h2, lib2, ?_, ?_, ?_, ?_, ?_⟩
    · have hinp : (((r :: rs).map Record.saveLine).flatten ++ rest) =
          r.saveLine ++ ((rs.map Record.saveLine).flatten ++ rest) := by
        simp
      rw [List.length_cons, hinp, restoreRecords, RestoreRecord_saveLine hrok]
      try simp only
      have hz1 : (zeroCount r).id = r.id := rfl
      have hz2 : (zeroCount r).title = r.title := rfl
      rw [hz1, hz2, hfrI, hfrT]
      try simp only
      simp only [Heap.alloc]
      exact heq
    · intro t
      rw [hT t, hstepT t]
      cases hx : libFindT h lib t with
      | some q => simp
      | none =>
        simp only
        by_cases he : r.title = t
        · rw [if_pos he]
          rw [List.find?_cons_of_pos _ (by simp [he])]
          simp
        · rw [if_neg he]
          rw [List.find?_cons_of_neg _ (by simp [he])]
    · intro i
      rw [hI i, hstepI i]
      cases hx : libFindI h lib i with
      | some q => simp
      | none =>
        simp only
        by_cases he : r.id = i
        · rw [if_pos he]
          rw [List.find?_cons_of_pos _ (by simp [he])]
          simp
        · rw [if_neg he]
          rw [List.find?_cons_of_neg _ (by simp [he])]
    · rw [hkeys]
      show (alistSet r.id h.next lib.byID).map Prod.fst ++ rs.map Record.id =
        lib.byID.map Prod.fst ++ (r :: rs).map Record.id
      rw [keys_set_of_not_mem _ hmemI, List.append_assoc, List.singleton_append,
        List.map_cons]
    · rw [hnext]
      rfl

theorem find?_eq_of_unique {α : Type} (p : α → Bool) : ∀ (l : List α) (x : α),
    x ∈ l → p x = true → (∀ y ∈ l, p y = true → y = x) → l.find? p = some x := by
  intro l
  induction l with
  | nil =>
    intro x hx
    cases hx
  | cons a as ih =>
    intro x hx hp huniq
    by_cases hpa : p a = true
    · rw [List.find?_cons_of_pos _ hpa]
      rw [huniq a (List.mem_cons_self _ _) hpa]
    · rw [List.find?_cons_of_neg _ (by simp [hpa])]
      rcases List.mem_cons.mp hx with rfl | hx2
      · exact absurd hp hpa
      · exact ih x hx2 hp (fun y hy hpy => huniq y (List.mem_cons_of_mem _ hy) hpy)

theorem restoreRecords_cons_space {c : Char} (hc : isSpaceGo c = true) (h : Heap)
    (lib : Library) (maxID : Int) (f : Nat) (l : List Char) :
    restoreRecords h lib maxID (f + 1) (c :: l) = restoreRecords h lib maxID (f + 1) l := by
  rw [restoreRecords, restoreRecords, RestoreRecord_cons_space hc]

/-- sv's library section parses back: RestoreLibrary on the saved text
succeeds, every lookup returns the original record with its membership
count reset, nextID lands one above the maximum restored id, and the
resulting state (over the empty catalog) is well-formed. -/
theorem restoreLibrary_save {s : S} (hwf : WF s) (rest : List Char) :
    ∃ h2 lib2 rest2,
      RestoreLibrary s.heap (librarySave s.heap s.lib ++ rest) = .ok (h2, lib2, rest2) ∧
      (rest2 = rest ∨ rest2 = '\n' :: rest) ∧
      (∀ t, libFindT h2 lib2 t = (libFindT s.heap s.lib t).map zeroCount) ∧
      (∀ i, libFindI h2 lib2 i = (libFindI s.heap s.lib i).map zeroCount) ∧
      lib2.nextID = maxIDOf lib2 + 1 ∧
      WF ⟨h2, lib2, NewCatalog⟩ := by
  have hperm := sortRecBy_perm titleLt (s.lib.byTitle.map (fun p => s.heap.get p.2))
  have hmem : ∀ q, q ∈ sortedRecords s.heap s.lib ↔
      ∃ p ∈ s.lib.byTitle, q = s.heap.get p.2 := by
    intro q
    unfold sortedRecords
    constructor
    · intro hq
      rcases List.mem_map.mp ((List.Perm.mem_iff hperm).mp hq) with ⟨p, hp, he⟩
      exact ⟨p, hp, he.symm⟩
    · rintro ⟨p, hp, he⟩
      refine (List.Perm.mem_iff hperm).mpr ?_
      rw [he]
      exact List.mem_map_of_mem _ hp
  have hentry : ∀ p ∈ s.lib.byTitle, alistGet p.1 s.lib.byTitle = some p.2 :=
    fun p hp => alistGet_of_mem_pair hp hwf.titleKeysNodup
  have hall : ∀ q ∈ sortedRecords s.heap s.lib, recordOK q := by
    intro q hq
    rcases (hmem q).mp hq with ⟨p, hp, he⟩
    have h3 := (wf_find_of_title hwf (hentry p hp)).2.2
    have := (hwf.recOK _ _ h3).1
    rw [he]
    exact this
  have hndTitles : ((sortedRecords s.heap s.lib).map Record.title).Nodup := by
    have hTmapEq : (s.lib.byTitle.map (fun p => s.heap.get p.2)).map Record.title =
        s.lib.byTitle.map Prod.fst := by
      rw [List.map_map]
      refine List.map_congr_left ?_
      intro p hp
      show (s.heap.get p.2).title = p.1
      exact (wf_find_of_title hwf (hentry p hp)).2.1
    have hp2 : ((sortedRecords s.heap s.lib).map Record.title).Perm
        (s.lib.byTitle.map Prod.fst) := by
      refine (List.Perm.map Record.title hperm).trans ?_
      rw [hTmapEq]
    exact (List.Perm.nodup_iff hp2).mpr hwf.titleKeysNodup
  have hndIds : ((sortedRecords s.heap s.lib).map Record.id).Nodup := by
    refine (List.Perm.nodup_iff (List.Perm.map Record.id hperm)).mpr ?_
    rw [List.map_map]
    refine List.Nodup.map_on ?_ (List.Nodup.of_map _ hwf.titleKeysNodup)
    intro x hx y hy hxy
    have hxy2 : (s.heap.get x.2).id = (s.heap.get y.2).id := hxy
    have hfx := wf_find_of_title hwf (hentry x hx)
    have hfy := wf_find_of_title hwf (hentry y hy)
    have h1 := hfx.2.2
    rw [hxy2] at h1
    rw [hfy.2.2] at h1
    injection h1 with h12
    have ht1 : x.1 = y.1 := by
      rw [← hfx.2.1, ← hfy.2.1, h12]
    exact Prod.ext ht1 h12.symm
  have hfindT : ∀ t, (sortedRecords s.heap s.lib).find? (fun q => q.title = t) =
      libFindT s.heap s.lib t := by
    intro t
    cases hx : alistGet t s.lib.byTitle with
    | some a =>
      have hxm := alistGet_mem hx
      have hq : s.heap.get a ∈ sortedRecords s.heap s.lib := (hmem _).mpr ⟨(t, a), hxm, rfl⟩
      have hqt : (s.heap.get a).title = t := (wf_find_of_title hwf hx).2.1
      have huniq : ∀ y ∈ sortedRecords s.heap s.lib,
          (fun (q : Record) => decide (q.title = t)) y = true → y = s.heap.get a := by
        intro y hy hpy
        rcases (hmem y).mp hy with ⟨p, hp, he⟩
        have hyt : y.title = t := by simpa using hpy
        have hp1 : p.1 = t := by
          rw [← hyt, he]
          exact ((wf_find_of_title hwf (hentry p hp)).2.1).symm
        have hxa : alistGet p.1 s.lib.byTitle = some p.2 := hentry p hp
        rw [hp1, hx] at hxa
        injection hxa with h2
        rw [he, h2]
      have hfe := find?_eq_of_unique _ (sortedRecords s.heap s.lib) (s.heap.get a) hq
        (by simp [hqt]) huniq
      rw [hfe]
      simp [libFindT, hx]
    | none =>
      have hfe : (sortedRecords s.heap s.lib).find? (fun q => q.title = t) = none := by
        rw [List.find?_eq_none]
        intro q hq
        rcases (hmem q).mp hq with ⟨p, hp, he⟩
        have hqt : q.title = p.1 := by
          rw [he]
          exact (wf_find_of_title hwf (hentry p hp)).2.1
        simp only [decide_eq_true_eq]
        intro he2
        rw [← he2, hqt] at hx
        rw [hentry p hp] at hx
        cases hx
      rw [hfe]
      simp [libFindT, hx]
  have hfindI : ∀ i, (sortedRecords s.heap s.lib).find? (fun q => q.id = i) =
      libFindI s.heap s.lib i := by
    intro i
    cases hx : alistGet i s.lib.byID with
    | some a =>
      have hfi := wf_find_of_id hwf hx
      have hxm := alistGet_mem hfi.2.2
      have hq : s.heap.get a ∈ sortedRecords s.heap s.lib :=
        (hmem _).mpr ⟨((s.heap.get a).title, a), hxm, rfl⟩
      have huniq : ∀ y ∈ sortedRecords s.heap s.lib,
          (fun (q : Record) => decide (q.id = i)) y = true → y = s.heap.get a := by
        intro y hy hpy
        rcases (hmem y).mp hy with ⟨p, hp, he⟩
        have hyi : y.id = i := by simpa using hpy
        have hfp := wf_find_of_title hwf (hentry p hp)
        have hbi : alistGet i s.lib.byID = some p.2 := by
          rw [← hyi, he]
          exact hfp.2.2
        rw [hx] at hbi
        injection hbi with h2
        rw [he, ← h2]
      have hfe := find?_eq_of_unique _ (sortedRecords s.heap s.lib) (s.heap.get a) hq
        (by simp [hfi.2.1]) huniq
      rw [hfe]
      simp [libFindI, hx]
    | none =>
      have hfe : (sortedRecords s.heap s.lib).find? (fun q => q.id = i) = none := by
        rw [List.find?_eq_none]
        intro q hq
        rcases (hmem q).mp hq with ⟨p, hp, he⟩
        have hfp := wf_find_of_title hwf (hentry p hp)
        simp only [decide_eq_true_eq]
        intro he2
        have hbi : alistGet i s.lib.byID = some p.2 := by
          rw [← he2, he]
          exact hfp.2.2
        rw [hx] at hbi
        cases hbi
      rw [hfe]
      simp [libFindI, hx]
  have hlen : (sortedRecords s.heap s.lib).length = s.lib.byTitle.length := by
    unfold sortedRecords
    rw [List.Perm.length_eq hperm, List.length_map]
  have hint : intStr ((s.lib.byTitle.length : Nat) : Int) =
      natToDigits s.lib.byTitle.length := by
    unfold intStr
    rw [if_neg (by omega)]
    simp
  have hinput : librarySave s.heap s.lib ++ rest =
      natToDigits s.lib.byTitle.length ++ '\n' ::
        (((sortedRecords s.heap s.lib).map Record.saveLine).flatten ++ rest) := by
    unfold librarySave
    rw [hint]
    simp [List.append_assoc]
  have hRL : RestoreLibrary s.heap (librarySave s.heap s.lib ++ rest) =
      restoreRecords s.heap NewLibrary 0 s.lib.byTitle.length
        ('\n' :: (((sortedRecords s.heap s.lib).map Record.saveLine).flatten ++ rest)) := by
    rw [hinput]
    unfold RestoreLibrary
    rw [ReadInt_digits (by decide)]
    try simp only
    rw [if_neg (by omega)]
    rw [show ((s.lib.byTitle.length : Int)).toNat = s.lib.byTitle.length from by simp]
  rcases hsr : sortedRecords s.heap s.lib with _ | ⟨r0, rs2⟩
  · have hlen0 : s.lib.byTitle.length = 0 := by
      rw [← hlen, hsr]
      rfl
    have hbt0 : s.lib.byTitle = [] := List.length_eq_zero.mp hlen0
    have hbi0 : s.lib.byID = [] := by
      cases hbid : s.lib.byID with
      | nil => rfl
      | cons p ps =>
        rcases p with ⟨k, v⟩
        have h1 : alistGet k s.lib.byID = some v := by
          rw [hbid]
          exact alistGet_cons_self _ _ _
        obtain ⟨r, _, _, hrt⟩ := hwf.idToTitle _ _ h1
        rw [hbt0] at hrt
        simp [alistGet] at hrt
    obtain ⟨h2, lib2, heq, hT, hI, hkeys, hnext⟩ :=
      restoreRecords_save [] s.heap NewLibrary 0 ('\n' :: rest) (by simp)
        (by simp [NewLibrary]) (by simp [NewLibrary])
        (by intro t a hx; simp [NewLibrary, alistGet] at hx)
        (by intro i a hx; simp [NewLibrary, alistGet] at hx)
    have hEQ : RestoreLibrary s.heap (librarySave s.heap s.lib ++ rest) =
        .ok (h2, lib2, '\n' :: rest) := by
      rw [hRL, hsr, hlen0]
      simpa using heq
    refine ⟨h2, lib2, '\n' :: rest, hEQ, Or.inr rfl, ?_, ?_, ?_,
      restoreLibrary_wf hwf.heapNodup hwf.heapBound hEQ⟩
    · intro t
      rw [hT t]
      simp [libFindT, NewLibrary, alistGet, hbt0]
    · intro i
      rw [hI i]
      simp [libFindI, NewLibrary, alistGet, hbi0]
    · have hb2 : lib2.byID = [] := by
        have hk : lib2.byID.map Prod.fst = [] := by
          simpa [NewLibrary] using hkeys
        exact List.map_eq_nil.mp hk
      rw [hnext, maxIDOf, hb2]
      rfl
  · have hlen1 : s.lib.byTitle.length = rs2.length + 1 := by
      rw [← hlen, hsr]
      rfl
    rw [hsr] at hall hndTitles hndIds
    obtain ⟨h2, lib2, heq, hT, hI, hkeys, hnext⟩ :=
      restoreRecords_save (r0 :: rs2) s.heap NewLibrary 0 rest hall
        (by simpa [NewLibrary] using hndTitles) (by simpa [NewLibrary] using hndIds)
        (by intro t a hx; simp [NewLibrary, alistGet] at hx)
        (by intro i a hx; simp [NewLibrary, alistGet] at hx)
    rw [List.length_cons] at heq
    have hEQ : RestoreLibrary s.heap (librarySave s.heap s.lib ++ rest) =
        .ok (h2, lib2, rest) := by
      rw [hRL, hsr, hlen1]
      rw [restoreRecords_cons_space (by decide)]
      exact heq
    refine ⟨h2, lib2, rest, hEQ, Or.inl rfl, ?_, ?_, ?_,
      restoreLibrary_wf hwf.heapNodup hwf.heapBound hEQ⟩
    · intro t
      have hnl : libFindT s.heap NewLibrary t = none := by
        simp [libFindT, NewLibrary, alistGet]
      have h3 := hT t
      rw [hnl] at h3
      simp only at h3
      rw [← hsr, hfindT t] at h3
      exact h3
    · intro i
      have hnl : libFindI s.heap NewLibrary i = none := by
        simp [libFindI, NewLibrary, alistGet]
      have h3 := hI i
      rw [hnl] at h3
      simp only at h3
      rw [← hsr, hfindI i] at h3
      exact h3
    · have hm1 : maxIDOf lib2 = (lib2.byID.map Prod.fst).foldl (fun m k => max m k) 0 := by
        unfold maxIDOf
        rw [List.foldl_map]
      rw [hnext, hm1, hkeys]
      simp [NewLibrary, List.foldl_map]

/-! ## The member loop parses a saved collection back -/

theorem restoreMembers_save (lib2 : Library) : ∀ (q : List (String × Int)) (h : Heap)
    (col : Collection) (rest : List Char),
    (∀ p ∈ q, ∃ a, alistGet p.1 lib2.byTitle = some a ∧ (h.find? a).isSome = true ∧
      (h.get a).id = p.2) →
    ((col.members.map Prod.fst ++ q.map Prod.snd).Nodup) →
    (∀ p ∈ q, ∀ c ∈ p.1.data, c ≠ '\n') →
    ∃ h3 col3,
      restoreMembers h lib2 col q.length
        ((q.map (fun p => p.1.data ++ ['\n'])).flatten ++ rest) = .ok (h3, col3, rest) ∧
      (∀ b, (h3.find? b).map coreOf = (h.find? b).map coreOf) ∧
      col3.name = col.name ∧
      (∀ i, (alistGet i col3.members).isSome =
        ((alistGet i col.members).isSome || decide (i ∈ q.map Prod.snd))) := by
  intro q
  induction q with
  | nil =>
    intro h col rest hres hnd htl
    refine ⟨h, col, ?_, fun b => rfl, rfl, ?_⟩
    · simp [restoreMembers]
    · intro i
      simp
  | cons p q ih =>
    intro h col rest hres hnd htl
    obtain ⟨a, hta, hfs, hid⟩ := hres p (List.mem_cons_self _ _)
    rw [List.map_cons] at hnd
    have hnm : p.2 ∉ col.members.map Prod.fst := by
      intro hmem2
      exact (List.disjoint_of_nodup_append hnd) hmem2 (List.mem_cons_self _ _)
    have hdup : alistGet (h.get a).id col.members = none := by
      rw [hid, alistGet_eq_none_iff]
      exact hnm
    have hrla : readLineAux
        (p.1.data ++ '\n' :: ((q.map (fun p => p.1.data ++ ['\n'])).flatten ++ rest)) =
        (p.1.data, (q.map (fun p => p.1.data ++ ['\n'])).flatten ++ rest) :=
      readLineAux_append _ (htl p (List.mem_cons_self _ _)) _
    have hres2 : ∀ p2 ∈ q, ∃ a2, alistGet p2.1 lib2.byTitle = some a2 ∧
        ((h.write a { h.get a with
          numCollections := (h.get a).numCollections + 1 }).find? a2).isSome = true ∧
        ((h.write a { h.get a with
          numCollections := (h.get a).numCollections + 1 }).get a2).id = p2.2 := by
      intro p2 hp2
      obtain ⟨a2, h1, h2, h3⟩ := hres p2 (List.mem_cons_of_mem _ hp2)
      by_cases he : a2 = a
      · subst he
        refine ⟨a2, h1, ?_, ?_⟩
        · rw [Heap.find?_write_self]
          rfl
        · rw [Heap.get_write_self]
          exact h3
      · refine ⟨a2, h1, ?_, ?_⟩
        · rw [Heap.find?_write_ne _ _ he]
          exact h2
        · rw [Heap.get_write_ne _ _ he]
          exact h3
    have hnd2 : (({ col with members := alistSet (h.get a).id a col.members }).members.map
        Prod.fst ++ q.map Prod.snd).Nodup := by
      show ((alistSet (h.get a).id a col.members).map Prod.fst ++ q.map Prod.snd).Nodup
      rw [hid, keys_set_of_not_mem _ hnm, List.append_assoc, List.singleton_append]
      exact hnd
    have htl2 : ∀ p2 ∈ q, ∀ c ∈ p2.1.data, c ≠ '\n' :=
      fun p2 hp2 => htl p2 (List.mem_cons_of_mem _ hp2)
    obtain ⟨h3, col3, heq, hcore, hname, hmems⟩ :=
      ih (h.write a { h.get a with numCollections := (h.get a).numCollections + 1 })
        { col with members := alistSet (h.get a).id a col.members } rest hres2 hnd2 htl2
    refine ⟨h3, col3, ?_, ?_, hname, ?_⟩
    · have hinp : (((p :: q).map (fun p => p.1.data ++ ['\n'])).flatten ++ rest) =
          p.1.data ++ '\n' :: ((q.map (fun p => p.1.data ++ ['\n'])).flatten ++ rest) := by
        simp [List.append_assoc]
      rw [List.length_cons, hinp, restoreMembers]
      simp only [ReadLine]
      rw [hrla]
      try simp only
      have hta2 : alistGet (String.mk p.1.data) lib2.byTitle = some a := hta
      rw [hta2]
      try simp only
      rw [hdup]
      try simp only
      exact heq
    · intro b
      rw [hcore b]
      by_cases he : b = a
      · subst he
        rw [Heap.find?_write_self]
        cases hf : h.find? b with
        | none =>
          rw [hf] at hfs
          simp at hfs
        | some r0 =>
          have hg : h.get b = r0 := by
            unfold Heap.get
            rw [hf]
            rfl
          rw [hg]
          rfl
      · rw [Heap.find?_write_ne _ _ he]
    · intro i
      rw [hmems i]
      show ((alistGet i (alistSet (h.get a).id a col.members)).isSome ||
          decide (i ∈ q.map Prod.snd)) =
        ((alistGet i col.members).isSome || decide (i ∈ (p :: q).map Prod.snd))
      rw [hid]
      by_cases he : i = p.2
      · subst he
        rw [alistGet_set_self]
        simp
      · rw [alistGet_set_ne _ _ (fun e => he e)]
        have hbe : (i == p.2) = false := by
          simp [he]
        simp [List.mem_cons, hbe]

/-- a saved collection block parses back against any library that resolves
its member titles: the parsed collection has the same name and exactly the
saved member ids, and the heap changes only in membership counts. -/
theorem restoreCollection_save {h : Heap} {lib2 : Library} {h0 : Heap} {col : Collection}
    {rest : List Char} (hname : wordOK col.name = true)
    (hres : ∀ p ∈ memberPairs h0 col, ∃ a, alistGet p.1 lib2.byTitle = some a ∧
      (h.find? a).isSome = true ∧ (h.get a).id = p.2)
    (hnd : ((memberPairs h0 col).map Prod.snd).Nodup)
    (htl : ∀ p ∈ memberPairs h0 col, ∀ c ∈ p.1.data, c ≠ '\n') :
    ∃ h3 col3,
      RestoreCollection h lib2 (collectionSave h0 col ++ rest) = .ok (h3, col3, rest) ∧
      (∀ b, (h3.find? b).map coreOf = (h.find? b).map coreOf) ∧
      col3.name = col.name ∧
      (∀ i, (alistGet i col3.members).isSome =
        decide (i ∈ (memberPairs h0 col).map Prod.snd)) := by
  have hml : (memberPairs h0 col).map (fun p => p.1.data ++ ['\n']) =
      (sortRecBy titleLt (col.members.map (fun p => h0.get p.2))).map
        (fun r => r.title.data ++ ['\n']) := by
    unfold memberPairs
    rw [List.map_map]
    rfl
  have hlen2 : (memberPairs h0 col).length = col.members.length := by
    unfold memberPairs
    rw [List.length_map,
      List.Perm.length_eq (sortRecBy_perm titleLt (col.members.map (fun p => h0.get p.2))),
      List.length_map]
  have hint : intStr ((col.members.length : Nat) : Int) =
      natToDigits col.members.length := by
    unfold intStr
    rw [if_neg (by omega)]
    simp
  have hinput : collectionSave h0 col ++ rest =
      col.name.data ++ ' ' :: (natToDigits col.members.length ++ '\n' ::
        (((memberPairs h0 col).map (fun p => p.1.data ++ ['\n'])).flatten ++ rest)) := by
    unfold collectionSave
    rw [hml, hint]
    simp [List.append_assoc]
  obtain ⟨h3, col3, heq, hcore, hname3, hmems⟩ :=
    restoreMembers_save lib2 (memberPairs h0 col) h (NewCollection col.name) rest hres
      (by simpa [NewCollection] using hnd) htl
  refine ⟨h3, col3, ?_, hcore, hname3, ?_⟩
  · rw [hinput]
    unfold RestoreCollection
    rw [ReadWord_exact hname (by decide)]
    try simp only
    rw [if_neg (by simp [wordOK_not_isEmpty hname])]
    rw [ReadInt_cons_space (by decide), ReadInt_digits (by decide)]
    try simp only
    rw [if_neg (by omega)]
    rw [show ((col.members.length : Int)).toNat = col.members.length from by simp]
    have hRL1 : ReadLine ('\n' ::
        (((memberPairs h0 col).map (fun p => p.1.data ++ ['\n'])).flatten ++ rest)) =
        (⟨[]⟩, ((memberPairs h0 col).map (fun p => p.1.data ++ ['\n'])).flatten ++ rest) := by
      simp [ReadLine, readLineAux]
    rw [hRL1]
    try simp only
    rw [← hlen2]
    exact heq
  · intro i
    rw [hmems i]
    simp [NewCollection, alistGet]

theorem RestoreCatalog_cons_space {c : Char} (hc : isSpaceGo c = true)
    (h : Heap) (lib : Library) (l : List Char) :
    RestoreCatalog h lib (c :: l) = RestoreCatalog h lib l := by
  unfold RestoreCatalog
  rw [ReadInt_cons_space hc]

theorem restoreColls_cons_space {c : Char} (hc : isSpaceGo c = true) (h : Heap)
    (lib : Library) (cat : Catalog) (f : Nat) (l : List Char) :
    restoreColls h lib cat (f + 1) (c :: l) = restoreColls h lib cat (f + 1) l := by
  rw [restoreColls, restoreColls, RestoreCollection_cons_space hc]

/-- the collection loop of RestoreCatalog parses a saved catalog section
back: every saved collection reappears under its own name with exactly its
saved member ids, and the heap changes only in membership counts. -/
theorem restoreColls_save (lib2 : Library) (h2ref h0 : Heap) :
    ∀ (cl : List Collection) (h : Heap) (cacc : Catalog) (rest : List Char),
    (∀ b, (h.find? b).map coreOf = (h2ref.find? b).map coreOf) →
    (∀ col ∈ cl,
      wordOK col.name = true ∧
      (∀ p ∈ memberPairs h0 col, ∃ a, alistGet p.1 lib2.byTitle = some a ∧
        (h2ref.find? a).isSome = true ∧ (h2ref.get a).id = p.2) ∧
      ((memberPairs h0 col).map Prod.snd).Nodup ∧
      (∀ p ∈ memberPairs h0 col, ∀ c ∈ p.1.data, c ≠ '\n')) →
    ((cacc.collections.map Prod.fst ++ cl.map Collection.name).Nodup) →
    ∃ h4 cat4,
      restoreColls h lib2 cacc cl.length ((cl.map (collectionSave h0)).flatten ++ rest) =
        .ok (h4, cat4, rest) ∧
      (∀ b, (h4.find? b).map coreOf = (h2ref.find? b).map coreOf) ∧
      (∀ n, (alistGet n cat4.collections).isSome =
        ((alistGet n cacc.collections).isSome || decide (n ∈ cl.map Collection.name))) ∧
      (∀ n col0, alistGet n cat4.collections = some col0 →
        alistGet n cacc.collections = some col0 ∨
        ∃ colS, colS ∈ cl ∧ colS.name = n ∧
          (∀ i, (alistGet i col0.members).isSome =
            decide (i ∈ (memberPairs h0 colS).map Prod.snd))) := by
  intro cl
  induction cl with
  | nil =>
    intro h cacc rest hagree hset hnames
    refine ⟨h, cacc, by simp [restoreColls], hagree, by simp, ?_⟩
    intro n col0 hx
    exact Or.inl hx
  | cons col cl ih =>
    intro h cacc rest hagree hset hnames
    obtain ⟨hw, hres2ref, hndcol, htlcol⟩ := hset col (List.mem_cons_self _ _)
    have hres : ∀ p ∈ memberPairs h0 col, ∃ a, alistGet p.1 lib2.byTitle = some a ∧
        (h.find? a).isSome = true ∧ (h.get a).id = p.2 := by
      intro p hp
      obtain ⟨a, h1, h2, h3⟩ := hres2ref p hp
      have hag := hagree a
      cases h2x : h2ref.find? a with
      | none =>
        rw [h2x] at h2
        simp at h2
      | some r =>
        rw [h2x] at hag
        cases hhx : h.find? a with
        | none =>
          rw [hhx] at hag
          simp at hag
        | some r2 =>
          rw [hhx] at hag
          have hag2 : coreOf r2 = coreOf r := by
            simpa using hag
          refine ⟨a, h1, by simp [hhx], ?_⟩
          have hga : h.get a = r2 := by
            unfold Heap.get
            rw [hhx]
            rfl
          have hgb : h2ref.get a = r := by
            unfold Heap.get
            rw [h2x]
            rfl
          rw [hga]
          have hidq : r2.id = r.id := congrArg (fun q => q.1) hag2
          rw [hidq, ← hgb]
          exact h3
    obtain ⟨h3, col3, heq3, hcore3, hname3, hmems3⟩ :=
      restoreCollection_save hw hres hndcol htlcol
    rw [List.map_cons] at hnames
    have hfr : alistGet col3.name cacc.collections = none := by
      rw [hname3, alistGet_eq_none_iff]
      intro hmem2
      exact (List.disjoint_of_nodup_append hnames) hmem2 (List.mem_cons_self _ _)
    have hnames2 : ((alistSet col3.name col3 cacc.collections).map Prod.fst ++
        cl.map Collection.name).Nodup := by
      rw [keys_set_of_not_mem _ (alistGet_eq_none_iff.mp hfr), List.append_assoc,
        List.singleton_append, hname3]
      exact hnames
    have hagree2 : ∀ b, (h3.find? b).map coreOf = (h2ref.find? b).map coreOf := by
      intro b
      rw [hcore3 b, hagree b]
    have hset2 : ∀ c2 ∈ cl,
        wordOK c2.name = true ∧
        (∀ p ∈ memberPairs h0 c2, ∃ a, alistGet p.1 lib2.byTitle = some a ∧
          (h2ref.find? a).isSome = true ∧ (h2ref.get a).id = p.2) ∧
        ((memberPairs h0 c2).map Prod.snd).Nodup ∧
        (∀ p ∈ memberPairs h0 c2, ∀ c ∈ p.1.data, c ≠ '\n') :=
      fun c2 hc2 => hset c2 (List.mem_cons_of_mem _ hc2)
    obtain ⟨h4, cat4, heq4, hagree4, hsome4, hcontent4⟩ :=
      ih h3 ⟨alistSet col3.name col3 cacc.collections⟩ rest hagree2 hset2 hnames2
    refine ⟨h4, cat4, ?_, hagree4, ?_, ?_⟩
    · have hinp : (((col :: cl).map (collectionSave h0)).flatten ++ rest) =
          collectionSave h0 col ++ ((cl.map (collectionSave h0)).flatten ++ rest) := by
        simp [List.append_assoc]
      rw [List.length_cons, hinp, restoreColls, heq3]
      try simp only
      rw [hfr]
      exact heq4
    · intro n
      rw [hsome4 n]
      show ((alistGet n (alistSet col3.name col3 cacc.collections)).isSome ||
          decide (n ∈ cl.map Collection.name)) =
        ((alistGet n cacc.collections).isSome || decide (n ∈ (col :: cl).map Collection.name))
      rw [List.map_cons, hname3]
      by_cases he : n = col.name
      · subst he
        rw [alistGet_set_self]
        simp
      · rw [alistGet_set_ne _ _ (fun e => he e)]
        have hbe : (n == col.name) = false := by
          simp [he]
        simp [List.mem_cons, hbe, he]
    · intro n col0 hx
      rcases hcontent4 n col0 hx with hc1 | hc1
      · by_cases he : n = col3.name
        · subst he
          rw [alistGet_set_self] at hc1
          injection hc1 with hc2
          refine Or.inr ⟨col, List.mem_cons_self _ _, hname3.symm, ?_⟩
          intro i
          rw [← hc2]
          exact hmems3 i
        · rw [alistGet_set_ne _ _ he] at hc1
          exact Or.inl hc1
      · rcases hc1 with ⟨colS, hmem, hn, hm⟩
        exact Or.inr ⟨colS, List.mem_cons_of_mem _ hmem, hn, hm⟩

theorem mem_memberPairs {h0 : Heap} {col : Collection} {q : String × Int} :
    q ∈ memberPairs h0 col ↔
      ∃ m ∈ col.members, q = ((h0.get m.2).title, (h0.get m.2).id) := by
  unfold memberPairs
  constructor
  · intro hq
    rcases List.mem_map.mp hq with ⟨r, hr, he⟩
    rcases List.mem_map.mp ((List.Perm.mem_iff (sortRecBy_perm _ _)).mp hr) with ⟨m, hm, he2⟩
    refine ⟨m, hm, ?_⟩
    rw [← he, ← he2]
  · rintro ⟨m, hm, he⟩
    refine List.mem_map.mpr ⟨h0.get m.2, ?_, ?_⟩
    · exact (List.Perm.mem_iff (sortRecBy_perm _ _)).mpr (List.mem_map_of_mem _ hm)
    · rw [he]

/-- the id multiset written for a collection is exactly its member key set. -/
theorem memberPairs_ids {s : S} (hwf : WF s) {n : String} {col : Collection}
    (hn : alistGet n s.cat.collections = some col) (i : Int) :
    decide (i ∈ (memberPairs s.heap col).map Prod.snd) = (alistGet i col.members).isSome := by
  have hcolOK := hwf.colOK n col hn
  have hiff : i ∈ (memberPairs s.heap col).map Prod.snd ↔ i ∈ col.members.map Prod.fst := by
    constructor
    · intro hi
      rcases List.mem_map.mp hi with ⟨q, hq, he⟩
      rcases mem_memberPairs.mp hq with ⟨m, hm, he2⟩
      have hbyid := hcolOK.2.2.2 m.1 m.2 (alistGet_of_mem_pair hm hcolOK.2.2.1)
      have hid := (wf_find_of_id hwf hbyid).2.1
      have hieq : i = m.1 := by
        rw [← he, he2]
        exact hid
      rw [hieq]
      exact List.mem_map_of_mem _ hm
    · intro hi
      rcases List.mem_map.mp hi with ⟨m, hm, he⟩
      have hbyid := hcolOK.2.2.2 m.1 m.2 (alistGet_of_mem_pair hm hcolOK.2.2.1)
      have hid := (wf_find_of_id hwf hbyid).2.1
      refine List.mem_map.mpr ⟨((s.heap.get m.2).title, (s.heap.get m.2).id),
        mem_memberPairs.mpr ⟨m, hm, rfl⟩, ?_⟩
      rw [← he]
      exact hid
  cases hy : (alistGet i col.members).isSome with
  | false =>
    have hni : i ∉ col.members.map Prod.fst := by
      intro hmem
      have ht2 := alistGet_isSome_iff.mpr hmem
      rw [hy] at ht2
      cases ht2
    simp [hiff, hni]
  | true =>
    have hm2 : i ∈ col.members.map Prod.fst := alistGet_isSome_iff.mp hy
    simp [hiff, hm2]

/-- the per-collection facts the collection loop needs, for every collection
of a well-formed catalog run against the freshly restored library. -/
theorem catalog_col_facts {s : S} (hwf : WF s) {h2 : Heap} {lib2 : Library}
    (hT : ∀ t, libFindT h2 lib2 t = (libFindT s.heap s.lib t).map zeroCount)
    (hwf2 : WF ⟨h2, lib2, NewCatalog⟩) :
    ∀ col ∈ sortCols (s.cat.collections.map Prod.snd),
      wordOK col.name = true ∧
      (∀ p ∈ memberPairs s.heap col, ∃ a, alistGet p.1 lib2.byTitle = some a ∧
        (h2.find? a).isSome = true ∧ (h2.get a).id = p.2) ∧
      ((memberPairs s.heap col).map Prod.snd).Nodup ∧
      (∀ p ∈ memberPairs s.heap col, ∀ c ∈ p.1.data, c ≠ '\n') := by
  intro col hcol
  rcases List.mem_map.mp ((List.Perm.mem_iff (sortCols_perm _)).mp hcol) with ⟨pr, hpr, hecol⟩
  have hn : alistGet pr.1 s.cat.collections = some col := by
    rw [← hecol]
    exact alistGet_of_mem_pair hpr hwf.catKeysNodup
  have hcolOK := hwf.colOK pr.1 col hn
  have hwname : wordOK col.name = true := by
    rw [hcolOK.1]
    exact hcolOK.2.1
  refine ⟨hwname, ?_, ?_, ?_⟩
  · intro p hp
    rcases mem_memberPairs.mp hp with ⟨m, hm, he⟩
    have hbyid := hcolOK.2.2.2 m.1 m.2 (alistGet_of_mem_pair hm hcolOK.2.2.1)
    have hfid := wf_find_of_id hwf hbyid
    have hTt := hT (s.heap.get m.2).title
    have hsrc : libFindT s.heap s.lib (s.heap.get m.2).title = some (s.heap.get m.2) := by
      simp [libFindT, hfid.2.2]
    rw [hsrc] at hTt
    unfold libFindT at hTt
    cases hx : alistGet (s.heap.get m.2).title lib2.byTitle with
    | none =>
      rw [hx] at hTt
      simp at hTt
    | some a2 =>
      rw [hx] at hTt
      have hga : h2.get a2 = zeroCount (s.heap.get m.2) := by
        simpa using hTt
      refine ⟨a2, by rw [he]; exact hx, ?_, ?_⟩
      · obtain ⟨r, hrf, _, _⟩ := hwf2.titleToId _ _ hx
        have hr2 : h2.find? a2 = some r := hrf
        rw [hr2]
        rfl
      · rw [he]
        show (h2.get a2).id = (s.heap.get m.2).id
        rw [hga]
        rfl
  · have hperm2 : ((memberPairs s.heap col).map Prod.snd).Perm
        (col.members.map (fun m => (s.heap.get m.2).id)) := by
      unfold memberPairs
      rw [List.map_map]
      refine (List.Perm.map _ (sortRecBy_perm _ _)).trans ?_
      rw [List.map_map]
      exact List.Perm.refl _
    have heq2 : col.members.map (fun m => (s.heap.get m.2).id) =
        col.members.map Prod.fst := by
      refine List.map_congr_left ?_
      intro m hm
      have hbyid := hcolOK.2.2.2 m.1 m.2 (alistGet_of_mem_pair hm hcolOK.2.2.1)
      exact (wf_find_of_id hwf hbyid).2.1
    have hperm3 : ((memberPairs s.heap col).map Prod.snd).Perm
        (col.members.map Prod.fst) := hperm2.trans (heq2 ▸ List.Perm.refl _)
    exact (List.Perm.nodup_iff hperm3).mpr hcolOK.2.2.1
  · intro p hp c hc
    rcases mem_memberPairs.mp hp with ⟨m, hm, he⟩
    have hbyid := hcolOK.2.2.2 m.1 m.2 (alistGet_of_mem_pair hm hcolOK.2.2.1)
    have hrok := (hwf.recOK _ _ hbyid).1
    obtain ⟨c0, cs, hdt, _, hnl⟩ := titleOK_chars hrok.2.2.2.2
    have hpt : p.1 = (s.heap.get m.2).title := by
      rw [he]
    rw [hpt] at hc
    exact hnl c hc

theorem get_core_agree {h4 h2 : Heap}
    (hagree : ∀ b, (h4.find? b).map coreOf = (h2.find? b).map coreOf) :
    ∀ a, coreOf (h4.get a) = coreOf (h2.get a) := by
  intro a
  have hc := hagree a
  cases hx : h2.find? a with
  | none =>
    rw [hx] at hc
    cases hy : h4.find? a with
    | none =>
      unfold Heap.get
      rw [hx, hy]
    | some r2 =>
      rw [hy] at hc
      simp at hc
  | some r =>
    rw [hx] at hc
    cases hy : h4.find? a with
    | none =>
      rw [hy] at hc
      simp at hc
    | some r2 =>
      rw [hy] at hc
      have hco : coreOf r2 = coreOf r := by
        simpa using hc
      unfold Heap.get
      rw [hx, hy]
      exact hco

/-- assembling the round-trip conclusions from the library-phase lookup
equations and the collection-loop output. -/
theorem roundtrip_assemble {s : S} (hwf : WF s) {h2 h4 : Heap} {lib2 : Library}
    {cat4 : Catalog}
    (hT : ∀ t, libFindT h2 lib2 t = (libFindT s.heap s.lib t).map zeroCount)
    (hI : ∀ i, libFindI h2 lib2 i = (libFindI s.heap s.lib i).map zeroCount)
    (hagree4 : ∀ b, (h4.find? b).map coreOf = (h2.find? b).map coreOf)
    (hsome4 : ∀ n, (alistGet n cat4.collections).isSome =
      ((alistGet n NewCatalog.collections).isSome ||
        decide (n ∈ (sortCols (s.cat.collections.map Prod.snd)).map Collection.name)))
    (hcontent4 : ∀ n col0, alistGet n cat4.collections = some col0 →
      alistGet n NewCatalog.collections = some col0 ∨
      ∃ colS, colS ∈ sortCols (s.cat.collections.map Prod.snd) ∧ colS.name = n ∧
        (∀ i, (alistGet i col0.members).isSome =
          decide (i ∈ (memberPairs s.heap colS).map Prod.snd))) :
    (∀ t, (libFindT h4 lib2 t).map coreOf = (libFindT s.heap s.lib t).map coreOf) ∧
    (∀ i, (libFindI h4 lib2 i).map coreOf = (libFindI s.heap s.lib i).map coreOf) ∧
    (∀ n, hasColl cat4 n = hasColl s.cat n) ∧
    (∀ n i, memberIn cat4 n i = memberIn s.cat n i) := by
  have hHC : ∀ n, hasColl cat4 n = hasColl s.cat n := by
    intro n
    unfold hasColl
    rw [hsome4 n]
    have h0 : (alistGet n NewCatalog.collections).isSome = false := by
      simp [NewCatalog, alistGet]
    rw [h0, Bool.false_or]
    have hiff : n ∈ (sortCols (s.cat.collections.map Prod.snd)).map Collection.name ↔
        n ∈ s.cat.collections.map Prod.fst := by
      constructor
      · intro hn2
        rcases List.mem_map.mp hn2 with ⟨c2, hc2, he⟩
        rcases List.mem_map.mp ((List.Perm.mem_iff (sortCols_perm _)).mp hc2)
          with ⟨pr, hpr, he2⟩
        have hnm := (hwf.colOK pr.1 pr.2 (alistGet_of_mem_pair hpr hwf.catKeysNodup)).1
        have hpn : pr.1 = n := by
          rw [← hnm, he2, he]
        rw [← hpn]
        exact List.mem_map_of_mem _ hpr
      · intro hn2
        rcases List.mem_map.mp hn2 with ⟨pr, hpr, he⟩
        have hnm := (hwf.colOK pr.1 pr.2 (alistGet_of_mem_pair hpr hwf.catKeysNodup)).1
        refine List.mem_map.mpr ⟨pr.2,
          (List.Perm.mem_iff (sortCols_perm _)).mpr (List.mem_map_of_mem _ hpr), ?_⟩
        rw [hnm, he]
    cases hy : (alistGet n s.cat.collections).isSome with
    | false =>
      have hni : n ∉ s.cat.collections.map Prod.fst := by
        intro hmem
        have ht2 := alistGet_isSome_iff.mpr hmem
        rw [hy] at ht2
        cases ht2
      simp [hiff, hni]
    | true =>
      have hm2 : n ∈ s.cat.collections.map Prod.fst := alistGet_isSome_iff.mp hy
      simp [hiff, hm2]
  refine ⟨?_, ?_, hHC, ?_⟩
  · intro t
    have hTt := hT t
    unfold libFindT at hTt ⊢
    cases hx : alistGet t lib2.byTitle with
    | none =>
      rw [hx] at hTt
      cases hz : alistGet t s.lib.byTitle with
      | none =>
        rfl
      | some a0 =>
        rw [hz] at hTt
        simp at hTt
    | some a2 =>
      rw [hx] at hTt
      cases hz : alistGet t s.lib.byTitle with
      | none =>
        rw [hz] at hTt
        simp at hTt
      | some a0 =>
        rw [hz] at hTt
        have hga : h2.get a2 = zeroCount (s.heap.get a0) := by
          simpa using hTt
        have hfin : coreOf (h4.get a2) = coreOf (s.heap.get a0) := by
          rw [get_core_agree hagree4 a2, hga]
          rfl
        simp [hfin]
  · intro i
    have hIt := hI i
    unfold libFindI at hIt ⊢
    cases hx : alistGet i lib2.byID with
    | none =>
      rw [hx] at hIt
      cases hz : alistGet i s.lib.byID with
      | none =>
        rfl
      | some a0 =>
        rw [hz] at hIt
        simp at hIt
    | some a2 =>
      rw [hx] at hIt
      cases hz : alistGet i s.lib.byID with
      | none =>
        rw [hz] at hIt
        simp at hIt
      | some a0 =>
        rw [hz] at hIt
        have hga : h2.get a2 = zeroCount (s.heap.get a0) := by
          simpa using hIt
        have hfin : coreOf (h4.get a2) = coreOf (s.heap.get a0) := by
          rw [get_core_agree hagree4 a2, hga]
          rfl
        simp [hfin]
  · intro n i
    unfold memberIn
    cases hx : alistGet n cat4.collections with
    | none =>
      cases hz : alistGet n s.cat.collections with
      | none => rfl
      | some colZ =>
        have hcc := hHC n
        unfold hasColl at hcc
        rw [hx, hz] at hcc
        simp at hcc
    | some col0 =>
      rcases hcontent4 n col0 hx with hc1 | hc1
      · simp [NewCatalog, alistGet] at hc1
      · rcases hc1 with ⟨colS, hmemS, hnameS, hmS⟩
        rcases List.mem_map.mp ((List.Perm.mem_iff (sortCols_perm _)).mp hmemS)
          with ⟨pr, hpr, he2⟩
        have hnm := (hwf.colOK pr.1 pr.2 (alistGet_of_mem_pair hpr hwf.catKeysNodup)).1
        have hpr1 : pr.1 = n := by
          rw [← hnm, he2, hnameS]
        have hzs : alistGet n s.cat.collections = some colS := by
          have hlook := alistGet_of_mem_pair hpr hwf.catKeysNodup
          rw [he2] at hlook
          rw [← hpr1]
          exact hlook
        rw [hzs]
        show (alistGet i col0.members).isSome = (alistGet i colS.members).isSome
        rw [hmS i]
        exact memberPairs_ids hwf hzs i

/-- C1: from every reachable state, saving with sv (Library.Save then
Catalog.Save) and restoring with rA (RestoreLibrary then RestoreCatalog)
succeeds and reproduces the same data: record lookups by title and by id
return records with the same id, medium, rating and title; the restored
nextID is the maximum restored id plus one (so 1 for an empty library);
and the restored catalog has the same collection names with the same
membership sets. -/
theorem C1_save_restore_roundtrip {s : S} (hr : Reachable s) :
    ∃ u : S, restoreAllOp s (saveAll s.heap s.lib s.cat) = (u, .ok ()) ∧
      (∀ t, (libFindT u.heap u.lib t).map coreOf = (libFindT s.heap s.lib t).map coreOf) ∧
      (∀ i, (libFindI u.heap u.lib i).map coreOf = (libFindI s.heap s.lib i).map coreOf) ∧
      u.lib.nextID = maxIDOf u.lib + 1 ∧
      (∀ n, hasColl u.cat n = hasColl s.cat n) ∧
      (∀ n i, memberIn u.cat n i = memberIn s.cat n i) := by
  have hwf := reachable_wf hr
  obtain ⟨h2, lib2, rest2, hRL, hrest2, hT, hI, hnext, hwf2⟩ :=
    restoreLibrary_save hwf (catalogSave s.heap s.cat)
  have hcllen : (sortCols (s.cat.collections.map Prod.snd)).length =
      s.cat.collections.length := by
    rw [List.Perm.length_eq (sortCols_perm _), List.length_map]
  have hintC : intStr ((s.cat.collections.length : Nat) : Int) =
      natToDigits s.cat.collections.length := by
    unfold intStr
    rw [if_neg (by omega)]
    simp
  have hcs : catalogSave s.heap s.cat = natToDigits s.cat.collections.length ++ '\n' ::
      ((sortCols (s.cat.collections.map Prod.snd)).map (collectionSave s.heap)).flatten := by
    unfold catalogSave
    rw [hintC]
  have hRC : RestoreCatalog h2 lib2 (catalogSave s.heap s.cat) =
      restoreColls h2 lib2 NewCatalog s.cat.collections.length
        ('\n' :: ((sortCols (s.cat.collections.map Prod.snd)).map
          (collectionSave s.heap)).flatten) := by
    rw [hcs]
    unfold RestoreCatalog
    rw [ReadInt_digits (by decide)]
    try simp only
    rw [if_neg (by omega)]
    rw [show ((s.cat.collections.length : Int)).toNat = s.cat.collections.length
      from by simp]
  have hfacts := catalog_col_facts hwf hT hwf2
  have hnamesOK : ((NewCatalog.collections.map Prod.fst) ++
      (sortCols (s.cat.collections.map Prod.snd)).map Collection.name).Nodup := by
    have hpc : ((sortCols (s.cat.collections.map Prod.snd)).map Collection.name).Perm
        (s.cat.collections.map Prod.fst) := by
      refine (List.Perm.map _ (sortCols_perm _)).trans ?_
      rw [List.map_map]
      have he2 : s.cat.collections.map (Collection.name ∘ Prod.snd) =
          s.cat.collections.map Prod.fst := by
        refine List.map_congr_left ?_
        intro pr hpr
        show pr.2.name = pr.1
        exact (hwf.colOK pr.1 pr.2 (alistGet_of_mem_pair hpr hwf.catKeysNodup)).1
      rw [he2]
    show (([] : List String) ++ _).Nodup
    rw [List.nil_append]
    exact (List.Perm.nodup_iff hpc).mpr hwf.catKeysNodup
  rcases hclc : sortCols (s.cat.collections.map Prod.snd) with _ | ⟨c0, cl2⟩
  · rw [hclc] at hfacts hnamesOK hcllen
    have hlen0 : s.cat.collections.length = 0 := by
      rw [← hcllen]
      rfl
    obtain ⟨h4, cat4, heq4, hagree4, hsome4, hcontent4⟩ :=
      restoreColls_save lib2 h2 s.heap [] h2 NewCatalog ['\n'] (fun b => rfl) hfacts
        hnamesOK
    have hRC2 : RestoreCatalog h2 lib2 (catalogSave s.heap s.cat) =
        .ok (h4, cat4, ['\n']) := by
      rw [hRC, hclc, hlen0]
      simpa using heq4
    have hRC3 : RestoreCatalog h2 lib2 rest2 = .ok (h4, cat4, ['\n']) := by
      rcases hrest2 with hr2 | hr2
      · rw [hr2]
        exact hRC2
      · rw [hr2, RestoreCatalog_cons_space (by decide)]
        exact hRC2
    have hmain : restoreAllOp s (saveAll s.heap s.lib s.cat) =
        (⟨h4, lib2, cat4⟩, .ok ()) := by
      unfold restoreAllOp saveAll
      rw [hRL]
      try simp only
      rw [hRC3]
    rw [← hclc] at hsome4 hcontent4
    obtain ⟨hT4, hI4, hHC, hMI⟩ := roundtrip_assemble hwf hT hI hagree4 hsome4 hcontent4
    exact ⟨⟨h4, lib2, cat4⟩, hmain, hT4, hI4, hnext, hHC, hMI⟩
  · rw [hclc] at hfacts hnamesOK hcllen
    have hlen1 : s.cat.collections.length = cl2.length + 1 := by
      rw [← hcllen]
      rfl
    obtain ⟨h4, cat4, heq4, hagree4, hsome4, hcontent4⟩ :=
      restoreColls_save lib2 h2 s.heap (c0 :: cl2) h2 NewCatalog [] (fun b => rfl) hfacts
        hnamesOK
    rw [List.length_cons, List.append_nil] at heq4
    have hRC2 : RestoreCatalog h2 lib2 (catalogSave s.heap s.cat) =
        .ok (h4, cat4, []) := by
      rw [hRC, hclc, hlen1]
      rw [restoreColls_cons_space (by decide)]
      exact heq4
    have hRC3 : RestoreCatalog h2 lib2 rest2 = .ok (h4, cat4, []) := by
      rcases hrest2 with hr2 | hr2
      · rw [hr2]
        exact hRC2
      · rw [hr2, RestoreCatalog_cons_space (by decide)]
        exact hRC2
    have hmain : restoreAllOp s (saveAll s.heap s.lib s.cat) =
        (⟨h4, lib2, cat4⟩, .ok ()) := by
      unfold restoreAllOp saveAll
      rw [hRL]
      try simp only
      rw [hRC3]
    rw [← hclc] at hsome4 hcontent4
    obtain ⟨hT4, hI4, hHC, hMI⟩ := roundtrip_assemble hwf hT hI hagree4 hsome4 hcontent4
    exact ⟨⟨h4, lib2, cat4⟩, hmain, hT4, hI4, hnext, hHC, hMI⟩

theorem C1_save_restore_roundtrip_witness :
    ∃ u : S, restoreAllOp initS (saveAll initS.heap initS.lib initS.cat) = (u, .ok ()) ∧
      (∀ t, (libFindT u.heap u.lib t).map coreOf =
        (libFindT initS.heap initS.lib t).map coreOf) ∧
      (∀ i, (libFindI u.heap u.lib i).map coreOf =
        (libFindI initS.heap initS.lib i).map coreOf) ∧
      u.lib.nextID = maxIDOf u.lib + 1 ∧
      (∀ n, hasColl u.cat n = hasColl initS.cat n) ∧
      (∀ n i, memberIn u.cat n i = memberIn initS.cat n i) :=
  C1_save_restore_roundtrip Reachable.init

end MM
